import Mathlib

/-!
# xdeep: structural equality with diagnostics

A shallow embedding of `equal.go` (package `xdeep`) and theorems about it.

## Value model

`Equal` receives two `interface{}` values and walks them through `reflect`.
A Go value is modelled by `Value`, a finite tree that carries what `reflect`
lets the comparator observe:

* its dynamic type (`Value.typeOf`, `none` for the untyped `nil`),
* for pointers, slices and maps the address `reflect.Value.Pointer` reports
  (for a slice: the address of its first element), and nilness,
* the elements, entries (in the order `MapKeys` yields them) and fields.

Values are trees, so every value of the model is acyclic. Floating point
numbers, functions and channels are not modelled; maps are string-keyed.

The methods a type may carry (`IEqual.Equal`, and the `Format`, `Error` or
`String` method that `%v` prints a value with) are not data of a value: they
are given by an environment `Env`.

## Recursion

`equal` recurses on both arguments at once and swaps them in the second pass
of the order-insensitive scan, so it is defined by recursion on a fuel
argument; `none` means that no result was produced. `Equal` supplies fuel
from the depth of its arguments, which is always enough (`equal_isSome`).
-/

namespace XDeep

/-! ## Types -/

/-- The kinds of `reflect.Kind` that occur in the model. -/
inductive Kind where
  | invalid
  | bool
  | int
  | string
  | ptr
  | slice
  | array
  | map
  | struct
  deriving DecidableEq, Repr

/-- One field of a struct type, as `reflect.StructField` shows it: the name,
the tag as the list of its `key:"value"` pairs, and whether the field is
exported (`CanInterface` on the field's value). -/
structure StructField where
  Name : String
  Tag : List (String × String)
  exported : Bool
  deriving DecidableEq, Repr

/-- A `reflect.Type`: its kind, its name as `%v` prints it, and for a struct
type its fields. Equality of `GoType` stands for type identity. -/
structure GoType where
  kind : Kind
  name : String
  fields : List StructField
  deriving DecidableEq, Repr

/-- The internal representation of a `time.Time`: the `wall` and `ext` words
and the location (`none` for UTC), identified by its content. -/
structure GoTime where
  wall : Nat
  ext : Int
  loc : Option String
  deriving DecidableEq, Repr

/-- A Go value held in an `interface{}`. -/
inductive Value where
  | nil : Value
  | bool (tname : String) (b : Bool) : Value
  | int (tname : String) (n : Int) : Value
  | str (tname : String) (s : String) : Value
  | time (t : GoTime) : Value
  | nilPtr (tname : String) : Value
  | ptr (tname : String) (addr : Nat) (elem : Value) : Value
  | nilSlice (tname : String) : Value
  | slice (tname : String) (addr : Nat) (elems : List Value) : Value
  | array (tname : String) (elems : List Value) : Value
  | nilMap (tname : String) : Value
  | map (tname : String) (addr : Nat) (entries : List (String × Value)) : Value
  | struct (tname : String) (fields : List StructField) (vals : List Value) : Value

/-- A Go `error`: `nil`, or an error built by `fmt.Errorf` with its message. -/
inductive GoError where
  | nil
  | errorf (msg : String)
  deriving DecidableEq, Repr

/-- The methods of the program and of its libraries that the comparator can
reach. `IEqual`: for each type that implements `IEqual` its `Equal` method
(receiver first). `timeString`: `time.Time.String`. `Stringer`: for each
other type with a `Format`, `Error` or `String` method the text that `%v`
prints a value of the type with (`<nil>` when the method panics on a nil
receiver). `locPointer`: the address of the `*time.Location` of a zone. -/
structure Env where
  IEqual : GoType → Option (Value → Value → Bool)
  timeString : GoTime → String
  Stringer : GoType → Option (Value → String)
  locPointer : String → Nat

/-- Equal Option. `IgnoreArrayOrder` is a `map[string]bool`, given by its
entries; `ignoredPath` is the lookup set `Equal` derives from `IgnoreFields`. -/
structure EqOption where
  IgnoreFields : List String := []
  IgnoreByTagName : String := ""
  IgnoreArrayOrder : List (String × Bool) := []
  TimeEqual : String := ""
  ignoredPath : List String := []

/-- The statements of `Equal` that fill `opt.ignoredPath` from
`opt.IgnoreFields`. -/
def EqOption.resolve (opt : EqOption) : EqOption :=
  { opt with ignoredPath := opt.IgnoreFields }

/-- Map index expression `opt.IgnoreArrayOrder[path]`: `false` when absent. -/
def EqOption.arrayOrder (opt : EqOption) (path : String) : Bool :=
  (opt.IgnoreArrayOrder.lookup path).getD false

/-! ## reflect -/

/-- The type of `time.Time`: a struct with three unexported fields. -/
def timeType : GoType :=
  ⟨Kind.struct, "time.Time", [⟨"wall", [], false⟩, ⟨"ext", [], false⟩, ⟨"loc", [], false⟩]⟩

/-- Function `reflect.TypeOf`: `none` for the untyped `nil`. -/
def Value.typeOf : Value → Option GoType
  | .nil => none
  | .bool t _ => some ⟨Kind.bool, t, []⟩
  | .int t _ => some ⟨Kind.int, t, []⟩
  | .str t _ => some ⟨Kind.string, t, []⟩
  | .time _ => some timeType
  | .nilPtr t => some ⟨Kind.ptr, t, []⟩
  | .ptr t _ _ => some ⟨Kind.ptr, t, []⟩
  | .nilSlice t => some ⟨Kind.slice, t, []⟩
  | .slice t _ _ => some ⟨Kind.slice, t, []⟩
  | .array t _ => some ⟨Kind.array, t, []⟩
  | .nilMap t => some ⟨Kind.map, t, []⟩
  | .map t _ _ => some ⟨Kind.map, t, []⟩
  | .struct t fs _ => some ⟨Kind.struct, t, fs⟩

/-- Function `reflect.Value.Kind` (and `reflect.Type.Kind` of the dynamic type). -/
def Value.Kind (v : Value) : Kind :=
  match v.typeOf with
  | none => Kind.invalid
  | some t => t.kind

/-- Comparison of an interface value with `nil`. -/
def Value.isNilInterface : Value → Bool
  | .nil => true
  | _ => false

/-- Function `reflect.Value.IsNil` for pointers, slices and maps. -/
def Value.IsNil : Value → Bool
  | .nilPtr _ => true
  | .nilSlice _ => true
  | .nilMap _ => true
  | _ => false

/-- Function `reflect.Value.Pointer`: the address of a pointer's target, of a slice's
first element, of a map's storage; `0` for `nil`. -/
def Value.Pointer : Value → Nat
  | .ptr _ addr _ => addr
  | .slice _ addr _ => addr
  | .map _ addr _ => addr
  | _ => 0

/-- Function `reflect.Value.Elem` followed by `Interface`, on a pointer. -/
def Value.Elem : Value → Value
  | .ptr _ _ elem => elem
  | _ => .nil

/-- The elements of a slice or array: `Index(0)`, ..., `Index(Len()-1)`. -/
def Value.elems : Value → List Value
  | .slice _ _ elems => elems
  | .array _ elems => elems
  | _ => []

/-- Function `reflect.Value.Len` of a slice or array. -/
def Value.Len (v : Value) : Nat := v.elems.length

/-- The entries of a map, in the order in which `MapKeys` yields the keys. -/
def Value.entries : Value → List (String × Value)
  | .map _ _ entries => entries
  | _ => []

/-- Function `reflect.Value.MapKeys`, each key as its `String()`. -/
def Value.MapKeys (v : Value) : List String := v.entries.map Prod.fst

/-- Function `reflect.Value.MapIndex`: `none` is the invalid (zero) `reflect.Value`. -/
def Value.MapIndex (v : Value) (key : String) : Option Value := v.entries.lookup key

/-- The field values of a struct: `Field(0)`, ..., `Field(NumField()-1)`. -/
def Value.fieldVals : Value → List Value
  | .struct _ _ vals => vals
  | _ => []

/-- Type assertion `v.(time.Time)`. -/
def Value.asTime : Value → GoTime
  | .time t => t
  | _ => ⟨0, 0, none⟩

mutual
/-- Nesting depth of a value: the fuel the comparison of it needs. -/
def Value.depth : Value → Nat
  | .ptr _ _ elem => elem.depth + 1
  | .slice _ _ elems => depthList elems + 1
  | .array _ elems => depthList elems + 1
  | .map _ _ entries => depthEntries entries + 1
  | .struct _ _ vals => depthList vals + 1
  | _ => 0
/-- Largest depth in a list of values. -/
def depthList : List Value → Nat
  | [] => 0
  | v :: vs => max v.depth (depthList vs)
/-- Largest depth among the values of map entries. -/
def depthEntries : List (String × Value) → Nat
  | [] => 0
  | (_, v) :: es => max v.depth (depthEntries es)
end

/-! ## fmt -/

/-- The verb `%v` applied to a `reflect.Type`. -/
def fmtType : Option GoType → String
  | none => "<nil>"
  | some t => t.name

/-- Elements separated by single spaces, as `fmt` prints the members of a
composite value. -/
def spaced : List String → String
  | [] => ""
  | [s] => s
  | s :: ss => s ++ " " ++ spaced ss

/-- Insertion of a rendered map entry by key order. -/
def insertEntry (e : String × String) : List (String × String) → List (String × String)
  | [] => [e]
  | x :: xs => if e.1 < x.1 then e :: x :: xs else x :: insertEntry e xs

/-- Map entries sorted by key: `fmt` prints maps in key order. -/
def sortEntries : List (String × String) → List (String × String)
  | [] => []
  | e :: es => insertEntry e (sortEntries es)

/-- Function `fmtFrac` of package `time`, run for `prec` digits: the digits
of the fraction of `v / 10 ^ prec` are put before `buf`, trailing zeros and a
decimal point without fraction being left out; with it comes `v / 10 ^ prec`. -/
def fmtFrac : Nat → Nat → Bool → List Char → List Char × Nat
  | 0, v, print, buf => (if print then '.' :: buf else buf, v)
  | prec + 1, v, print, buf =>
    let digit := v % 10
    let print := print || digit != 0
    fmtFrac prec (v / 10) print (if print then Nat.digitChar digit :: buf else buf)

/-- Function `fmtInt` of package `time`: the decimal digits of `v` put before
`buf`. -/
def fmtInt (buf : List Char) (v : Nat) : List Char := (toString v).toList ++ buf

/-- Method `time.Duration.String`, of a number of nanoseconds. -/
def durationString (d : Int) : String :=
  let u := d.natAbs
  let w : List Char :=
    if u < 1000000000 then
      if u = 0 then ['0', 's']
      else if u < 1000 then
        let r := fmtFrac 0 u false ['n', 's']
        fmtInt r.1 r.2
      else if u < 1000000 then
        let r := fmtFrac 3 u false ['µ', 's']
        fmtInt r.1 r.2
      else
        let r := fmtFrac 6 u false ['m', 's']
        fmtInt r.1 r.2
    else
      let r := fmtFrac 9 u false ['s']
      let w := fmtInt r.1 (r.2 % 60)
      let u := r.2 / 60
      if u > 0 then
        let w := fmtInt ('m' :: w) (u % 60)
        let u := u / 60
        if u > 0 then fmtInt ('h' :: w) u else w
      else w
  String.mk (if d < 0 then '-' :: w else w)

/-- Method `handleMethods` of package `fmt` under the verb `%v`: the text of
the `Format`, `Error` or `String` method of the type of the value, when it has
one. A `time.Time` and a non-nil `*time.Time` have `time.Time.String`, on a
nil `*time.Time` it panics and `fmt` prints `<nil>`; a `time.Duration` has
`time.Duration.String`; the methods of other types are those of `env`. -/
def handleMethods (env : Env) (v : Value) : Option String :=
  match v with
  | .time t => some (env.timeString t)
  | .ptr tname _ (.time t) =>
    if tname = "*time.Time" then some (env.timeString t)
    else (env.Stringer ⟨Kind.ptr, tname, []⟩).map fun f => f v
  | .nilPtr tname =>
    if tname = "*time.Time" then some "<nil>"
    else (env.Stringer ⟨Kind.ptr, tname, []⟩).map fun f => f v
  | .int tname n =>
    if tname = "time.Duration" then some (durationString n)
    else (env.Stringer ⟨Kind.int, tname, []⟩).map fun f => f v
  | _ => (v.typeOf.bind env.Stringer).map fun f => f v

/-- The text of a value under `%v`: the text of its method when the value can
be passed to one (`CanInterface`, not so inside an unexported field) and has
one, otherwise the text `raw` that `printValue` gives by the kind. -/
def withMethods (env : Env) (can : Bool) (v : Value) (raw : String) : String :=
  if can then (handleMethods env v).getD raw else raw

mutual
/-- Method `printValue` of package `fmt` under the verb `%v`. `top` tells
whether the value is the operand itself (depth 0: a pointer to a composite is
then printed as `&` and its target, anywhere else as its address); `can`
tells whether the value can be passed to a method (`CanInterface`). A
timestamp that cannot is printed as the struct of its three fields. -/
def printValue (env : Env) (top can : Bool) : Value → String
  | .nil => "<nil>"
  | .bool t b => withMethods env can (.bool t b) (toString b)
  | .int t n => withMethods env can (.int t n) (toString n)
  | .str t s => withMethods env can (.str t s) s
  | .time t =>
    withMethods env can (.time t)
      ("\x7b" ++ toString t.wall ++ " " ++ toString t.ext ++ " "
        ++ (match t.loc with
          | none => "<nil>"
          | some z => "0x" ++ String.mk (Nat.toDigits 16 (env.locPointer z))) ++ "\x7d")
  | .nilPtr t => withMethods env can (.nilPtr t) "<nil>"
  | .ptr t addr elem =>
    withMethods env can (.ptr t addr elem)
      (if top ∧ (elem.Kind = Kind.array ∨ elem.Kind = Kind.slice ∨ elem.Kind = Kind.struct
          ∨ elem.Kind = Kind.map) then
        "&" ++ printValue env false can elem
      else
        "0x" ++ String.mk (Nat.toDigits 16 addr))
  | .nilSlice t => withMethods env can (.nilSlice t) "[]"
  | .slice t addr elems =>
    withMethods env can (.slice t addr elems) ("[" ++ spaced (printValues env can elems) ++ "]")
  | .array t elems =>
    withMethods env can (.array t elems) ("[" ++ spaced (printValues env can elems) ++ "]")
  | .nilMap t => withMethods env can (.nilMap t) "map[]"
  | .map t addr entries =>
    withMethods env can (.map t addr entries)
      ("map[" ++ spaced ((sortEntries (printEntries env can entries)).map fun e =>
        e.1 ++ ":" ++ e.2) ++ "]")
  | .struct t fs vals =>
    withMethods env can (.struct t fs vals)
      ("\x7b" ++ spaced (printFields env can fs vals) ++ "\x7d")
/-- The elements of a sequence, each printed by `printValue`. -/
def printValues (env : Env) (can : Bool) : List Value → List String
  | [] => []
  | v :: vs => printValue env false can v :: printValues env can vs
/-- The entries of a map, each value printed by `printValue`. -/
def printEntries (env : Env) (can : Bool) : List (String × Value) → List (String × String)
  | [] => []
  | (k, v) :: es => (k, printValue env false can v) :: printEntries env can es
/-- The fields of a struct, each printed by `printValue`; the value of an
unexported field cannot be passed to a method, nor can its parts. -/
def printFields (env : Env) (can : Bool) : List StructField → List Value → List String
  | _, [] => []
  | [], v :: vs => printValue env false can v :: printFields env can [] vs
  | f :: fs, v :: vs =>
    printValue env false (can && f.exported) v :: printFields env can fs vs
end

/-- The verb `%v` applied to an operand of `fmt.Errorf` (method `printArg` of
package `fmt`). -/
def fmtV (env : Env) (v : Value) : String := printValue env true true v

/-! ## time -/

/-- Conversion to `int64`: two's complement wrap-around. -/
def wrap64 (x : Int) : Int := (x + 2 ^ 63) % 2 ^ 64 - 2 ^ 63

/-- Seconds from year 1 to 1885 (`wallToInternal` of package `time`). -/
def wallToInternal : Int := (1884 * 365 + 1884 / 4 - 1884 / 100 + 1884 / 400) * 86400

/-- Seconds from year 1 to 1970 (`unixToInternal` of package `time`). -/
def unixToInternal : Int := (1969 * 365 + 1969 / 4 - 1969 / 100 + 1969 / 400) * 86400

/-- Method `Time.sec`: seconds since year 1; with the `hasMonotonic` bit (bit 63)
set they are stored in bits 30..62 of `wall`, else in `ext`. -/
def GoTime.sec (t : GoTime) : Int :=
  if t.wall / 2 ^ 63 % 2 = 1 then wrap64 (wallToInternal + ((t.wall / 2 ^ 30 % 2 ^ 33 : Nat) : Int))
  else t.ext

/-- Method `Time.nsec`: the low 30 bits of `wall`. -/
def GoTime.nsec (t : GoTime) : Int := ((t.wall % 2 ^ 30 : Nat) : Int)

/-- Method `Time.UnixNano`: nanoseconds since the Unix epoch, in `int64`. -/
def GoTime.UnixNano (t : GoTime) : Int :=
  wrap64 (wrap64 (wrap64 (t.sec - unixToInternal) * 1000000000) + t.nsec)

/-- Function `reflect.DeepEqual` on the values that reach it in `equal`: scalars of
one type (pointers, maps, sequences and structs are dispatched before) and,
in `equalTime`, timestamps, whose representation is compared field by field. -/
def deepEqual : Value → Value → Bool
  | .nil, .nil => true
  | .bool t b, .bool u c => t = u ∧ b = c
  | .int t n, .int u m => t = u ∧ n = m
  | .str t s, .str u r => t = u ∧ s = r
  | .time t, .time u => t = u
  | _, _ => false

/-! ## equal.go -/

/-- Sequencing of two steps with the Go idiom
`if err := step; err != nil { return err }`: the rest runs only after a step
that returned `nil`; an error, or the absence of a result, is passed on. -/
def GoError.andThen (r : Option GoError) (rest : Option GoError) : Option GoError :=
  match r with
  | some GoError.nil => rest
  | _ => r

/-- Function `joinPath`: the segments joined, without the leading `"."` when
the parent path is empty. -/
def joinPath (ps : List String) : String :=
  match ps with
  | p0 :: p1 :: rest => if p0 = "" ∧ p1 = "." then String.join rest else String.join ps
  | _ => String.join ps

/-- Function `equalTime`. -/
def equalTime (env : Env) (expect actual : GoTime) (path : String) (equal : String) : GoError :=
  if equal = "unixNano" then
    let t1 := expect.UnixNano
    let t2 := actual.UnixNano
    if t1 ≠ t2 then
      GoError.errorf (path ++ ": different unixNano time, " ++ toString t1 ++ " vs " ++ toString t2)
    else GoError.nil
  else if ¬ deepEqual (Value.time expect) (Value.time actual) then
    GoError.errorf (path ++ ": different value, " ++ env.timeString expect ++ " vs "
      ++ env.timeString actual)
  else GoError.nil

/-- The loop of `equalMap` over the keys of `expect`; `eq` is the recursive
call of `equal`. -/
def equalMap.loop (eq : Value → Value → String → Option GoError) (expectV actualV : Value)
    (path : String) : List String → Option GoError
  | [] => some GoError.nil
  | key :: keys =>
    let v1 := expectV.MapIndex key
    let v2 := actualV.MapIndex key
    let ipath := joinPath [path, ".", key]
    match v1, v2 with
    | some x, some y => GoError.andThen (eq x y ipath) (equalMap.loop eq expectV actualV path keys)
    | _, _ =>
      some (GoError.errorf (ipath ++ ": different map key isValid, " ++ toString v1.isSome
        ++ " vs " ++ toString v2.isSome))

/-- Function `equalMap`. -/
def equalMap (eq : Value → Value → String → Option GoError) (expectV actualV : Value)
    (path : String) : Option GoError :=
  let expectKeys := expectV.MapKeys
  let actualKeys := actualV.MapKeys
  if expectKeys.length ≠ actualKeys.length then
    some (GoError.errorf (path ++ ": different map key length, " ++ toString expectKeys.length
      ++ " vs " ++ toString actualKeys.length))
  else equalMap.loop eq expectV actualV path expectKeys

/-- The path of field `f` under `path` in `equalStruct`; `none` when the
field is skipped by its tag (`continue`). -/
def equalStruct.ipath (opt : EqOption) (path : String) (f : StructField) : Option String :=
  if opt.IgnoreByTagName ≠ "" then
    match f.Tag.lookup opt.IgnoreByTagName with
    | some tag =>
      let tag := String.mk (tag.toList.takeWhile fun c => c ≠ ',')
      if tag = "-" then none
      else if tag = "" then some (joinPath [path, ".", f.Name])
      else some (joinPath [path, ".", tag])
    | none => some (joinPath [path, ".", f.Name])
  else some (joinPath [path, ".", f.Name])

/-- The loop of `equalStruct` over the fields of the type of `expect`, with
the field values of both sides. -/
def equalStruct.loop (opt : EqOption) (eq : Value → Value → String → Option GoError)
    (path : String) : List StructField → List Value → List Value → Option GoError
  | f :: fs, x :: xs, y :: ys =>
    match equalStruct.ipath opt path f with
    | none => equalStruct.loop opt eq path fs xs ys
    | some ipath =>
      if f.exported then
        GoError.andThen (eq x y ipath) (equalStruct.loop opt eq path fs xs ys)
      else equalStruct.loop opt eq path fs xs ys
  | _, _, _ => some GoError.nil

/-- Function `equalStruct`. -/
def equalStruct (opt : EqOption) (eq : Value → Value → String → Option GoError)
    (fields : List StructField) (expectV actualV : Value) (path : String) : Option GoError :=
  equalStruct.loop opt eq path fields expectV.fieldVals actualV.fieldVals

/-- The index loop of `equalSlice` (order-sensitive pass), from index `i`.
`Index(i)` beyond the length of `actual` panics: no result. -/
def equalSlice.loop (eq : Value → Value → String → Option GoError) (path : String) :
    Nat → List Value → List Value → Option GoError
  | _, [], _ => some GoError.nil
  | _, _ :: _, [] => none
  | i, x :: xs, y :: ys =>
    GoError.andThen (eq x y (joinPath [path, "[", toString i, "]"]))
      (equalSlice.loop eq path (i + 1) xs ys)

/-- The inner loop of `compare` in `equalSlice`: whether some `b[j]` compares
equal to `x` at `ipath` (`continue L1`). -/
def equalSlice.find (eq : Value → Value → String → Option GoError) (x : Value) (ipath : String) :
    List Value → Option Bool
  | [] => some false
  | y :: ys =>
    match eq x y ipath with
    | none => none
    | some GoError.nil => some true
    | some (GoError.errorf _) => equalSlice.find eq x ipath ys

/-- The outer loop of `compare` in `equalSlice`, from index `i` of `a`. -/
def equalSlice.scan (env : Env) (eq : Value → Value → String → Option GoError) (path : String)
    (b : Value) : Nat → List Value → Option GoError
  | _, [] => some GoError.nil
  | i, x :: xs =>
    match equalSlice.find eq x (joinPath [path, "[", toString i, "]"]) b.elems with
    | none => none
    | some true => equalSlice.scan env eq path b (i + 1) xs
    | some false =>
      some (GoError.errorf (path ++ "[" ++ toString i ++ "]: " ++ fmtV env x
        ++ " not found in " ++ fmtV env b))

/-- The closure `compare` of `equalSlice`: every element of `a` has an equal
element in `b`. It is called on sequences of one length, so that `j < size`
ranges over all of `b`. -/
def equalSlice.compare (env : Env) (eq : Value → Value → String → Option GoError)
    (path : String) (a b : Value) : Option GoError :=
  equalSlice.scan env eq path b 0 a.elems

/-- Function `equalSlice`. The order-sensitive loop does not return when it
has passed: the two containment scans run in either mode. -/
def equalSlice (env : Env) (opt : EqOption) (eq : Value → Value → String → Option GoError)
    (expectV actualV : Value) (path : String) : Option GoError :=
  let size := expectV.Len
  if size ≠ actualV.Len then
    some (GoError.errorf (path ++ ": different array/slice length, " ++ toString size ++ " vs "
      ++ toString actualV.Len))
  else
    GoError.andThen
      (if ¬ opt.arrayOrder path ∧ ¬ opt.arrayOrder "*" then
        equalSlice.loop eq path 0 expectV.elems actualV.elems
      else some GoError.nil)
      (GoError.andThen (equalSlice.compare env eq path expectV actualV)
        (equalSlice.compare env eq path actualV expectV))

/-- The body of function `equal`; `eq` stands for its recursive calls. In the
pointer branch the types of the two values are equal, so both are pointers
and both are dereferenced. -/
def equal.step (env : Env) (opt : EqOption) (eq : Value → Value → String → Option GoError)
    (expect actual : Value) (path : String) : Option GoError :=
  if path ∈ opt.ignoredPath then some GoError.nil
  else
    let expectT := expect.typeOf
    let actualT := actual.typeOf
    if expectT ≠ actualT then
      some (GoError.errorf (path ++ ": different Type, " ++ fmtType expectT ++ " vs "
        ++ fmtType actualT))
    else if expect.isNilInterface ∧ actual.isNilInterface then some GoError.nil
    else if (¬ expect.isNilInterface ∧ actual.isNilInterface)
        ∨ (expect.isNilInterface ∧ ¬ actual.isNilInterface) then
      some (GoError.errorf (path ++ ": different IsNil, " ++ fmtV env expect ++ " vs "
        ++ fmtV env actual))
    else
      let isRef := expect.Kind = Kind.ptr ∨ expect.Kind = Kind.slice ∨ expect.Kind = Kind.map
      if isRef ∧ expect.IsNil ∧ actual.IsNil then some GoError.nil
      else if isRef ∧ expect.IsNil ∧ ¬ actual.IsNil then
        some (GoError.errorf (path ++ ": different IsNil, " ++ toString expect.IsNil ++ " vs "
          ++ toString actual.IsNil))
      else if isRef ∧ ¬ expect.IsNil ∧ actual.IsNil then
        some (GoError.errorf (path ++ ": different IsNil, " ++ toString expect.IsNil ++ " vs "
          ++ toString actual.IsNil))
      else if isRef ∧ expect.Pointer = actual.Pointer then some GoError.nil
      else
        match expectT.bind env.IEqual with
        | some e =>
          if e expect actual then some GoError.nil
          else
            some (GoError.errorf (path ++ ": not equal, compared via implement IEqual interface"))
        | none =>
          if expect.Kind = Kind.ptr ∨ actual.Kind = Kind.ptr then
            eq expect.Elem actual.Elem path
          else if expect.Kind = Kind.map then
            equalMap eq expect actual path
          else if expect.Kind = Kind.slice ∨ expect.Kind = Kind.array then
            equalSlice env opt eq expect actual path
          else if expectT = some timeType then
            some (equalTime env expect.asTime actual.asTime path opt.TimeEqual)
          else if expect.Kind = Kind.struct then
            equalStruct opt eq (match expectT with | some t => t.fields | none => [])
              expect actual path
          else if ¬ deepEqual expect actual then
            some (GoError.errorf (path ++ ": different value, " ++ fmtV env expect ++ " vs "
              ++ fmtV env actual))
          else some GoError.nil

/-- Function `equal`, by recursion on fuel: one unit per level of nesting
(`none`: fuel exhausted). -/
def equal (env : Env) (opt : EqOption) : Nat → Value → Value → String → Option GoError
  | 0 => fun _ _ _ => none
  | fuel + 1 => equal.step env opt (equal env opt fuel)

/-- The call `equal(expect, actual, path, opt)`, with the fuel that the depth
of the two values asks for. -/
def equalAt (env : Env) (opt : EqOption) (expect actual : Value) (path : String) :
    Option GoError :=
  equal env opt (max expect.depth actual.depth + 1) expect actual path

/-- Function `Equal`. `opts` are the variadic `*Option` arguments (`none` is
a nil pointer); more than one is a panic, which yields no result. -/
def Equal (env : Env) (expect actual : Value) (opts : List (Option EqOption)) :
    Option GoError :=
  if opts.length > 1 then none
  else
    let opt : EqOption :=
      match opts with
      | [some o] => o
      | _ => {}
    let opt : EqOption := opt.resolve
    equalAt env opt expect actual ""

/-! ## Iteration order of maps -/

mutual
/-- The relation `Reorder v w`: `w` is the value `v` as another run meets it,
the same value with the keys of its maps, pairwise distinct, iterated in
another order. -/
inductive Reorder : Value → Value → Prop
  | nil : Reorder Value.nil Value.nil
  | bool (t : String) (b : Bool) : Reorder (Value.bool t b) (Value.bool t b)
  | int (t : String) (n : Int) : Reorder (Value.int t n) (Value.int t n)
  | str (t : String) (s : String) : Reorder (Value.str t s) (Value.str t s)
  | time (t : GoTime) : Reorder (Value.time t) (Value.time t)
  | nilPtr (t : String) : Reorder (Value.nilPtr t) (Value.nilPtr t)
  | nilSlice (t : String) : Reorder (Value.nilSlice t) (Value.nilSlice t)
  | nilMap (t : String) : Reorder (Value.nilMap t) (Value.nilMap t)
  | ptr (t : String) (addr : Nat) {v w : Value} :
    Reorder v w → Reorder (Value.ptr t addr v) (Value.ptr t addr w)
  | slice (t : String) (addr : Nat) {vs ws : List Value} :
    ReorderList vs ws → Reorder (Value.slice t addr vs) (Value.slice t addr ws)
  | array (t : String) {vs ws : List Value} :
    ReorderList vs ws → Reorder (Value.array t vs) (Value.array t ws)
  | map (t : String) (addr : Nat) {es es1 es2 : List (String × Value)} :
    (es.map Prod.fst).Nodup → ReorderEntries es es1 → es1.Perm es2 →
    Reorder (Value.map t addr es) (Value.map t addr es2)
  | struct (t : String) (fs : List StructField) {vs ws : List Value} :
    ReorderList vs ws → Reorder (Value.struct t fs vs) (Value.struct t fs ws)
/-- The relation `Reorder`, member by member. -/
inductive ReorderList : List Value → List Value → Prop
  | nil : ReorderList [] []
  | cons {v w : Value} {vs ws : List Value} :
    Reorder v w → ReorderList vs ws → ReorderList (v :: vs) (w :: ws)
/-- The relation `Reorder` on the values of map entries, key by key. -/
inductive ReorderEntries : List (String × Value) → List (String × Value) → Prop
  | nil : ReorderEntries [] []
  | cons (k : String) {v w : Value} {es es1 : List (String × Value)} :
    Reorder v w → ReorderEntries es es1 → ReorderEntries ((k, v) :: es) ((k, w) :: es1)
end

/-! ## Instants and parts of values -/

/-- The number of nanoseconds from the Unix epoch to the instant of `t`, as an
unbounded integer. -/
def GoTime.nanosSinceEpoch (t : GoTime) : Int :=
  (t.sec - unixToInternal) * 1000000000 + t.nsec

mutual
/-- The property `P` holds of a value and of every part of it. -/
def Value.allParts (P : Value → Prop) : Value → Prop
  | .ptr t addr elem => P (.ptr t addr elem) ∧ elem.allParts P
  | .slice t addr elems => P (.slice t addr elems) ∧ allPartsList P elems
  | .array t elems => P (.array t elems) ∧ allPartsList P elems
  | .map t addr entries => P (.map t addr entries) ∧ allPartsEntries P entries
  | .struct t fs vals => P (.struct t fs vals) ∧ allPartsList P vals
  | v => P v
/-- The property `P` holds of every part of the values of a list. -/
def allPartsList (P : Value → Prop) : List Value → Prop
  | [] => True
  | v :: vs => v.allParts P ∧ allPartsList P vs
/-- The property `P` holds of every part of the values of map entries. -/
def allPartsEntries (P : Value → Prop) : List (String × Value) → Prop
  | [] => True
  | (_, v) :: es => v.allParts P ∧ allPartsEntries P es
end

/-- No part of the value has a type that implements `IEqual`. -/
def Value.NoIEqual (env : Env) (v : Value) : Prop :=
  v.allParts fun x => x.typeOf.bind env.IEqual = none

/-- The keys of every map in the value are pairwise distinct, as the keys of
a Go map are. -/
def Value.KeysDistinct (v : Value) : Prop :=
  v.allParts fun x => x.MapKeys.Nodup

/-- The first comma-delimited token of a tag value, `strings.Split(tag, ",")[0]`,
as `equalStruct` takes it. -/
def firstToken (tag : String) : String := String.mk (tag.toList.takeWhile fun c => c ≠ ',')

/-- Every diagnostic of the result `r` starts with the path `p`. -/
def StartsWithPath (p : String) (r : Option GoError) : Prop :=
  ∀ m, r = some (GoError.errorf m) → ∃ s, m = p ++ s

/-! ## Example values -/

/-- An environment of a program without `IEqual` implementations, whose types
have no `Format`, `Error` or `String` method of their own. -/
def Env.plain : Env :=
  ⟨fun _ => none, fun t => "time(" ++ toString t.wall ++ ")", fun _ => none, fun _ => 0⟩

/-- An `int`. -/
def vInt (n : Int) : Value := Value.int "int" n

/-- A `string`. -/
def vStr (s : String) : Value := Value.str "string" s

/-- The integer held by an integer value. -/
def Value.intVal : Value → Int
  | .int _ n => n
  | _ => 0

/-- The string held by a string value. -/
def Value.strVal : Value → String
  | .str _ s => s
  | _ => ""

/-- The type `type Never int`, with `func (Never) Equal(b interface{}) bool { return false }`. -/
def neverT : GoType := ⟨Kind.int, "xdeep.Never", []⟩

/-- The type `type Tags []string`, with
`func (t Tags) Equal(b interface{}) bool { _, ok := b.(Tags); return ok }`. -/
def tagsT : GoType := ⟨Kind.slice, "xdeep.Tags", []⟩

/-- The type `type Ordered []int`, with
`func (o Ordered) Equal(b interface{}) bool { p, ok := b.(Ordered); return ok && reflect.DeepEqual(o, p) }`. -/
def orderedT : GoType := ⟨Kind.slice, "xdeep.Ordered", []⟩

/-- The type `type Named struct { Name string }`, with
`func (n Named) Equal(b interface{}) bool { o, ok := b.(Named); return ok && n.Name == o.Name }`. -/
def namedT : GoType := ⟨Kind.struct, "xdeep.Named", [⟨"Name", [], true⟩]⟩

/-- The type `type AtMost int`, with
`func (m AtMost) Equal(b interface{}) bool { o, ok := b.(AtMost); return ok && m <= o }`. -/
def atMostT : GoType := ⟨Kind.int, "xdeep.AtMost", []⟩

/-- An environment in which the types `Never`, `Tags`, `Ordered`, `Named` and
`AtMost` implement `IEqual`. -/
def Env.custom : Env :=
  ⟨fun t =>
    if t = neverT then some fun _ _ => false
    else if t = tagsT then some fun _ b => decide (b.typeOf = some tagsT)
    else if t = orderedT then
      some fun o p => decide (p.typeOf = some orderedT
        ∧ o.elems.map Value.intVal = p.elems.map Value.intVal)
    else if t = namedT then
      some fun n o => decide (o.typeOf = some namedT
        ∧ n.fieldVals.map Value.strVal = o.fieldVals.map Value.strVal)
    else if t = atMostT then
      some fun m o => decide (o.typeOf = some atMostT ∧ m.intVal ≤ o.intVal)
    else none,
    Env.plain.timeString, fun _ => none, fun _ => 0⟩

/-- A `[]string` at address `addr`. -/
def vStrs (addr : Nat) (ss : List String) : Value := Value.slice "[]string" addr (ss.map vStr)

/-- A `[]int` at address `addr`. -/
def vInts (addr : Nat) (ns : List Int) : Value := Value.slice "[]int" addr (ns.map vInt)

/-- A `map[string]int` at address `addr`, keys in iteration order. -/
def vIntMap (addr : Nat) (es : List (String × Int)) : Value :=
  Value.map "map[string]int" addr (es.map fun e => (e.1, vInt e.2))

/-- The struct type `Foo` of the tests, reduced to three of its fields. -/
def fooFields : List StructField :=
  [⟨"Name", [("json", "name")], true⟩, ⟨"Arr", [("json", "-")], true⟩, ⟨"InterfaceArr", [], true⟩]

/-- A value of type `Foo`. -/
def vFoo (name : String) (arr : Value) (iarr : Value) : Value :=
  Value.struct "xdeep.Foo" fooFields [vStr name, arr, iarr]

/-- Whether the characters `s` begin with the characters `p`. -/
def beginsWith : List Char → List Char → Bool
  | [], _ => true
  | _ :: _, [] => false
  | c :: p, d :: s => c == d && beginsWith p s

/-- Whether the characters `sub` occur in `s` as a contiguous run. -/
def containsChars (sub : List Char) : List Char → Bool
  | [] => sub.isEmpty
  | c :: s => beginsWith sub (c :: s) || containsChars sub s

/-- Function `strings.Contains`. -/
def stringsContains (s sub : String) : Bool := containsChars sub.toList s.toList

/-- The type `*EqualBar` of the tests, where `type EqualBar struct { Name string }`
and `func (e *EqualBar) Equal(b interface{}) bool` holds when `b` is an
`*EqualBar` and one of the two names contains the other. -/
def equalBarPtrT : GoType := ⟨Kind.ptr, "*xdeep.EqualBar", []⟩

/-- A non-nil `*EqualBar` at address `addr`. -/
def vEqualBar (addr : Nat) (name : String) : Value :=
  Value.ptr "*xdeep.EqualBar" addr (Value.struct "xdeep.EqualBar" [⟨"Name", [], true⟩] [vStr name])

/-- The type `type Sized map[string]string`, with
`func (s Sized) Equal(b interface{}) bool { o, ok := b.(Sized); return ok && len(s) == len(o) }`. -/
def sizedT : GoType := ⟨Kind.map, "xdeep.Sized", []⟩

/-- The fields of `type Account struct`, with `ID string` tagged `json:"id"` and
`Token string` tagged `json:"-"`. -/
def accountFields : List StructField :=
  [⟨"ID", [("json", "id")], true⟩, ⟨"Token", [("json", "-")], true⟩]

/-- The type `Account`, with
`func (a Account) Equal(b interface{}) bool { o, ok := b.(Account); return ok && a == o }`. -/
def accountT : GoType := ⟨Kind.struct, "xdeep.Account", accountFields⟩

/-- A value of type `Account`. -/
def vAccount (id token : String) : Value :=
  Value.struct "xdeep.Account" accountFields [vStr id, vStr token]

/-- An environment in which the types `*EqualBar`, `Sized` and `Account`
implement `IEqual`. -/
def Env.samples : Env :=
  ⟨fun t =>
    if t = equalBarPtrT then
      some fun e b => decide (b.typeOf = some equalBarPtrT)
        && (stringsContains (e.Elem.fieldVals.map Value.strVal).headI
              (b.Elem.fieldVals.map Value.strVal).headI
          || stringsContains (b.Elem.fieldVals.map Value.strVal).headI
              (e.Elem.fieldVals.map Value.strVal).headI)
    else if t = sizedT then
      some fun s o => decide (o.typeOf = some sizedT ∧ s.MapKeys.length = o.MapKeys.length)
    else if t = accountT then
      some fun a o => decide (o.typeOf = some accountT
        ∧ a.fieldVals.map Value.strVal = o.fieldVals.map Value.strVal)
    else none,
    Env.plain.timeString, fun _ => none, fun _ => 0⟩

/-- The time `time.Unix(sec, nsec)` in UTC, for `0 ≤ nsec < 1e9`. -/
def vUnix (sec : Int) (nsec : Nat) : Value := Value.time ⟨nsec, sec + unixToInternal, none⟩

/-! ## Lemmas -/

@[simp] theorem GoError.andThen_nil (r : Option GoError) :
    GoError.andThen (some GoError.nil) r = r := rfl

@[simp] theorem GoError.andThen_errorf (m : String) (r : Option GoError) :
    GoError.andThen (some (GoError.errorf m)) r = some (GoError.errorf m) := rfl

@[simp] theorem GoError.andThen_none (r : Option GoError) :
    GoError.andThen none r = none := rfl

theorem GoError.andThen_eq_nil {r k : Option GoError} :
    GoError.andThen r k = some GoError.nil ↔ r = some GoError.nil ∧ k = some GoError.nil := by
  cases r with
  | none => simp
  | some e => cases e <;> simp

/-! ### Depth of the parts of a value -/

theorem depth_le_depthList {x : Value} {xs : List Value} (h : x ∈ xs) :
    x.depth ≤ depthList xs := by
  induction xs with
  | nil => cases h
  | cons v vs ih =>
    simp only [depthList]
    rcases List.mem_cons.1 h with rfl | h
    · exact le_max_left _ _
    · exact le_trans (ih h) (le_max_right _ _)

theorem depth_le_depthEntries {k : String} {x : Value} {es : List (String × Value)}
    (h : (k, x) ∈ es) : x.depth ≤ depthEntries es := by
  induction es with
  | nil => cases h
  | cons v vs ih =>
    obtain ⟨k', v'⟩ := v
    simp only [depthEntries]
    rcases List.mem_cons.1 h with h | h
    · cases h; exact le_max_left _ _
    · exact le_trans (ih h) (le_max_right _ _)

theorem mem_of_lookup {k : String} {x : Value} {es : List (String × Value)}
    (h : es.lookup k = some x) : (k, x) ∈ es := by
  induction es with
  | nil => simp at h
  | cons v vs ih =>
    obtain ⟨k', v'⟩ := v
    simp only [List.lookup] at h
    split at h
    · rename_i hk
      have : k = k' := by simpa using hk
      subst this
      cases h
      exact List.mem_cons_self _ _
    · exact List.mem_cons_of_mem _ (ih h)

theorem Value.depth_elems_lt (e : Value) {x : Value} (h : x ∈ e.elems) : x.depth < e.depth := by
  cases e <;> simp only [Value.elems, List.not_mem_nil] at h
  all_goals simp only [Value.depth]; exact Nat.lt_succ_of_le (depth_le_depthList h)

theorem Value.depth_fieldVals_lt (e : Value) {x : Value} (h : x ∈ e.fieldVals) :
    x.depth < e.depth := by
  cases e <;> simp only [Value.fieldVals, List.not_mem_nil] at h
  all_goals simp only [Value.depth]; exact Nat.lt_succ_of_le (depth_le_depthList h)

theorem Value.depth_MapIndex_lt (e : Value) {k : String} {x : Value}
    (h : e.MapIndex k = some x) : x.depth < e.depth := by
  cases e <;> simp only [Value.MapIndex, Value.entries, List.lookup] at h <;> try cases h
  all_goals simp only [Value.depth]; exact Nat.lt_succ_of_le (depth_le_depthEntries (mem_of_lookup h))

theorem Value.depth_Elem_lt (e : Value) (hk : e.Kind = Kind.ptr) (hn : e.IsNil = false) :
    e.Elem.depth < e.depth := by
  cases e <;> simp [Value.Kind, Value.typeOf, Value.IsNil, timeType] at hk hn
  simp [Value.Elem, Value.depth]

/-! ### The helpers depend on `eq` through the parts only -/

section congr
variable {eq eq' : Value → Value → String → Option GoError}

theorem equalSlice_loop_congr (path : String) (xs : List Value) : ∀ (i : Nat) (ys : List Value),
    (∀ x ∈ xs, ∀ y ∈ ys, ∀ q, eq x y q = eq' x y q) →
    equalSlice.loop eq path i xs ys = equalSlice.loop eq' path i xs ys := by
  induction xs with
  | nil => intro i ys _; simp [equalSlice.loop]
  | cons x xs ih =>
    intro i ys h
    cases ys with
    | nil => simp [equalSlice.loop]
    | cons y ys =>
      simp only [equalSlice.loop]
      rw [h x (List.mem_cons_self _ _) y (List.mem_cons_self _ _),
        ih (i + 1) ys fun x hx y hy q => h x (List.mem_cons_of_mem _ hx) y (List.mem_cons_of_mem _ hy) q]

theorem equalSlice.find_congr (x : Value) (q : String) (ys : List Value)
    (h : ∀ y ∈ ys, eq x y q = eq' x y q) :
    equalSlice.find eq x q ys = equalSlice.find eq' x q ys := by
  induction ys with
  | nil => simp [equalSlice.find]
  | cons y ys ih =>
    simp only [equalSlice.find]
    rw [h y (List.mem_cons_self _ _), ih fun y hy => h y (List.mem_cons_of_mem _ hy)]

theorem equalSlice.scan_congr (env : Env) (path : String) (b : Value) (xs : List Value) :
    ∀ (i : Nat), (∀ x ∈ xs, ∀ y ∈ b.elems, ∀ q, eq x y q = eq' x y q) →
    equalSlice.scan env eq path b i xs = equalSlice.scan env eq' path b i xs := by
  induction xs with
  | nil => intro i _; simp [equalSlice.scan]
  | cons x xs ih =>
    intro i h
    simp only [equalSlice.scan]
    rw [equalSlice.find_congr x _ b.elems fun y hy => h x (List.mem_cons_self _ _) y hy _,
      ih (i + 1) fun x hx y hy q => h x (List.mem_cons_of_mem _ hx) y hy q]

theorem equalSlice_congr (env : Env) (opt : EqOption) (e a : Value) (p : String)
    (h : ∀ x ∈ e.elems, ∀ y ∈ a.elems, ∀ q, eq x y q = eq' x y q)
    (h' : ∀ y ∈ a.elems, ∀ x ∈ e.elems, ∀ q, eq y x q = eq' y x q) :
    equalSlice env opt eq e a p = equalSlice env opt eq' e a p := by
  simp only [equalSlice, equalSlice.compare]
  rw [equalSlice_loop_congr p e.elems 0 a.elems h, equalSlice.scan_congr env p a e.elems 0 h,
    equalSlice.scan_congr env p e a.elems 0 h']

theorem equalMap_loop_congr (e a : Value) (p : String) (keys : List String)
    (h : ∀ k x y q, e.MapIndex k = some x → a.MapIndex k = some y → eq x y q = eq' x y q) :
    equalMap.loop eq e a p keys = equalMap.loop eq' e a p keys := by
  induction keys with
  | nil => simp [equalMap.loop]
  | cons k ks ih =>
    simp only [equalMap.loop]
    split
    · rename_i x y hx hy
      rw [h k x y _ hx hy, ih]
    · rfl

theorem equalMap_congr (e a : Value) (p : String)
    (h : ∀ k x y q, e.MapIndex k = some x → a.MapIndex k = some y → eq x y q = eq' x y q) :
    equalMap eq e a p = equalMap eq' e a p := by
  simp only [equalMap]
  rw [equalMap_loop_congr e a p _ h]

theorem equalStruct_loop_congr (opt : EqOption) (p : String) (fs : List StructField) :
    ∀ (xs ys : List Value), (∀ x ∈ xs, ∀ y ∈ ys, ∀ q, eq x y q = eq' x y q) →
    equalStruct.loop opt eq p fs xs ys = equalStruct.loop opt eq' p fs xs ys := by
  induction fs with
  | nil => intro xs ys _; simp [equalStruct.loop]
  | cons f fs ih =>
    intro xs ys h
    cases xs with
    | nil => simp [equalStruct.loop]
    | cons x xs =>
      cases ys with
      | nil => simp [equalStruct.loop]
      | cons y ys =>
        simp only [equalStruct.loop]
        rw [ih xs ys fun x hx y hy q => h x (List.mem_cons_of_mem _ hx) y (List.mem_cons_of_mem _ hy) q]
        cases equalStruct.ipath opt p f with
        | none => rfl
        | some q => simp only [h x (List.mem_cons_self _ _) y (List.mem_cons_self _ _)]

theorem equalStruct_congr (opt : EqOption) (fs : List StructField) (e a : Value) (p : String)
    (h : ∀ x ∈ e.fieldVals, ∀ y ∈ a.fieldVals, ∀ q, eq x y q = eq' x y q) :
    equalStruct opt eq fs e a p = equalStruct opt eq' fs e a p := by
  simp only [equalStruct]
  exact equalStruct_loop_congr opt p fs _ _ h

end congr

theorem Value.Kind_eq_of_typeOf_eq {e a : Value} (h : e.typeOf = a.typeOf) : e.Kind = a.Kind := by
  simp only [Value.Kind, h]

theorem equal.step_congr (env : Env) (opt : EqOption)
    {eq eq' : Value → Value → String → Option GoError} (e a : Value) (p : String)
    (h : ∀ x y q, x.depth < max e.depth a.depth → y.depth < max e.depth a.depth →
      eq x y q = eq' x y q) :
    equal.step env opt eq e a p = equal.step env opt eq' e a p := by
  have hl : ∀ {x : Value}, x.depth < e.depth → x.depth < max e.depth a.depth :=
    fun hx => lt_of_lt_of_le hx (le_max_left _ _)
  have hr : ∀ {x : Value}, x.depth < a.depth → x.depth < max e.depth a.depth :=
    fun hx => lt_of_lt_of_le hx (le_max_right _ _)
  have hmap : equalMap eq e a p = equalMap eq' e a p :=
    equalMap_congr e a p fun k x y q hx hy =>
      h x y q (hl (e.depth_MapIndex_lt hx)) (hr (a.depth_MapIndex_lt hy))
  have hslice : equalSlice env opt eq e a p = equalSlice env opt eq' e a p :=
    equalSlice_congr env opt e a p
      (fun x hx y hy q => h x y q (hl (e.depth_elems_lt hx)) (hr (a.depth_elems_lt hy)))
      (fun y hy x hx q => h y x q (hr (a.depth_elems_lt hy)) (hl (e.depth_elems_lt hx)))
  have hstruct : ∀ fs, equalStruct opt eq fs e a p = equalStruct opt eq' fs e a p := fun fs =>
    equalStruct_congr opt fs e a p fun x hx y hy q =>
      h x y q (hl (e.depth_fieldVals_lt hx)) (hr (a.depth_fieldVals_lt hy))
  simp only [equal.step, hmap, hslice, hstruct]
  by_cases h1 : p ∈ opt.ignoredPath
  · rw [if_pos h1, if_pos h1]
  rw [if_neg h1, if_neg h1]
  by_cases h2 : e.typeOf ≠ a.typeOf
  · rw [if_pos h2, if_pos h2]
  rw [if_neg h2, if_neg h2]
  by_cases h3 : e.isNilInterface = true ∧ a.isNilInterface = true
  · rw [if_pos h3, if_pos h3]
  rw [if_neg h3, if_neg h3]
  by_cases h4 : (¬ e.isNilInterface = true ∧ a.isNilInterface = true)
      ∨ (e.isNilInterface = true ∧ ¬ a.isNilInterface = true)
  · rw [if_pos h4, if_pos h4]
  rw [if_neg h4, if_neg h4]
  by_cases h5 : (e.Kind = Kind.ptr ∨ e.Kind = Kind.slice ∨ e.Kind = Kind.map)
      ∧ e.IsNil = true ∧ a.IsNil = true
  · rw [if_pos h5, if_pos h5]
  rw [if_neg h5, if_neg h5]
  by_cases h6 : (e.Kind = Kind.ptr ∨ e.Kind = Kind.slice ∨ e.Kind = Kind.map)
      ∧ e.IsNil = true ∧ ¬ a.IsNil = true
  · rw [if_pos h6, if_pos h6]
  rw [if_neg h6, if_neg h6]
  by_cases h7 : (e.Kind = Kind.ptr ∨ e.Kind = Kind.slice ∨ e.Kind = Kind.map)
      ∧ ¬ e.IsNil = true ∧ a.IsNil = true
  · rw [if_pos h7, if_pos h7]
  rw [if_neg h7, if_neg h7]
  by_cases h8 : (e.Kind = Kind.ptr ∨ e.Kind = Kind.slice ∨ e.Kind = Kind.map)
      ∧ e.Pointer = a.Pointer
  · rw [if_pos h8, if_pos h8]
  rw [if_neg h8, if_neg h8]
  cases hI : e.typeOf.bind env.IEqual with
  | some f => rfl
  | none =>
    simp only []
    by_cases h9 : e.Kind = Kind.ptr ∨ a.Kind = Kind.ptr
    · rw [if_pos h9, if_pos h9]
      have hT : e.typeOf = a.typeOf := not_not.1 h2
      have hK : a.Kind = e.Kind := (Value.Kind_eq_of_typeOf_eq hT).symm
      have hke : e.Kind = Kind.ptr := by
        rcases h9 with h9 | h9
        · exact h9
        · rw [← hK]; exact h9
      have hne : e.IsNil = false := by
        cases hb : e.IsNil
        · rfl
        · cases ha : a.IsNil
          · exact absurd ⟨Or.inl hke, hb, by simp [ha]⟩ h6
          · exact absurd ⟨Or.inl hke, hb, ha⟩ h5
      have hna : a.IsNil = false := by
        cases ha : a.IsNil
        · rfl
        · exact absurd ⟨Or.inl hke, by simp [hne], ha⟩ h7
      exact h _ _ _ (hl (e.depth_Elem_lt hke hne)) (hr (a.depth_Elem_lt (hK.trans hke) hna))
    · rw [if_neg h9, if_neg h9]

theorem equal_fuel (env : Env) (opt : EqOption) : ∀ (n m : Nat) (e a : Value) (p : String),
    max e.depth a.depth < n → max e.depth a.depth < m →
    equal env opt n e a p = equal env opt m e a p := by
  intro n
  induction n with
  | zero => intro m e a p hn; exact absurd hn (Nat.not_lt_zero _)
  | succ n ih =>
    intro m e a p hn hm
    cases m with
    | zero => exact absurd hm (Nat.not_lt_zero _)
    | succ m =>
      simp only [equal]
      apply equal.step_congr
      intro x y q hx hy
      exact ih m x y q (max_lt (by omega) (by omega)) (max_lt (by omega) (by omega))

theorem equal_eq_equalAt (env : Env) (opt : EqOption) (n : Nat) (e a : Value) (p : String)
    (hn : max e.depth a.depth < n) : equal env opt n e a p = equalAt env opt e a p :=
  equal_fuel env opt n _ e a p hn (Nat.lt_succ_self _)

/-- The recursion equation of `equal`: at a sufficient fuel the recursive
calls are again calls with sufficient fuel. -/
theorem equalAt_eq (env : Env) (opt : EqOption) (e a : Value) (p : String) :
    equalAt env opt e a p = equal.step env opt (equalAt env opt) e a p := by
  simp only [equalAt, equal]
  apply equal.step_congr
  intro x y q hx hy
  exact equal_fuel env opt _ _ x y q (max_lt hx hy) (Nat.lt_succ_self _)

/-! ### Every call with enough fuel returns -/

section total
variable {eq : Value → Value → String → Option GoError}

theorem GoError.andThen_isSome {r k : Option GoError} (hr : r.isSome) (hk : k.isSome) :
    (GoError.andThen r k).isSome := by
  cases r with
  | none => simp at hr
  | some e => cases e <;> simp [hk]

theorem equalSlice_loop_isSome (path : String) (xs : List Value) : ∀ (i : Nat) (ys : List Value),
    xs.length = ys.length → (∀ x ∈ xs, ∀ y ∈ ys, ∀ q, (eq x y q).isSome) →
    (equalSlice.loop eq path i xs ys).isSome := by
  induction xs with
  | nil => intro i ys _ _; simp [equalSlice.loop]
  | cons x xs ih =>
    intro i ys hlen h
    cases ys with
    | nil => simp at hlen
    | cons y ys =>
      simp only [equalSlice.loop]
      exact GoError.andThen_isSome (h x (List.mem_cons_self _ _) y (List.mem_cons_self _ _) _)
        (ih (i + 1) ys (by simpa using hlen)
          fun x hx y hy q => h x (List.mem_cons_of_mem _ hx) y (List.mem_cons_of_mem _ hy) q)

theorem equalSlice.find_isSome (x : Value) (q : String) (ys : List Value)
    (h : ∀ y ∈ ys, (eq x y q).isSome) : (equalSlice.find eq x q ys).isSome := by
  induction ys with
  | nil => simp [equalSlice.find]
  | cons y ys ih =>
    simp only [equalSlice.find]
    have hy := h y (List.mem_cons_self _ _)
    cases hr : eq x y q with
    | none => simp [hr] at hy
    | some r =>
      cases r with
      | nil => simp
      | errorf m => exact ih fun y hy => h y (List.mem_cons_of_mem _ hy)

theorem equalSlice.scan_isSome (env : Env) (path : String) (b : Value) (xs : List Value) :
    ∀ (i : Nat), (∀ x ∈ xs, ∀ y ∈ b.elems, ∀ q, (eq x y q).isSome) →
    (equalSlice.scan env eq path b i xs).isSome := by
  induction xs with
  | nil => intro i _; simp [equalSlice.scan]
  | cons x xs ih =>
    intro i h
    simp only [equalSlice.scan]
    have hf := @equalSlice.find_isSome eq x (joinPath [path, "[", toString i, "]"]) b.elems
      fun y hy => h x (List.mem_cons_self _ _) y hy _
    cases hr : equalSlice.find eq x (joinPath [path, "[", toString i, "]"]) b.elems with
    | none => simp [hr] at hf
    | some r =>
      cases r with
      | true => exact ih (i + 1) fun x hx y hy q => h x (List.mem_cons_of_mem _ hx) y hy q
      | false => simp

theorem equalSlice_isSome (env : Env) (opt : EqOption) (e a : Value) (p : String)
    (h : ∀ x ∈ e.elems, ∀ y ∈ a.elems, ∀ q, (eq x y q).isSome)
    (h' : ∀ y ∈ a.elems, ∀ x ∈ e.elems, ∀ q, (eq y x q).isSome) :
    (equalSlice env opt eq e a p).isSome := by
  simp only [equalSlice, equalSlice.compare]
  split_ifs with h1 h2
  · simp
  · exact GoError.andThen_isSome
      (equalSlice_loop_isSome p _ 0 _ (by simpa [Value.Len] using h1) h)
      (GoError.andThen_isSome (equalSlice.scan_isSome env p a _ 0 h)
        (equalSlice.scan_isSome env p e _ 0 h'))
  · exact GoError.andThen_isSome (by simp)
      (GoError.andThen_isSome (equalSlice.scan_isSome env p a _ 0 h)
        (equalSlice.scan_isSome env p e _ 0 h'))

theorem equalMap_isSome (e a : Value) (p : String)
    (h : ∀ k x y q, e.MapIndex k = some x → a.MapIndex k = some y → (eq x y q).isSome) :
    (equalMap eq e a p).isSome := by
  simp only [equalMap]
  split_ifs
  · simp
  · generalize e.MapKeys = keys
    induction keys with
    | nil => simp [equalMap.loop]
    | cons k ks ih =>
      simp only [equalMap.loop]
      split
      · rename_i x y hx hy
        exact GoError.andThen_isSome (h k x y _ hx hy) ih
      · simp

theorem equalStruct_isSome (opt : EqOption) (fs : List StructField) (e a : Value) (p : String)
    (h : ∀ x ∈ e.fieldVals, ∀ y ∈ a.fieldVals, ∀ q, (eq x y q).isSome) :
    (equalStruct opt eq fs e a p).isSome := by
  simp only [equalStruct]
  generalize e.fieldVals = xs at h
  generalize a.fieldVals = ys at h
  induction fs generalizing xs ys with
  | nil => simp [equalStruct.loop]
  | cons f fs ih =>
    cases xs with
    | nil => simp [equalStruct.loop]
    | cons x xs =>
      cases ys with
      | nil => simp [equalStruct.loop]
      | cons y ys =>
        have ih' := ih xs ys fun x hx y hy q =>
          h x (List.mem_cons_of_mem _ hx) y (List.mem_cons_of_mem _ hy) q
        simp only [equalStruct.loop]
        cases equalStruct.ipath opt p f with
        | none => exact ih'
        | some q =>
          simp only []
          split_ifs
          · exact GoError.andThen_isSome
              (h x (List.mem_cons_self _ _) y (List.mem_cons_self _ _) _) ih'
          · exact ih'

end total

theorem equal.step_isSome (env : Env) (opt : EqOption)
    {eq : Value → Value → String → Option GoError} (e a : Value) (p : String)
    (h : ∀ x y q, x.depth < max e.depth a.depth → y.depth < max e.depth a.depth →
      (eq x y q).isSome) :
    (equal.step env opt eq e a p).isSome := by
  have hl : ∀ {x : Value}, x.depth < e.depth → x.depth < max e.depth a.depth :=
    fun hx => lt_of_lt_of_le hx (le_max_left _ _)
  have hr : ∀ {x : Value}, x.depth < a.depth → x.depth < max e.depth a.depth :=
    fun hx => lt_of_lt_of_le hx (le_max_right _ _)
  have hmap : (equalMap eq e a p).isSome :=
    equalMap_isSome e a p fun k x y q hx hy =>
      h x y q (hl (e.depth_MapIndex_lt hx)) (hr (a.depth_MapIndex_lt hy))
  have hslice : (equalSlice env opt eq e a p).isSome :=
    equalSlice_isSome env opt e a p
      (fun x hx y hy q => h x y q (hl (e.depth_elems_lt hx)) (hr (a.depth_elems_lt hy)))
      (fun y hy x hx q => h y x q (hr (a.depth_elems_lt hy)) (hl (e.depth_elems_lt hx)))
  have hstruct : ∀ fs, (equalStruct opt eq fs e a p).isSome := fun fs =>
    equalStruct_isSome opt fs e a p fun x hx y hy q =>
      h x y q (hl (e.depth_fieldVals_lt hx)) (hr (a.depth_fieldVals_lt hy))
  simp only [equal.step]
  by_cases h1 : p ∈ opt.ignoredPath
  · rw [if_pos h1]; rfl
  rw [if_neg h1]
  by_cases h2 : e.typeOf ≠ a.typeOf
  · rw [if_pos h2]; rfl
  rw [if_neg h2]
  by_cases h3 : e.isNilInterface = true ∧ a.isNilInterface = true
  · rw [if_pos h3]; rfl
  rw [if_neg h3]
  by_cases h4 : (¬ e.isNilInterface = true ∧ a.isNilInterface = true)
      ∨ (e.isNilInterface = true ∧ ¬ a.isNilInterface = true)
  · rw [if_pos h4]; rfl
  rw [if_neg h4]
  by_cases h5 : (e.Kind = Kind.ptr ∨ e.Kind = Kind.slice ∨ e.Kind = Kind.map)
      ∧ e.IsNil = true ∧ a.IsNil = true
  · rw [if_pos h5]; rfl
  rw [if_neg h5]
  by_cases h6 : (e.Kind = Kind.ptr ∨ e.Kind = Kind.slice ∨ e.Kind = Kind.map)
      ∧ e.IsNil = true ∧ ¬ a.IsNil = true
  · rw [if_pos h6]; rfl
  rw [if_neg h6]
  by_cases h7 : (e.Kind = Kind.ptr ∨ e.Kind = Kind.slice ∨ e.Kind = Kind.map)
      ∧ ¬ e.IsNil = true ∧ a.IsNil = true
  · rw [if_pos h7]; rfl
  rw [if_neg h7]
  by_cases h8 : (e.Kind = Kind.ptr ∨ e.Kind = Kind.slice ∨ e.Kind = Kind.map)
      ∧ e.Pointer = a.Pointer
  · rw [if_pos h8]; rfl
  rw [if_neg h8]
  cases hI : e.typeOf.bind env.IEqual with
  | some f =>
    simp only []
    split_ifs <;> rfl
  | none =>
    simp only []
    by_cases h9 : e.Kind = Kind.ptr ∨ a.Kind = Kind.ptr
    · rw [if_pos h9]
      have hT : e.typeOf = a.typeOf := not_not.1 h2
      have hK : a.Kind = e.Kind := (Value.Kind_eq_of_typeOf_eq hT).symm
      have hke : e.Kind = Kind.ptr := by
        rcases h9 with h9 | h9
        · exact h9
        · rw [← hK]; exact h9
      have hne : e.IsNil = false := by
        cases hb : e.IsNil
        · rfl
        · cases ha : a.IsNil
          · exact absurd ⟨Or.inl hke, hb, by simp [ha]⟩ h6
          · exact absurd ⟨Or.inl hke, hb, ha⟩ h5
      have hna : a.IsNil = false := by
        cases ha : a.IsNil
        · rfl
        · exact absurd ⟨Or.inl hke, by simp [hne], ha⟩ h7
      exact h _ _ _ (hl (e.depth_Elem_lt hke hne)) (hr (a.depth_Elem_lt (hK.trans hke) hna))
    · rw [if_neg h9]
      split_ifs
      · exact hmap
      · exact hslice
      · rfl
      · exact hstruct _
      · rfl
      · rfl

theorem equal_isSome (env : Env) (opt : EqOption) : ∀ (n : Nat) (e a : Value) (p : String),
    max e.depth a.depth < n → (equal env opt n e a p).isSome := by
  intro n
  induction n with
  | zero => intro e a p hn; exact absurd hn (Nat.not_lt_zero _)
  | succ n ih =>
    intro e a p hn
    simp only [equal]
    apply equal.step_isSome
    intro x y q hx hy
    exact ih x y q (max_lt (by omega) (by omega))

/-- The comparison always returns: `nil` or an error. -/
theorem equalAt_isSome (env : Env) (opt : EqOption) (e a : Value) (p : String) :
    (equalAt env opt e a p).isSome :=
  equal_isSome env opt _ e a p (Nat.lt_succ_self _)

theorem equalAt_cases (env : Env) (opt : EqOption) (e a : Value) (p : String) :
    equalAt env opt e a p = some GoError.nil ∨ ∃ m, equalAt env opt e a p = some (GoError.errorf m) := by
  have h := equalAt_isSome env opt e a p
  cases hr : equalAt env opt e a p with
  | none => simp [hr] at h
  | some r =>
    cases r with
    | nil => exact Or.inl rfl
    | errorf m => exact Or.inr ⟨m, rfl⟩

/-! ### The checks before the dispatch -/

theorem equalAt_ignored (env : Env) (opt : EqOption) (e a : Value) (p : String)
    (hp : p ∈ opt.ignoredPath) : equalAt env opt e a p = some GoError.nil := by
  rw [equalAt_eq]
  simp only [equal.step, if_pos hp]

theorem Value.isNilInterface_of_Kind {e : Value} (h : e.Kind ≠ Kind.invalid) :
    e.isNilInterface = false := by
  cases e <;> simp [Value.Kind, Value.typeOf, Value.isNilInterface] at h ⊢

theorem Value.IsNil_eq_false_of_Kind {e : Value}
    (h : ¬ (e.Kind = Kind.ptr ∨ e.Kind = Kind.slice ∨ e.Kind = Kind.map)) : e.IsNil = false := by
  cases e <;> simp [Value.Kind, Value.typeOf, Value.IsNil] at h ⊢

/-- The structural part of `equal`: what a call does once the ignore, type,
nilness, identity and `IEqual` checks have let it through. -/
theorem equal.step_structural (env : Env) (opt : EqOption)
    (eq : Value → Value → String → Option GoError) (e a : Value) (p : String)
    (hp : p ∉ opt.ignoredPath) (hT : e.typeOf = a.typeOf) (hk : e.Kind ≠ Kind.invalid)
    (hne : e.IsNil = false) (hna : a.IsNil = false)
    (hptr : (e.Kind = Kind.ptr ∨ e.Kind = Kind.slice ∨ e.Kind = Kind.map) →
      e.Pointer ≠ a.Pointer)
    (hI : e.typeOf.bind env.IEqual = none) :
    equal.step env opt eq e a p =
      if e.Kind = Kind.ptr then eq e.Elem a.Elem p
      else if e.Kind = Kind.map then equalMap eq e a p
      else if e.Kind = Kind.slice ∨ e.Kind = Kind.array then equalSlice env opt eq e a p
      else if e.typeOf = some timeType then
        some (equalTime env e.asTime a.asTime p opt.TimeEqual)
      else if e.Kind = Kind.struct then
        equalStruct opt eq (match e.typeOf with | some t => t.fields | none => []) e a p
      else if ¬ deepEqual e a then
        some (GoError.errorf (p ++ ": different value, " ++ fmtV env e ++ " vs "
          ++ fmtV env a))
      else some GoError.nil := by
  have hK : a.Kind = e.Kind := (Value.Kind_eq_of_typeOf_eq hT).symm
  have hie : e.isNilInterface = false := Value.isNilInterface_of_Kind hk
  have hia : a.isNilInterface = false := Value.isNilInterface_of_Kind (hK ▸ hk)
  simp only [equal.step, if_neg hp]
  rw [if_neg (not_not.2 hT), if_neg (by simp [hie]), if_neg (by simp [hie, hia]),
    if_neg (by simp [hne]), if_neg (by simp [hne]), if_neg (by simp [hna]),
    if_neg (fun h => hptr h.1 h.2)]
  simp only [hI, hK, or_self]

theorem equalAt_structural (env : Env) (opt : EqOption) (e a : Value) (p : String)
    (hp : p ∉ opt.ignoredPath) (hT : e.typeOf = a.typeOf) (hk : e.Kind ≠ Kind.invalid)
    (hne : e.IsNil = false) (hna : a.IsNil = false)
    (hptr : (e.Kind = Kind.ptr ∨ e.Kind = Kind.slice ∨ e.Kind = Kind.map) →
      e.Pointer ≠ a.Pointer)
    (hI : e.typeOf.bind env.IEqual = none) :
    equalAt env opt e a p =
      if e.Kind = Kind.ptr then equalAt env opt e.Elem a.Elem p
      else if e.Kind = Kind.map then equalMap (equalAt env opt) e a p
      else if e.Kind = Kind.slice ∨ e.Kind = Kind.array then
        equalSlice env opt (equalAt env opt) e a p
      else if e.typeOf = some timeType then
        some (equalTime env e.asTime a.asTime p opt.TimeEqual)
      else if e.Kind = Kind.struct then
        equalStruct opt (equalAt env opt) (match e.typeOf with | some t => t.fields | none => [])
          e a p
      else if ¬ deepEqual e a then
        some (GoError.errorf (p ++ ": different value, " ++ fmtV env e ++ " vs "
          ++ fmtV env a))
      else some GoError.nil := by
  rw [equalAt_eq]
  exact equal.step_structural env opt _ e a p hp hT hk hne hna hptr hI

/-- Two non-nil sequences of one type that is not `IEqual` and, for slices,
not starting at one address, are compared by `equalSlice`. -/
theorem equalAt_seq (env : Env) (opt : EqOption) (e a : Value) (p : String)
    (hp : p ∉ opt.ignoredPath) (hT : e.typeOf = a.typeOf)
    (hk : e.Kind = Kind.slice ∨ e.Kind = Kind.array)
    (hne : e.IsNil = false) (hna : a.IsNil = false)
    (hptr : e.Kind = Kind.slice → e.Pointer ≠ a.Pointer)
    (hI : e.typeOf.bind env.IEqual = none) :
    equalAt env opt e a p = equalSlice env opt (equalAt env opt) e a p := by
  rw [equalAt_structural env opt e a p hp hT (by rcases hk with h | h <;> simp [h]) hne hna
    (by rcases hk with h | h <;> simp [h]; exact hptr h) hI]
  rcases hk with h | h <;> simp [h]

/-! ### Comparing a value with itself -/

section self
variable {eq : Value → Value → String → Option GoError}

theorem equalSlice_loop_self (path : String) (xs : List Value) : ∀ (i : Nat),
    (∀ x ∈ xs, ∀ q, eq x x q = some GoError.nil) →
    equalSlice.loop eq path i xs xs = some GoError.nil := by
  induction xs with
  | nil => intro i _; simp [equalSlice.loop]
  | cons x xs ih =>
    intro i h
    simp only [equalSlice.loop]
    rw [h x (List.mem_cons_self _ _), GoError.andThen_nil]
    exact ih (i + 1) fun x hx q => h x (List.mem_cons_of_mem _ hx) q

theorem equalSlice.find_of_mem (x : Value) (q : String) (ys : List Value)
    (ht : ∀ y ∈ ys, (eq x y q).isSome) (hm : ∃ y ∈ ys, eq x y q = some GoError.nil) :
    equalSlice.find eq x q ys = some true := by
  induction ys with
  | nil => obtain ⟨y, hy, _⟩ := hm; cases hy
  | cons y ys ih =>
    simp only [equalSlice.find]
    have hy := ht y (List.mem_cons_self _ _)
    cases hr : eq x y q with
    | none => simp [hr] at hy
    | some r =>
      cases r with
      | nil => rfl
      | errorf m =>
        refine ih (fun y hy => ht y (List.mem_cons_of_mem _ hy)) ?_
        obtain ⟨z, hz, hzq⟩ := hm
        rcases List.mem_cons.1 hz with rfl | hz
        · rw [hr] at hzq; cases hzq
        · exact ⟨z, hz, hzq⟩

theorem equalSlice.scan_of_mem (env : Env) (path : String) (b : Value) (xs : List Value) :
    ∀ (i : Nat), (∀ x ∈ xs, ∀ y ∈ b.elems, ∀ q, (eq x y q).isSome) →
    (∀ x ∈ xs, ∀ q, ∃ y ∈ b.elems, eq x y q = some GoError.nil) →
    equalSlice.scan env eq path b i xs = some GoError.nil := by
  induction xs with
  | nil => intro i _ _; simp [equalSlice.scan]
  | cons x xs ih =>
    intro i ht hm
    simp only [equalSlice.scan]
    rw [equalSlice.find_of_mem x _ b.elems (fun y hy => ht x (List.mem_cons_self _ _) y hy _)
      (hm x (List.mem_cons_self _ _) _)]
    exact ih (i + 1) (fun x hx => ht x (List.mem_cons_of_mem _ hx))
      (fun x hx => hm x (List.mem_cons_of_mem _ hx))

theorem equalSlice_self (env : Env) (opt : EqOption) (e : Value) (p : String)
    (ht : ∀ x ∈ e.elems, ∀ y ∈ e.elems, ∀ q, (eq x y q).isSome)
    (h : ∀ x ∈ e.elems, ∀ q, eq x x q = some GoError.nil) :
    equalSlice env opt eq e e p = some GoError.nil := by
  have hs := @equalSlice.scan_of_mem eq env p e e.elems 0 ht
    (fun x hx q => ⟨x, hx, h x hx q⟩)
  simp only [equalSlice, equalSlice.compare, hs, GoError.andThen_nil, ne_eq, not_true_eq_false,
    if_false, equalSlice_loop_self p e.elems 0 h]
  split_ifs <;> rfl

theorem lookup_isSome_of_mem_keys {k : String} {es : List (String × Value)}
    (h : k ∈ es.map Prod.fst) : ∃ x, es.lookup k = some x := by
  induction es with
  | nil => simp at h
  | cons e es ih =>
    obtain ⟨k', v⟩ := e
    simp only [List.lookup]
    by_cases hk : k = k'
    · subst hk; simp
    · have hk' : (k == k') = false := by simpa using hk
      rw [hk']
      simp only [List.map_cons, List.mem_cons] at h
      rcases h with h | h
      · exact absurd h hk
      · exact ih h

theorem equalMap_loop_self (e : Value) (p : String) (keys : List String)
    (hk : ∀ k ∈ keys, k ∈ e.MapKeys)
    (h : ∀ k x q, e.MapIndex k = some x → eq x x q = some GoError.nil) :
    equalMap.loop eq e e p keys = some GoError.nil := by
  induction keys with
  | nil => simp [equalMap.loop]
  | cons k ks ih =>
    obtain ⟨x, hx⟩ := lookup_isSome_of_mem_keys (hk k (List.mem_cons_self _ _))
    have hx' : e.MapIndex k = some x := hx
    simp only [equalMap.loop, hx']
    rw [h k x _ hx', GoError.andThen_nil]
    exact ih fun k hk' => hk k (List.mem_cons_of_mem _ hk')

theorem equalMap_self (e : Value) (p : String)
    (h : ∀ k x q, e.MapIndex k = some x → eq x x q = some GoError.nil) :
    equalMap eq e e p = some GoError.nil := by
  simp only [equalMap, ne_eq, not_true_eq_false, if_false]
  exact equalMap_loop_self e p _ (fun k hk => hk) h

theorem equalStruct_loop_self (opt : EqOption) (p : String) (fs : List StructField) :
    ∀ (xs : List Value), (∀ x ∈ xs, ∀ q, eq x x q = some GoError.nil) →
    equalStruct.loop opt eq p fs xs xs = some GoError.nil := by
  induction fs with
  | nil => intro xs _; simp [equalStruct.loop]
  | cons f fs ih =>
    intro xs h
    cases xs with
    | nil => simp [equalStruct.loop]
    | cons x xs =>
      have ih' := ih xs fun x hx q => h x (List.mem_cons_of_mem _ hx) q
      simp only [equalStruct.loop, ih', h x (List.mem_cons_self _ _), GoError.andThen_nil]
      split <;> simp

end self

theorem equalTime_self (env : Env) (t : GoTime) (p mode : String) :
    equalTime env t t p mode = GoError.nil := by
  simp [equalTime, deepEqual]

theorem deepEqual_self_of_scalar (x : Value)
    (h : x.Kind = Kind.bool ∨ x.Kind = Kind.int ∨ x.Kind = Kind.string) :
    deepEqual x x = true := by
  cases x <;> simp [Value.Kind, Value.typeOf, timeType, deepEqual] at h ⊢

/-- A value compares equal to itself, at any path and under any option, when
every `IEqual` implementation of a type that is not a pointer, slice or map
type holds of a value and itself. -/
theorem equalAt_self (env : Env) (opt : EqOption)
    (hrefl : ∀ (v : Value) (f : Value → Value → Bool),
      ¬ (v.Kind = Kind.ptr ∨ v.Kind = Kind.slice ∨ v.Kind = Kind.map) →
      v.typeOf.bind env.IEqual = some f → f v v = true) :
    ∀ (n : Nat) (x : Value), x.depth < n → ∀ p, equalAt env opt x x p = some GoError.nil := by
  intro n
  induction n with
  | zero => intro x hx; exact absurd hx (Nat.not_lt_zero _)
  | succ n ih =>
    intro x hx p
    have ihx : ∀ y : Value, y.depth < x.depth → ∀ q, equalAt env opt y y q = some GoError.nil :=
      fun y hy q => ih y (by omega) q
    rw [equalAt_eq]
    simp only [equal.step]
    by_cases h1 : p ∈ opt.ignoredPath
    · rw [if_pos h1]
    rw [if_neg h1, if_neg (by simp)]
    by_cases h3 : x.isNilInterface = true
    · rw [if_pos ⟨h3, h3⟩]
    rw [if_neg (fun h => h3 h.1), if_neg (by tauto)]
    by_cases h5 : x.IsNil = true
    · have hk : x.Kind = Kind.ptr ∨ x.Kind = Kind.slice ∨ x.Kind = Kind.map := by
        by_contra hk
        rw [Value.IsNil_eq_false_of_Kind hk] at h5
        cases h5
      rw [if_pos ⟨hk, h5, h5⟩]
    rw [if_neg (fun h => h5 h.2.1), if_neg (fun h => h5 h.2.1), if_neg (fun h => h5 h.2.2)]
    by_cases h8 : x.Kind = Kind.ptr ∨ x.Kind = Kind.slice ∨ x.Kind = Kind.map
    · rw [if_pos ⟨h8, trivial⟩]
    rw [if_neg (fun h => h8 h.1)]
    cases hI : x.typeOf.bind env.IEqual with
    | some f =>
      simp only [hrefl x f h8 hI, if_true]
    | none =>
      simp only []
      have h9 : ¬ (x.Kind = Kind.ptr ∨ x.Kind = Kind.ptr) := fun h => h8 (Or.inl (by tauto))
      have h10 : ¬ x.Kind = Kind.map := fun h => h8 (Or.inr (Or.inr h))
      rw [if_neg h9, if_neg h10]
      by_cases h11 : x.Kind = Kind.slice ∨ x.Kind = Kind.array
      · rw [if_pos h11]
        exact equalSlice_self env opt x p (fun y _ z _ q => equalAt_isSome env opt y z q)
          (fun y hy q => ihx y (x.depth_elems_lt hy) q)
      rw [if_neg h11]
      by_cases h12 : x.typeOf = some timeType
      · rw [if_pos h12, equalTime_self]
      rw [if_neg h12]
      by_cases h13 : x.Kind = Kind.struct
      · rw [if_pos h13]
        exact equalStruct_loop_self opt p _ _ (fun y hy q => ihx y (x.depth_fieldVals_lt hy) q)
      rw [if_neg h13]
      have hs : x.Kind = Kind.bool ∨ x.Kind = Kind.int ∨ x.Kind = Kind.string := by
        cases x <;> simp [Value.Kind, Value.typeOf, Value.isNilInterface, timeType] at h3 h8 h11 h13 ⊢
      simp [deepEqual_self_of_scalar x hs]

/-! ### When the loops of `equalSlice` pass, and where they fail -/

section seq
variable {eq : Value → Value → String → Option GoError}

theorem equalSlice_loop_eq_nil_iff (path : String) (xs : List Value) :
    ∀ (i : Nat) (ys : List Value), xs.length = ys.length →
    (equalSlice.loop eq path i xs ys = some GoError.nil ↔
      ∀ j x y, xs[j]? = some x → ys[j]? = some y →
        eq x y (joinPath [path, "[", toString (i + j), "]"]) = some GoError.nil) := by
  induction xs with
  | nil =>
    intro i ys _
    simp [equalSlice.loop]
  | cons x xs ih =>
    intro i ys hlen
    cases ys with
    | nil => simp at hlen
    | cons y ys =>
      simp only [equalSlice.loop, GoError.andThen_eq_nil]
      rw [ih (i + 1) ys (by simpa using hlen)]
      constructor
      · rintro ⟨h0, h⟩ j x' y' hx hy
        cases j with
        | zero =>
          simp only [List.getElem?_cons_zero, Option.some.injEq] at hx hy
          subst hx; subst hy
          simpa using h0
        | succ j =>
          simp only [List.getElem?_cons_succ] at hx hy
          have := h j x' y' hx hy
          rwa [Nat.add_assoc, Nat.add_comm 1 j] at this
      · intro h
        refine ⟨by simpa using h 0 x y (List.getElem?_cons_zero ..) (List.getElem?_cons_zero ..), fun j x' y' hx hy => ?_⟩
        have := h (j + 1) x' y' (by simpa using hx) (by simpa using hy)
        rwa [Nat.add_assoc, Nat.add_comm 1 j]

theorem equalSlice_loop_error (path : String) (xs : List Value) :
    ∀ (i : Nat) (ys : List Value) (j : Nat) (x y : Value) (m : String),
    xs[j]? = some x → ys[j]? = some y →
    eq x y (joinPath [path, "[", toString (i + j), "]"]) = some (GoError.errorf m) →
    (∀ k, k < j → ∀ x' y', xs[k]? = some x' → ys[k]? = some y' →
      eq x' y' (joinPath [path, "[", toString (i + k), "]"]) = some GoError.nil) →
    equalSlice.loop eq path i xs ys = some (GoError.errorf m) := by
  induction xs with
  | nil => intro i ys j x y m hx; simp at hx
  | cons x0 xs ih =>
    intro i ys j x y m hx hy hm hlt
    cases ys with
    | nil => simp at hy
    | cons y0 ys =>
      simp only [equalSlice.loop]
      cases j with
      | zero =>
        simp only [List.getElem?_cons_zero, Option.some.injEq] at hx hy
        subst hx; subst hy
        rw [Nat.add_zero] at hm
        rw [hm, GoError.andThen_errorf]
      | succ j =>
        simp only [List.getElem?_cons_succ] at hx hy
        have h0 := hlt 0 (Nat.succ_pos _) x0 y0 (List.getElem?_cons_zero ..) (List.getElem?_cons_zero ..)
        rw [Nat.add_zero] at h0
        rw [h0, GoError.andThen_nil]
        refine ih (i + 1) ys j x y m hx hy ?_ ?_
        · rwa [Nat.add_assoc, Nat.add_comm 1 j]
        · intro k hk x' y' hx' hy'
          have := hlt (k + 1) (Nat.succ_lt_succ hk) x' y' (by simpa using hx') (by simpa using hy')
          rwa [Nat.add_assoc, Nat.add_comm 1 k]

theorem equalSlice.find_eq_true_iff (x : Value) (q : String) (ys : List Value)
    (ht : ∀ y ∈ ys, (eq x y q).isSome) :
    equalSlice.find eq x q ys = some true ↔ ∃ y ∈ ys, eq x y q = some GoError.nil := by
  constructor
  · intro h
    induction ys with
    | nil => simp [equalSlice.find] at h
    | cons y ys ih =>
      simp only [equalSlice.find] at h
      cases hr : eq x y q with
      | none => simp [hr] at h
      | some r =>
        cases r with
        | nil => exact ⟨y, List.mem_cons_self _ _, hr⟩
        | errorf m =>
          simp only [hr] at h
          obtain ⟨z, hz, hzq⟩ := ih (fun y hy => ht y (List.mem_cons_of_mem _ hy)) h
          exact ⟨z, List.mem_cons_of_mem _ hz, hzq⟩
  · exact equalSlice.find_of_mem x q ys ht

theorem equalSlice.find_eq_false (x : Value) (q : String) (ys : List Value)
    (ht : ∀ y ∈ ys, (eq x y q).isSome) (hn : ∀ y ∈ ys, eq x y q ≠ some GoError.nil) :
    equalSlice.find eq x q ys = some false := by
  have h := @equalSlice.find_isSome eq x q ys ht
  cases hr : equalSlice.find eq x q ys with
  | none => simp [hr] at h
  | some r =>
    cases r with
    | false => rfl
    | true =>
      obtain ⟨y, hy, hyq⟩ := (equalSlice.find_eq_true_iff x q ys ht).1 hr
      exact absurd hyq (hn y hy)

theorem equalSlice.scan_eq_nil_iff (env : Env) (path : String) (b : Value) (xs : List Value) :
    ∀ (i : Nat), (∀ x ∈ xs, ∀ y ∈ b.elems, ∀ q, (eq x y q).isSome) →
    (equalSlice.scan env eq path b i xs = some GoError.nil ↔
      ∀ j x, xs[j]? = some x →
        ∃ y ∈ b.elems, eq x y (joinPath [path, "[", toString (i + j), "]"]) = some GoError.nil) := by
  induction xs with
  | nil => intro i _; simp [equalSlice.scan]
  | cons x xs ih =>
    intro i ht
    have ht0 := fun q y hy => ht x (List.mem_cons_self _ _) y hy q
    have iht := ih (i + 1) fun x hx => ht x (List.mem_cons_of_mem _ hx)
    simp only [equalSlice.scan]
    constructor
    · intro h j x' hx
      cases hf : equalSlice.find eq x (joinPath [path, "[", toString i, "]"]) b.elems with
      | none => simp [hf] at h
      | some r =>
        cases r with
        | false => simp [hf] at h
        | true =>
          simp only [hf] at h
          cases j with
          | zero =>
            simp only [List.getElem?_cons_zero, Option.some.injEq] at hx
            subst hx
            exact (equalSlice.find_eq_true_iff _ _ _ (ht0 _)).1 hf
          | succ j =>
            simp only [List.getElem?_cons_succ] at hx
            have := iht.1 h j x' hx
            rwa [Nat.add_assoc, Nat.add_comm 1 j] at this
    · intro h
      have h0 := h 0 x (List.getElem?_cons_zero ..)
      rw [Nat.add_zero] at h0
      rw [(equalSlice.find_eq_true_iff _ _ _ (ht0 _)).2 h0]
      refine iht.2 fun j x' hx => ?_
      have := h (j + 1) x' (by simpa using hx)
      rwa [Nat.add_assoc, Nat.add_comm 1 j]

theorem equalSlice.scan_error (env : Env) (path : String) (b : Value) (xs : List Value) :
    ∀ (i j : Nat) (x : Value), (∀ x ∈ xs, ∀ y ∈ b.elems, ∀ q, (eq x y q).isSome) →
    xs[j]? = some x →
    (∀ y ∈ b.elems, eq x y (joinPath [path, "[", toString (i + j), "]"]) ≠ some GoError.nil) →
    (∀ k, k < j → ∀ x', xs[k]? = some x' →
      ∃ y ∈ b.elems, eq x' y (joinPath [path, "[", toString (i + k), "]"]) = some GoError.nil) →
    equalSlice.scan env eq path b i xs
      = some (GoError.errorf (path ++ "[" ++ toString (i + j) ++ "]: " ++ fmtV env x
          ++ " not found in " ++ fmtV env b)) := by
  induction xs with
  | nil => intro i j x _ hx; simp at hx
  | cons x0 xs ih =>
    intro i j x ht hx hn hlt
    have ht0 := fun q y hy => ht x0 (List.mem_cons_self _ _) y hy q
    simp only [equalSlice.scan]
    cases j with
    | zero =>
      simp only [List.getElem?_cons_zero, Option.some.injEq] at hx
      subst hx
      rw [Nat.add_zero] at hn
      rw [equalSlice.find_eq_false _ _ _ (ht0 _) hn]
      rfl
    | succ j =>
      simp only [List.getElem?_cons_succ] at hx
      have h0 := hlt 0 (Nat.succ_pos _) x0 (List.getElem?_cons_zero ..)
      rw [Nat.add_zero] at h0
      rw [(equalSlice.find_eq_true_iff _ _ _ (ht0 _)).2 h0]
      simp only []
      have := ih (i + 1) j x (fun x hx => ht x (List.mem_cons_of_mem _ hx)) hx
        (by rwa [Nat.add_assoc, Nat.add_comm 1 j])
        (fun k hk x' hx' => by
          have := hlt (k + 1) (Nat.succ_lt_succ hk) x' (by simpa using hx')
          rwa [Nat.add_assoc, Nat.add_comm 1 k])
      rwa [Nat.add_assoc, Nat.add_comm 1 j] at this

end seq

/-! ### `Equal` and `joinPath` -/

theorem Equal_nil_opts (env : Env) (e a : Value) :
    Equal env e a [] = equalAt env {} e a "" := rfl

theorem Equal_some_opts (env : Env) (e a : Value) (o : EqOption) :
    Equal env e a [some o] = equalAt env o.resolve e a "" := rfl

theorem String.join_singleton (s : String) : String.join [s] = s := by
  simp [String.join]

theorem joinPath_root_field (n : String) : joinPath ["", ".", n] = n := by
  simp [joinPath, String.join_singleton]

/-! ### Further unfoldings -/

theorem getElem?_of_length_eq {xs ys : List Value} (h : xs.length = ys.length) {j : Nat}
    {x : Value} (hx : xs[j]? = some x) : ∃ y, ys[j]? = some y := by
  have hj : j < xs.length := by
    by_contra hj
    rw [List.getElem?_eq_none (Nat.le_of_not_lt hj)] at hx
    cases hx
  have hj2 : j < ys.length := h ▸ hj
  exact ⟨ys[j], List.getElem?_eq_getElem hj2⟩

theorem equalAt_both_nil (env : Env) (opt : EqOption) (e a : Value) (p : String)
    (hT : e.typeOf = a.typeOf) (hne : e.IsNil = true) (hna : a.IsNil = true) :
    equalAt env opt e a p = some GoError.nil := by
  have hk : e.Kind = Kind.ptr ∨ e.Kind = Kind.slice ∨ e.Kind = Kind.map := by
    by_contra hk
    rw [Value.IsNil_eq_false_of_Kind hk] at hne
    cases hne
  have hK : a.Kind = e.Kind := (Value.Kind_eq_of_typeOf_eq hT).symm
  have hkk : e.Kind ≠ Kind.invalid := by rcases hk with h | h | h <;> simp [h]
  have hie : e.isNilInterface = false := Value.isNilInterface_of_Kind hkk
  have hia : a.isNilInterface = false := Value.isNilInterface_of_Kind (hK ▸ hkk)
  rw [equalAt_eq]
  simp only [equal.step]
  by_cases hp : p ∈ opt.ignoredPath
  · rw [if_pos hp]
  rw [if_neg hp, if_neg (not_not.2 hT), if_neg (by simp [hie]), if_neg (by simp [hie, hia]),
    if_pos ⟨hk, hne, hna⟩]

theorem equalAt_same_pointer (env : Env) (opt : EqOption) (e a : Value) (p : String)
    (hT : e.typeOf = a.typeOf)
    (hk : e.Kind = Kind.ptr ∨ e.Kind = Kind.slice ∨ e.Kind = Kind.map)
    (hne : e.IsNil = false) (hna : a.IsNil = false) (hptr : e.Pointer = a.Pointer) :
    equalAt env opt e a p = some GoError.nil := by
  have hK : a.Kind = e.Kind := (Value.Kind_eq_of_typeOf_eq hT).symm
  have hkk : e.Kind ≠ Kind.invalid := by rcases hk with h | h | h <;> simp [h]
  have hie : e.isNilInterface = false := Value.isNilInterface_of_Kind hkk
  have hia : a.isNilInterface = false := Value.isNilInterface_of_Kind (hK ▸ hkk)
  rw [equalAt_eq]
  simp only [equal.step]
  by_cases hp : p ∈ opt.ignoredPath
  · rw [if_pos hp]
  rw [if_neg hp, if_neg (not_not.2 hT), if_neg (by simp [hie]), if_neg (by simp [hie, hia]),
    if_neg (by simp [hne]), if_neg (by simp [hne]), if_neg (by simp [hna]), if_pos ⟨hk, hptr⟩]

theorem equalAt_scalar_self (env : Env) (opt : EqOption) (x : Value) (q : String)
    (hs : x.Kind = Kind.bool ∨ x.Kind = Kind.int ∨ x.Kind = Kind.string)
    (hI : x.typeOf.bind env.IEqual = none) :
    equalAt env opt x x q = some GoError.nil := by
  by_cases hq : q ∈ opt.ignoredPath
  · exact equalAt_ignored env opt x x q hq
  have hnr : ¬ (x.Kind = Kind.ptr ∨ x.Kind = Kind.slice ∨ x.Kind = Kind.map) := by
    rcases hs with h | h | h <;> simp [h]
  rw [equalAt_structural env opt x x q hq rfl (by rcases hs with h | h | h <;> simp [h])
    (Value.IsNil_eq_false_of_Kind hnr) (Value.IsNil_eq_false_of_Kind hnr)
    (fun h => absurd h hnr) hI]
  have ht : x.typeOf ≠ some timeType := by
    cases x <;> simp [Value.Kind, Value.typeOf, timeType] at hs ⊢
  rcases hs with h | h | h <;>
    simp [h, ht, deepEqual_self_of_scalar x (by simp [h])]

/-! ### When the loops of `equalMap` and `equalStruct` pass -/

section mapstruct
variable {eq : Value → Value → String → Option GoError}

theorem equalMap_loop_eq_nil_iff (e a : Value) (p : String) (keys : List String) :
    equalMap.loop eq e a p keys = some GoError.nil ↔
      ∀ k ∈ keys, ∃ x y, e.MapIndex k = some x ∧ a.MapIndex k = some y
        ∧ eq x y (joinPath [p, ".", k]) = some GoError.nil := by
  induction keys with
  | nil => simp [equalMap.loop]
  | cons k ks ih =>
    simp only [equalMap.loop, List.mem_cons, forall_eq_or_imp]
    rw [← ih]
    cases hx : e.MapIndex k with
    | none => simp
    | some x =>
      cases hy : a.MapIndex k with
      | none => simp
      | some y => simp [GoError.andThen_eq_nil]

theorem equalStruct_loop_eq_nil_iff (opt : EqOption) (p : String) (fs : List StructField) :
    ∀ (xs ys : List Value),
    (equalStruct.loop opt eq p fs xs ys = some GoError.nil ↔
      ∀ (i : Nat) f x y q, fs[i]? = some f → xs[i]? = some x → ys[i]? = some y →
        f.exported = true → equalStruct.ipath opt p f = some q → eq x y q = some GoError.nil) := by
  induction fs with
  | nil => intro xs ys; simp [equalStruct.loop]
  | cons f fs ih =>
    intro xs ys
    cases xs with
    | nil => simp [equalStruct.loop]
    | cons x xs =>
      cases ys with
      | nil => simp [equalStruct.loop]
      | cons y ys =>
        have hsplit : (∀ (i : Nat) f' x' y' q, (f :: fs)[i]? = some f' → (x :: xs)[i]? = some x' →
            (y :: ys)[i]? = some y' → f'.exported = true → equalStruct.ipath opt p f' = some q →
            eq x' y' q = some GoError.nil) ↔
            ((∀ q, f.exported = true → equalStruct.ipath opt p f = some q →
              eq x y q = some GoError.nil) ∧
            ∀ (i : Nat) f' x' y' q, fs[i]? = some f' → xs[i]? = some x' → ys[i]? = some y' →
              f'.exported = true → equalStruct.ipath opt p f' = some q →
              eq x' y' q = some GoError.nil) := by
          constructor
          · intro h
            exact ⟨fun q he hq => h 0 f x y q (List.getElem?_cons_zero ..)
              (List.getElem?_cons_zero ..) (List.getElem?_cons_zero ..) he hq,
              fun i f' x' y' q hf hx hy => h (i + 1) f' x' y' q (by simpa using hf)
                (by simpa using hx) (by simpa using hy)⟩
          · rintro ⟨h0, h⟩ i f' x' y' q hf hx hy he hq
            cases i with
            | zero =>
              simp only [List.getElem?_cons_zero, Option.some.injEq] at hf hx hy
              subst hf; subst hx; subst hy
              exact h0 q he hq
            | succ i =>
              simp only [List.getElem?_cons_succ] at hf hx hy
              exact h i f' x' y' q hf hx hy he hq
        rw [hsplit, ← ih xs ys]
        simp only [equalStruct.loop]
        cases hq : equalStruct.ipath opt p f with
        | none => simp
        | some q =>
          cases he : f.exported with
          | false => simp
          | true => simp [GoError.andThen_eq_nil]

end mapstruct

theorem equalAt_map (env : Env) (opt : EqOption) (e a : Value) (p : String)
    (hp : p ∉ opt.ignoredPath) (hT : e.typeOf = a.typeOf) (hk : e.Kind = Kind.map)
    (hne : e.IsNil = false) (hna : a.IsNil = false) (hptr : e.Pointer ≠ a.Pointer)
    (hI : e.typeOf.bind env.IEqual = none) :
    equalAt env opt e a p = equalMap (equalAt env opt) e a p := by
  rw [equalAt_structural env opt e a p hp hT (by simp [hk]) hne hna (fun _ => hptr) hI]
  simp [hk]

theorem equalAt_struct (env : Env) (opt : EqOption) (t : String) (fs : List StructField)
    (xs ys : List Value) (p : String) (hp : p ∉ opt.ignoredPath)
    (hI : env.IEqual ⟨Kind.struct, t, fs⟩ = none) (ht : (⟨Kind.struct, t, fs⟩ : GoType) ≠ timeType) :
    equalAt env opt (Value.struct t fs xs) (Value.struct t fs ys) p
      = equalStruct.loop opt (equalAt env opt) p fs xs ys := by
  rw [equalAt_structural env opt (Value.struct t fs xs) (Value.struct t fs ys) p hp rfl
    (by simp [Value.Kind, Value.typeOf]) rfl rfl (by simp [Value.Kind, Value.typeOf])
    (by simpa [Value.typeOf] using hI)]
  simp [Value.Kind, Value.typeOf, equalStruct, Value.fieldVals, ht]

theorem ipath_no_tag (opt : EqOption) (p : String) (f : StructField)
    (h : opt.IgnoreByTagName = "") :
    equalStruct.ipath opt p f = some (joinPath [p, ".", f.Name]) := by
  simp [equalStruct.ipath, h]

theorem equal_struct_ignore_Name (env : Env) (t : String) (fs : List StructField)
    (xs ys : List Value)
    (hI : env.IEqual ⟨Kind.struct, t, fs⟩ = none)
    (hrefl : ∀ (v : Value) (f : Value → Value → Bool),
      ¬ (v.Kind = Kind.ptr ∨ v.Kind = Kind.slice ∨ v.Kind = Kind.map) →
      v.typeOf.bind env.IEqual = some f → f v v = true)
    (hdiff : ∀ (i : Nat) f, fs[i]? = some f → f.Name ≠ "Name" → xs[i]? = ys[i]?) :
    Equal env (Value.struct t fs xs) (Value.struct t fs ys) [some { IgnoreFields := ["Name"] }]
      = some GoError.nil := by
  rw [Equal_some_opts]
  by_cases ht : (⟨Kind.struct, t, fs⟩ : GoType) = timeType
  · rw [equalAt_structural env _ (Value.struct t fs xs) (Value.struct t fs ys) ""
      (by simp [EqOption.resolve]) rfl
      (by simp [Value.Kind, Value.typeOf]) rfl rfl (by simp [Value.Kind, Value.typeOf])
      (by simpa [Value.typeOf] using hI)]
    simp [Value.Kind, Value.typeOf, ht, Value.asTime, equalTime_self, timeType]
  rw [equalAt_struct env _ t fs xs ys "" (by simp [EqOption.resolve]) hI ht]
  refine (equalStruct_loop_eq_nil_iff _ "" fs xs ys).2 fun i f x y q hf hx hy _ hq => ?_
  rw [ipath_no_tag _ _ _ rfl, joinPath_root_field] at hq
  cases hq
  by_cases hn : f.Name = "Name"
  · exact equalAt_ignored env _ x y _ (by simp [hn, EqOption.resolve])
  · have hxy : x = y := by
      have := hdiff i f hf hn
      rw [hx, hy] at this
      exact Option.some.inj this
    subst hxy
    exact equalAt_self env _ hrefl _ x (Nat.lt_succ_self _) _

theorem Equal_ignore_root (env : Env) (e a : Value) (o : EqOption) (h : "" ∈ o.IgnoreFields) :
    Equal env e a [some o] = some GoError.nil := by
  rw [Equal_some_opts]
  exact equalAt_ignored env _ e a "" h


theorem equalAt_seq_perm (env : Env) (opt : EqOption) (e a : Value) (p : String)
    (hT : e.typeOf = a.typeOf) (hk : e.Kind = Kind.slice ∨ e.Kind = Kind.array)
    (hnil : e.IsNil = a.IsNil)
    (hI : e.typeOf.bind env.IEqual = none)
    (hs : ∀ x ∈ e.elems, (x.Kind = Kind.int ∨ x.Kind = Kind.string)
      ∧ x.typeOf.bind env.IEqual = none)
    (hperm : e.elems.Perm a.elems)
    (hmark : opt.arrayOrder p = true ∨ opt.arrayOrder "*" = true) :
    equalAt env opt e a p = some GoError.nil := by
  by_cases hp : p ∈ opt.ignoredPath
  · exact equalAt_ignored env opt e a p hp
  cases hne : e.IsNil with
  | true => exact equalAt_both_nil env opt e a p hT hne (hnil ▸ hne)
  | false =>
    have hna : a.IsNil = false := hnil ▸ hne
    by_cases hptr : e.Kind = Kind.slice ∧ e.Pointer = a.Pointer
    · exact equalAt_same_pointer env opt e a p hT (Or.inr (Or.inl hptr.1)) hne hna hptr.2
    rw [equalAt_seq env opt e a p hp hT hk hne hna (fun h h' => hptr ⟨h, h'⟩) hI]
    have hlen : e.Len = a.Len := hperm.length_eq
    have hmode : ¬ (¬ opt.arrayOrder p = true ∧ ¬ opt.arrayOrder "*" = true) := by
      rcases hmark with h | h <;> simp [h]
    have hself : ∀ x ∈ e.elems, ∀ q, equalAt env opt x x q = some GoError.nil := fun x hx q =>
      equalAt_scalar_self env opt x q (Or.inr (hs x hx).1) (hs x hx).2
    simp only [equalSlice, ne_eq, hlen, not_true_eq_false, if_false, if_neg hmode,
      GoError.andThen_nil, GoError.andThen_eq_nil, equalSlice.compare]
    refine ⟨?_, ?_⟩
    · exact equalSlice.scan_of_mem env p a e.elems 0
        (fun x _ y _ q => equalAt_isSome env opt x y q)
        (fun x hx q => ⟨x, hperm.mem_iff.1 hx, hself x hx q⟩)
    · exact equalSlice.scan_of_mem env p e a.elems 0
        (fun x _ y _ q => equalAt_isSome env opt x y q)
        (fun x hx q => ⟨x, hperm.mem_iff.2 hx, hself x (hperm.mem_iff.2 hx) q⟩)

/-! ### Values met in another iteration order -/

theorem ReorderList.length_eq {vs ws : List Value} (h : ReorderList vs ws) :
    vs.length = ws.length := by
  induction vs generalizing ws with
  | nil => cases h; rfl
  | cons v vs ih =>
    cases h with
    | cons hv hvs => simp [ih hvs]

theorem ReorderList.getElem? {vs ws : List Value} (h : ReorderList vs ws) (j : Nat) (x : Value)
    (hx : vs[j]? = some x) : ∃ y, ws[j]? = some y ∧ Reorder x y := by
  induction vs generalizing ws j with
  | nil => simp at hx
  | cons v vs ih =>
    cases h with
    | cons hv hvs =>
      cases j with
      | zero =>
        simp only [List.getElem?_cons_zero, Option.some.injEq] at hx
        subst hx
        exact ⟨_, List.getElem?_cons_zero .., hv⟩
      | succ j =>
        simp only [List.getElem?_cons_succ] at hx
        obtain ⟨y, hy, hr⟩ := ih hvs j hx
        exact ⟨y, by simpa using hy, hr⟩

theorem ReorderList.getElem?_rev {vs ws : List Value} (h : ReorderList vs ws) (j : Nat)
    (y : Value) (hy : ws[j]? = some y) : ∃ x, vs[j]? = some x ∧ Reorder x y := by
  induction vs generalizing ws j with
  | nil => cases h; simp at hy
  | cons v vs ih =>
    cases h with
    | cons hv hvs =>
      cases j with
      | zero =>
        simp only [List.getElem?_cons_zero, Option.some.injEq] at hy
        subst hy
        exact ⟨_, List.getElem?_cons_zero .., hv⟩
      | succ j =>
        simp only [List.getElem?_cons_succ] at hy
        obtain ⟨x, hx, hr⟩ := ih hvs j hy
        exact ⟨x, by simpa using hx, hr⟩

theorem ReorderList.exists_mem {vs ws : List Value} (h : ReorderList vs ws) {x : Value} (hx : x ∈ vs) :
    ∃ y ∈ ws, Reorder x y := by
  obtain ⟨j, hj⟩ := List.mem_iff_getElem?.1 hx
  obtain ⟨y, hy, hr⟩ := h.getElem? j x hj
  exact ⟨y, List.mem_iff_getElem?.2 ⟨j, hy⟩, hr⟩

theorem ReorderList.exists_mem_rev {vs ws : List Value} (h : ReorderList vs ws) {y : Value}
    (hy : y ∈ ws) : ∃ x ∈ vs, Reorder x y := by
  obtain ⟨j, hj⟩ := List.mem_iff_getElem?.1 hy
  obtain ⟨x, hx, hr⟩ := h.getElem?_rev j y hj
  exact ⟨x, List.mem_iff_getElem?.2 ⟨j, hx⟩, hr⟩

theorem ReorderEntries.keys_eq {es es1 : List (String × Value)} (h : ReorderEntries es es1) :
    es.map Prod.fst = es1.map Prod.fst := by
  induction es generalizing es1 with
  | nil => cases h; rfl
  | cons e es ih =>
    cases h with
    | cons k hv hes => simp [ih hes]

theorem ReorderEntries.exists_entry {es es1 : List (String × Value)} (h : ReorderEntries es es1)
    {k : String} {x : Value} (hx : (k, x) ∈ es) : ∃ y, (k, y) ∈ es1 ∧ Reorder x y := by
  induction es generalizing es1 with
  | nil => cases hx
  | cons e es ih =>
    cases h with
    | cons k0 hv hes =>
      rcases List.mem_cons.1 hx with hx | hx
      · cases hx
        exact ⟨_, List.mem_cons_self _ _, hv⟩
      · obtain ⟨y, hy, hr⟩ := ih hes hx
        exact ⟨y, List.mem_cons_of_mem _ hy, hr⟩

theorem ReorderEntries.exists_entry_rev {es es1 : List (String × Value)} (h : ReorderEntries es es1)
    {k : String} {y : Value} (hy : (k, y) ∈ es1) : ∃ x, (k, x) ∈ es ∧ Reorder x y := by
  induction es generalizing es1 with
  | nil => cases h; cases hy
  | cons e es ih =>
    cases h with
    | cons k0 hv hes =>
      rcases List.mem_cons.1 hy with hy | hy
      · cases hy
        exact ⟨_, List.mem_cons_self _ _, hv⟩
      · obtain ⟨x, hx, hr⟩ := ih hes hy
        exact ⟨x, List.mem_cons_of_mem _ hx, hr⟩

theorem lookup_eq_some_iff_mem {es : List (String × Value)} (hnd : (es.map Prod.fst).Nodup)
    {k : String} {x : Value} : es.lookup k = some x ↔ (k, x) ∈ es := by
  constructor
  · exact mem_of_lookup
  · intro hx
    induction es with
    | nil => cases hx
    | cons e es ih =>
      obtain ⟨k0, v0⟩ := e
      simp only [List.map_cons, List.nodup_cons, List.mem_map, Prod.exists, exists_and_right,
        exists_eq_right, not_exists] at hnd
      simp only [List.lookup]
      rcases List.mem_cons.1 hx with hx | hx
      · cases hx
        simp
      · have hne : k ≠ k0 := fun hk => hnd.1 x (hk ▸ hx)
        have hb : (k == k0) = false := by simpa using hne
        rw [hb]
        exact ih hnd.2 hx


theorem Reorder.typeOf_eq {v w : Value} (h : Reorder v w) : v.typeOf = w.typeOf := by
  cases h <;> rfl

theorem Reorder.Kind_eq {v w : Value} (h : Reorder v w) : v.Kind = w.Kind := by
  cases h <;> rfl

theorem Reorder.isNilInterface_eq {v w : Value} (h : Reorder v w) :
    v.isNilInterface = w.isNilInterface := by
  cases h <;> rfl

theorem Reorder.IsNil_eq {v w : Value} (h : Reorder v w) : v.IsNil = w.IsNil := by
  cases h <;> rfl

theorem Reorder.Pointer_eq {v w : Value} (h : Reorder v w) : v.Pointer = w.Pointer := by
  cases h <;> rfl

theorem Reorder.asTime_eq {v w : Value} (h : Reorder v w) : v.asTime = w.asTime := by
  cases h <;> rfl

theorem Reorder.Elem {v w : Value} (h : Reorder v w) : Reorder v.Elem w.Elem := by
  cases h <;> first | assumption | exact Reorder.nil

theorem Reorder.elems {v w : Value} (h : Reorder v w) : ReorderList v.elems w.elems := by
  cases h <;> first | assumption | exact ReorderList.nil

theorem Reorder.fieldVals {v w : Value} (h : Reorder v w) :
    ReorderList v.fieldVals w.fieldVals := by
  cases h <;> first | assumption | exact ReorderList.nil

theorem Reorder.MapKeys_perm {v w : Value} (h : Reorder v w) : v.MapKeys.Perm w.MapKeys := by
  cases h with
  | map t addr hnd hre hp =>
    simp only [Value.MapKeys, Value.entries]
    rw [hre.keys_eq]
    exact hp.map _
  | _ => exact List.Perm.refl _

theorem Reorder.MapIndex {v w : Value} (h : Reorder v w) {k : String} {x : Value}
    (hx : v.MapIndex k = some x) : ∃ y, w.MapIndex k = some y ∧ Reorder x y := by
  cases h with
  | map t addr hnd hre hp =>
    simp only [Value.MapIndex, Value.entries] at hx ⊢
    obtain ⟨y, hy, hr⟩ := hre.exists_entry (mem_of_lookup hx)
    have hnd2 := (hp.map Prod.fst).nodup_iff.1 (hre.keys_eq ▸ hnd)
    exact ⟨y, (lookup_eq_some_iff_mem hnd2).2 (hp.mem_iff.1 hy), hr⟩
  | _ => simp [Value.MapIndex, Value.entries] at hx

theorem Reorder.MapIndex_rev {v w : Value} (h : Reorder v w) {k : String} {y : Value}
    (hy : w.MapIndex k = some y) : ∃ x, v.MapIndex k = some x ∧ Reorder x y := by
  cases h with
  | map t addr hnd hre hp =>
    simp only [Value.MapIndex, Value.entries] at hy ⊢
    obtain ⟨x, hx, hr⟩ := hre.exists_entry_rev (hp.mem_iff.2 (mem_of_lookup hy))
    exact ⟨x, (lookup_eq_some_iff_mem hnd).2 hx, hr⟩
  | _ => simp [Value.MapIndex, Value.entries] at hy

theorem Reorder.deepEqual {e e1 a a1 : Value} (he : Reorder e e1) (ha : Reorder a a1) :
    deepEqual e a = deepEqual e1 a1 := by
  cases he <;> cases ha <;> rfl


section reorder
variable {eq : Value → Value → String → Option GoError}

theorem equalMap_reorder (e e1 a a1 : Value) (p : String) (hE : Reorder e e1)
    (hA : Reorder a a1)
    (H : ∀ x x1 y y1 q, x.depth < max e.depth a.depth → y.depth < max e.depth a.depth →
      Reorder x x1 → Reorder y y1 → (eq x y q = some GoError.nil ↔ eq x1 y1 q = some GoError.nil)) :
    equalMap eq e a p = some GoError.nil ↔ equalMap eq e1 a1 p = some GoError.nil := by
  have hl : ∀ {x : Value}, x.depth < e.depth → x.depth < max e.depth a.depth :=
    fun hx => lt_of_lt_of_le hx (le_max_left _ _)
  have hr : ∀ {x : Value}, x.depth < a.depth → x.depth < max e.depth a.depth :=
    fun hx => lt_of_lt_of_le hx (le_max_right _ _)
  simp only [equalMap, ← hE.MapKeys_perm.length_eq, ← hA.MapKeys_perm.length_eq]
  by_cases hlen : e.MapKeys.length ≠ a.MapKeys.length
  · rw [if_pos hlen, if_pos hlen]
  rw [if_neg hlen, if_neg hlen, equalMap_loop_eq_nil_iff, equalMap_loop_eq_nil_iff]
  constructor
  · intro h k hk
    obtain ⟨x, y, hx, hy, hxy⟩ := h k (hE.MapKeys_perm.mem_iff.2 hk)
    obtain ⟨x1, hx1, hrx⟩ := hE.MapIndex hx
    obtain ⟨y1, hy1, hry⟩ := hA.MapIndex hy
    exact ⟨x1, y1, hx1, hy1, (H x x1 y y1 _ (hl (e.depth_MapIndex_lt hx))
      (hr (a.depth_MapIndex_lt hy)) hrx hry).1 hxy⟩
  · intro h k hk
    obtain ⟨x1, y1, hx1, hy1, hxy⟩ := h k (hE.MapKeys_perm.mem_iff.1 hk)
    obtain ⟨x, hx, hrx⟩ := hE.MapIndex_rev hx1
    obtain ⟨y, hy, hry⟩ := hA.MapIndex_rev hy1
    exact ⟨x, y, hx, hy, (H x x1 y y1 _ (hl (e.depth_MapIndex_lt hx))
      (hr (a.depth_MapIndex_lt hy)) hrx hry).2 hxy⟩

theorem equalSlice_scan_reorder (env : Env) (p : String) (e e1 a a1 : Value)
    (hE : Reorder e e1) (hA : Reorder a a1) (ht : ∀ x y q, (eq x y q).isSome)
    (H : ∀ x x1 y y1 q, x ∈ e.elems → y ∈ a.elems →
      Reorder x x1 → Reorder y y1 → (eq x y q = some GoError.nil ↔ eq x1 y1 q = some GoError.nil)) :
    equalSlice.scan env eq p a 0 e.elems = some GoError.nil ↔
      equalSlice.scan env eq p a1 0 e1.elems = some GoError.nil := by
  rw [equalSlice.scan_eq_nil_iff env p a e.elems 0 (fun x _ y _ q => ht x y q),
    equalSlice.scan_eq_nil_iff env p a1 e1.elems 0 (fun x _ y _ q => ht x y q)]
  constructor
  · intro h j x1 hx1
    obtain ⟨x, hx, hrx⟩ := hE.elems.getElem?_rev j x1 hx1
    obtain ⟨y, hy, hxy⟩ := h j x hx
    obtain ⟨y1, hy1, hry⟩ := hA.elems.exists_mem hy
    exact ⟨y1, hy1, (H x x1 y y1 _ (List.mem_iff_getElem?.2 ⟨j, hx⟩) hy hrx hry).1 hxy⟩
  · intro h j x hx
    obtain ⟨x1, hx1, hrx⟩ := hE.elems.getElem? j x hx
    obtain ⟨y1, hy1, hxy⟩ := h j x1 hx1
    obtain ⟨y, hy, hry⟩ := hA.elems.exists_mem_rev hy1
    exact ⟨y, hy, (H x x1 y y1 _ (List.mem_iff_getElem?.2 ⟨j, hx⟩) hy hrx hry).2 hxy⟩

theorem equalSlice_reorder (env : Env) (opt : EqOption) (e e1 a a1 : Value) (p : String)
    (hE : Reorder e e1) (hA : Reorder a a1) (ht : ∀ x y q, (eq x y q).isSome)
    (H : ∀ x x1 y y1 q, x.depth < max e.depth a.depth → y.depth < max e.depth a.depth →
      Reorder x x1 → Reorder y y1 → (eq x y q = some GoError.nil ↔ eq x1 y1 q = some GoError.nil)) :
    equalSlice env opt eq e a p = some GoError.nil ↔
      equalSlice env opt eq e1 a1 p = some GoError.nil := by
  have hl : ∀ {x : Value}, x ∈ e.elems → x.depth < max e.depth a.depth :=
    fun hx => lt_of_lt_of_le (e.depth_elems_lt hx) (le_max_left _ _)
  have hr : ∀ {x : Value}, x ∈ a.elems → x.depth < max e.depth a.depth :=
    fun hx => lt_of_lt_of_le (a.depth_elems_lt hx) (le_max_right _ _)
  have hle : e1.Len = e.Len := hE.elems.length_eq.symm
  have hla : a1.Len = a.Len := hA.elems.length_eq.symm
  simp only [equalSlice, hle, hla]
  by_cases hlen : e.Len ≠ a.Len
  · rw [if_pos hlen, if_pos hlen]
  have hlen' : e.elems.length = a.elems.length := not_not.1 hlen
  have hlen1 : e1.elems.length = a1.elems.length := by
    rw [← hE.elems.length_eq, ← hA.elems.length_eq]; exact hlen'
  rw [if_neg hlen, if_neg hlen]
  simp only [GoError.andThen_eq_nil, equalSlice.compare]
  have hscan1 := equalSlice_scan_reorder env p e e1 a a1 hE hA ht
    (fun x x1 y y1 q hx hy => H x x1 y y1 q (hl hx) (hr hy))
  have hscan2 := equalSlice_scan_reorder env p a a1 e e1 hA hE ht
    (fun x x1 y y1 q hx hy => H x x1 y y1 q (hr hx) (hl hy))
  rw [hscan1, hscan2]
  refine and_congr_left fun _ => ?_
  by_cases hm : ¬ opt.arrayOrder p = true ∧ ¬ opt.arrayOrder "*" = true
  · rw [if_pos hm, if_pos hm, equalSlice_loop_eq_nil_iff p _ 0 _ hlen',
      equalSlice_loop_eq_nil_iff p _ 0 _ hlen1]
    constructor
    · intro h j x1 y1 hx1 hy1
      obtain ⟨x, hx, hrx⟩ := hE.elems.getElem?_rev j x1 hx1
      obtain ⟨y, hy, hry⟩ := hA.elems.getElem?_rev j y1 hy1
      exact (H x x1 y y1 _ (hl (List.mem_iff_getElem?.2 ⟨j, hx⟩))
        (hr (List.mem_iff_getElem?.2 ⟨j, hy⟩)) hrx hry).1 (h j x y hx hy)
    · intro h j x y hx hy
      obtain ⟨x1, hx1, hrx⟩ := hE.elems.getElem? j x hx
      obtain ⟨y1, hy1, hry⟩ := hA.elems.getElem? j y hy
      exact (H x x1 y y1 _ (hl (List.mem_iff_getElem?.2 ⟨j, hx⟩))
        (hr (List.mem_iff_getElem?.2 ⟨j, hy⟩)) hrx hry).2 (h j x1 y1 hx1 hy1)
  · rw [if_neg hm, if_neg hm]

theorem equalStruct_reorder (opt : EqOption) (fs : List StructField) (e e1 a a1 : Value)
    (p : String) (hE : Reorder e e1) (hA : Reorder a a1)
    (H : ∀ x x1 y y1 q, x.depth < max e.depth a.depth → y.depth < max e.depth a.depth →
      Reorder x x1 → Reorder y y1 → (eq x y q = some GoError.nil ↔ eq x1 y1 q = some GoError.nil)) :
    equalStruct opt eq fs e a p = some GoError.nil ↔
      equalStruct opt eq fs e1 a1 p = some GoError.nil := by
  have hl : ∀ {x : Value}, x ∈ e.fieldVals → x.depth < max e.depth a.depth :=
    fun hx => lt_of_lt_of_le (e.depth_fieldVals_lt hx) (le_max_left _ _)
  have hr : ∀ {x : Value}, x ∈ a.fieldVals → x.depth < max e.depth a.depth :=
    fun hx => lt_of_lt_of_le (a.depth_fieldVals_lt hx) (le_max_right _ _)
  simp only [equalStruct, equalStruct_loop_eq_nil_iff]
  constructor
  · intro h i f x1 y1 q hf hx1 hy1 hex hq
    obtain ⟨x, hx, hrx⟩ := hE.fieldVals.getElem?_rev i x1 hx1
    obtain ⟨y, hy, hry⟩ := hA.fieldVals.getElem?_rev i y1 hy1
    exact (H x x1 y y1 _ (hl (List.mem_iff_getElem?.2 ⟨i, hx⟩))
      (hr (List.mem_iff_getElem?.2 ⟨i, hy⟩)) hrx hry).1 (h i f x y q hf hx hy hex hq)
  · intro h i f x y q hf hx hy hex hq
    obtain ⟨x1, hx1, hrx⟩ := hE.fieldVals.getElem? i x hx
    obtain ⟨y1, hy1, hry⟩ := hA.fieldVals.getElem? i y hy
    exact (H x x1 y y1 _ (hl (List.mem_iff_getElem?.2 ⟨i, hx⟩))
      (hr (List.mem_iff_getElem?.2 ⟨i, hy⟩)) hrx hry).2 (h i f x1 y1 q hf hx1 hy1 hex hq)

end reorder


/-- The outcome of a comparison, no error or an error, does not depend on the
order in which the keys of the maps are iterated. -/
theorem equalAt_reorder (env : Env) (opt : EqOption)
    (henv : ∀ (x x1 y y1 : Value) (f : Value → Value → Bool),
      x.typeOf.bind env.IEqual = some f → Reorder x x1 → Reorder y y1 → f x y = f x1 y1) :
    ∀ (n : Nat) (e e1 a a1 : Value) (p : String), e.depth < n → a.depth < n →
    Reorder e e1 → Reorder a a1 →
    (equalAt env opt e a p = some GoError.nil ↔ equalAt env opt e1 a1 p = some GoError.nil) := by
  intro n
  induction n with
  | zero => intro e e1 a a1 p he; exact absurd he (Nat.not_lt_zero _)
  | succ n ih =>
    intro e e1 a a1 p he ha hE hA
    have H : ∀ x x1 y y1 q, x.depth < max e.depth a.depth → y.depth < max e.depth a.depth →
        Reorder x x1 → Reorder y y1 →
        (equalAt env opt x y q = some GoError.nil ↔ equalAt env opt x1 y1 q = some GoError.nil) :=
      fun x x1 y y1 q hx hy hrx hry =>
        ih x x1 y y1 q (lt_of_lt_of_le hx (max_le (by omega) (by omega)))
          (lt_of_lt_of_le hy (max_le (by omega) (by omega))) hrx hry
    have hl : ∀ {x : Value}, x.depth < e.depth → x.depth < max e.depth a.depth :=
      fun hx => lt_of_lt_of_le hx (le_max_left _ _)
    have hr : ∀ {x : Value}, x.depth < a.depth → x.depth < max e.depth a.depth :=
      fun hx => lt_of_lt_of_le hx (le_max_right _ _)
    have hmap := equalMap_reorder e e1 a a1 p hE hA H
    have hslice := equalSlice_reorder env opt e e1 a a1 p hE hA
      (fun x y q => equalAt_isSome env opt x y q) H
    have hstruct := fun fs => equalStruct_reorder opt fs e e1 a a1 p hE hA H
    rw [equalAt_eq env opt e a, equalAt_eq env opt e1 a1]
    simp only [equal.step, ← hE.typeOf_eq, ← hA.typeOf_eq, ← hE.Kind_eq, ← hA.Kind_eq,
      ← hE.isNilInterface_eq, ← hA.isNilInterface_eq, ← hE.IsNil_eq, ← hA.IsNil_eq,
      ← hE.Pointer_eq, ← hA.Pointer_eq, ← hE.asTime_eq, ← hA.asTime_eq, ← hE.deepEqual hA]
    by_cases h1 : p ∈ opt.ignoredPath
    · rw [if_pos h1, if_pos h1]
    rw [if_neg h1, if_neg h1]
    by_cases h2 : e.typeOf ≠ a.typeOf
    · rw [if_pos h2, if_pos h2]
    rw [if_neg h2, if_neg h2]
    by_cases h3 : e.isNilInterface = true ∧ a.isNilInterface = true
    · rw [if_pos h3, if_pos h3]
    rw [if_neg h3, if_neg h3]
    by_cases h4 : (¬ e.isNilInterface = true ∧ a.isNilInterface = true)
        ∨ (e.isNilInterface = true ∧ ¬ a.isNilInterface = true)
    · rw [if_pos h4, if_pos h4]; simp
    rw [if_neg h4, if_neg h4]
    by_cases h5 : (e.Kind = Kind.ptr ∨ e.Kind = Kind.slice ∨ e.Kind = Kind.map)
        ∧ e.IsNil = true ∧ a.IsNil = true
    · rw [if_pos h5, if_pos h5]
    rw [if_neg h5, if_neg h5]
    by_cases h6 : (e.Kind = Kind.ptr ∨ e.Kind = Kind.slice ∨ e.Kind = Kind.map)
        ∧ e.IsNil = true ∧ ¬ a.IsNil = true
    · rw [if_pos h6, if_pos h6]
    rw [if_neg h6, if_neg h6]
    by_cases h7 : (e.Kind = Kind.ptr ∨ e.Kind = Kind.slice ∨ e.Kind = Kind.map)
        ∧ ¬ e.IsNil = true ∧ a.IsNil = true
    · rw [if_pos h7, if_pos h7]
    rw [if_neg h7, if_neg h7]
    by_cases h8 : (e.Kind = Kind.ptr ∨ e.Kind = Kind.slice ∨ e.Kind = Kind.map)
        ∧ e.Pointer = a.Pointer
    · rw [if_pos h8, if_pos h8]
    rw [if_neg h8, if_neg h8]
    cases hI : e.typeOf.bind env.IEqual with
    | some f =>
      simp only [← henv e e1 a a1 f hI hE hA]
    | none =>
      simp only []
      by_cases h9 : e.Kind = Kind.ptr ∨ a.Kind = Kind.ptr
      · rw [if_pos h9, if_pos h9]
        have hT : e.typeOf = a.typeOf := not_not.1 h2
        have hK : a.Kind = e.Kind := (Value.Kind_eq_of_typeOf_eq hT).symm
        have hke : e.Kind = Kind.ptr := by
          rcases h9 with h9 | h9
          · exact h9
          · rw [← hK]; exact h9
        have hne : e.IsNil = false := by
          cases hb : e.IsNil
          · rfl
          · cases ha : a.IsNil
            · exact absurd ⟨Or.inl hke, hb, by simp [ha]⟩ h6
            · exact absurd ⟨Or.inl hke, hb, ha⟩ h5
        have hna : a.IsNil = false := by
          cases ha : a.IsNil
          · rfl
          · exact absurd ⟨Or.inl hke, by simp [hne], ha⟩ h7
        exact H _ _ _ _ _ (hl (e.depth_Elem_lt hke hne)) (hr (a.depth_Elem_lt (hK.trans hke) hna))
          hE.Elem hA.Elem
      rw [if_neg h9, if_neg h9]
      by_cases h10 : e.Kind = Kind.map
      · rw [if_pos h10, if_pos h10]; exact hmap
      rw [if_neg h10, if_neg h10]
      by_cases h11 : e.Kind = Kind.slice ∨ e.Kind = Kind.array
      · rw [if_pos h11, if_pos h11]; exact hslice
      rw [if_neg h11, if_neg h11]
      by_cases h12 : e.typeOf = some timeType
      · rw [if_pos h12, if_pos h12]
      rw [if_neg h12, if_neg h12]
      by_cases h13 : e.Kind = Kind.struct
      · rw [if_pos h13, if_pos h13]; exact hstruct _
      rw [if_neg h13, if_neg h13]
      by_cases h14 : ¬ deepEqual e a = true
      · rw [if_pos h14, if_pos h14]; simp
      rw [if_neg h14, if_neg h14]

/-! ### The `IEqual` branch, pointers, the untyped nil -/

theorem Value.isNilInterface_of_typeOf {e : Value} {t : GoType} (h : e.typeOf = some t) :
    e.isNilInterface = false := by
  cases e <;> simp [Value.typeOf, Value.isNilInterface] at h ⊢

theorem equal.step_IEqual (env : Env) (opt : EqOption)
    (eq : Value → Value → String → Option GoError) (e a : Value) (p : String)
    (f : Value → Value → Bool) (hp : p ∉ opt.ignoredPath) (hT : e.typeOf = a.typeOf)
    (hI : e.typeOf.bind env.IEqual = some f)
    (hr : (e.Kind = Kind.ptr ∨ e.Kind = Kind.slice ∨ e.Kind = Kind.map) →
      e.IsNil = false ∧ a.IsNil = false ∧ e.Pointer ≠ a.Pointer) :
    equal.step env opt eq e a p =
      if f e a = true then some GoError.nil
      else some (GoError.errorf (p ++ ": not equal, compared via implement IEqual interface")) := by
  obtain ⟨t, ht, -⟩ := Option.bind_eq_some.1 hI
  have hie : e.isNilInterface = false := Value.isNilInterface_of_typeOf ht
  have hia : a.isNilInterface = false := Value.isNilInterface_of_typeOf (hT ▸ ht)
  simp only [equal.step, if_neg hp]
  rw [if_neg (not_not.2 hT), if_neg (by simp [hie]), if_neg (by simp [hie, hia]),
    if_neg (fun h => by simp [(hr h.1).1] at h), if_neg (fun h => by simp [(hr h.1).1] at h),
    if_neg (fun h => by simp [(hr h.1).2.1] at h), if_neg (fun h => (hr h.1).2.2 h.2)]
  simp only [hI]

theorem equalAt_ptr (env : Env) (opt : EqOption) (t : String) (a1 a2 : Nat) (v w : Value)
    (p : String) (hI : env.IEqual ⟨Kind.ptr, t, []⟩ = none) (hd : a1 ≠ a2) :
    equalAt env opt (Value.ptr t a1 v) (Value.ptr t a2 w) p = equalAt env opt v w p := by
  by_cases hp : p ∈ opt.ignoredPath
  · rw [equalAt_ignored env opt _ _ p hp, equalAt_ignored env opt _ _ p hp]
  rw [equalAt_structural env opt (Value.ptr t a1 v) (Value.ptr t a2 w) p hp rfl
    (by simp [Value.Kind, Value.typeOf]) rfl rfl (fun _ => hd)
    (by simpa [Value.typeOf] using hI)]
  simp [Value.Kind, Value.typeOf, Value.Elem]

theorem equalAt_untyped_nil (env : Env) (opt : EqOption) (e a : Value) (p : String)
    (hp : p ∉ opt.ignoredPath) (h : e.isNilInterface ≠ a.isNilInterface) :
    equalAt env opt e a p = some (GoError.errorf (p ++ ": different Type, " ++ fmtType e.typeOf
      ++ " vs " ++ fmtType a.typeOf)) := by
  have hT : e.typeOf ≠ a.typeOf := by
    intro hT
    apply h
    cases e <;> cases a <;> simp [Value.typeOf, Value.isNilInterface] at hT ⊢
  rw [equalAt_eq]
  simp only [equal.step, if_neg hp]
  rw [if_pos hT]

/-! ### Sequences compared as sets -/

/-- Two sequences of scalars of one length, every element of each found in
the other, at a path marked as order-insensitive: no error. -/
theorem equalAt_seq_contained (env : Env) (opt : EqOption) (e a : Value) (p : String)
    (hT : e.typeOf = a.typeOf) (hk : e.Kind = Kind.slice ∨ e.Kind = Kind.array)
    (hnil : e.IsNil = a.IsNil)
    (hI : e.typeOf.bind env.IEqual = none)
    (hs : ∀ x ∈ e.elems, (x.Kind = Kind.bool ∨ x.Kind = Kind.int ∨ x.Kind = Kind.string)
      ∧ x.typeOf.bind env.IEqual = none)
    (hlen : e.Len = a.Len)
    (hea : ∀ x ∈ e.elems, x ∈ a.elems) (hae : ∀ y ∈ a.elems, y ∈ e.elems)
    (hmark : opt.arrayOrder p = true ∨ opt.arrayOrder "*" = true) :
    equalAt env opt e a p = some GoError.nil := by
  by_cases hp : p ∈ opt.ignoredPath
  · exact equalAt_ignored env opt e a p hp
  cases hne : e.IsNil with
  | true => exact equalAt_both_nil env opt e a p hT hne (hnil ▸ hne)
  | false =>
    have hna : a.IsNil = false := hnil ▸ hne
    by_cases hptr : e.Kind = Kind.slice ∧ e.Pointer = a.Pointer
    · exact equalAt_same_pointer env opt e a p hT (Or.inr (Or.inl hptr.1)) hne hna hptr.2
    rw [equalAt_seq env opt e a p hp hT hk hne hna (fun h h' => hptr ⟨h, h'⟩) hI]
    have hmode : ¬ (¬ opt.arrayOrder p = true ∧ ¬ opt.arrayOrder "*" = true) := by
      rcases hmark with h | h <;> simp [h]
    have hself : ∀ x ∈ e.elems, ∀ q, equalAt env opt x x q = some GoError.nil := fun x hx q =>
      equalAt_scalar_self env opt x q (hs x hx).1 (hs x hx).2
    simp only [equalSlice, ne_eq, hlen, not_true_eq_false, if_false, if_neg hmode,
      GoError.andThen_nil, GoError.andThen_eq_nil, equalSlice.compare]
    refine ⟨?_, ?_⟩
    · exact equalSlice.scan_of_mem env p a e.elems 0
        (fun x _ y _ q => equalAt_isSome env opt x y q)
        (fun x hx q => ⟨x, hea x hx, hself x hx q⟩)
    · exact equalSlice.scan_of_mem env p e a.elems 0
        (fun x _ y _ q => equalAt_isSome env opt x y q)
        (fun x hx q => ⟨x, hae x hx, hself x (hae x hx) q⟩)

/-! ### Timestamps -/

theorem GoTime.UnixNano_eq_wrap64 (t : GoTime) : t.UnixNano = wrap64 t.nanosSinceEpoch := by
  simp only [GoTime.UnixNano, GoTime.nanosSinceEpoch, wrap64]
  omega

theorem wrap64_of_int64 {n : Int} (h1 : -9223372036854775808 ≤ n) (h2 : n < 9223372036854775808) :
    wrap64 n = n := by
  simp only [wrap64]
  omega

theorem equalAt_time (env : Env) (opt : EqOption) (t1 t2 : GoTime) (p : String)
    (hp : p ∉ opt.ignoredPath) (hI : env.IEqual timeType = none) :
    equalAt env opt (Value.time t1) (Value.time t2) p
      = some (equalTime env t1 t2 p opt.TimeEqual) := by
  rw [equalAt_structural env opt (Value.time t1) (Value.time t2) p hp rfl
    (by simp [Value.Kind, Value.typeOf, timeType]) rfl rfl
    (by simp [Value.Kind, Value.typeOf, timeType]) (by simpa [Value.typeOf] using hI)]
  simp [Value.Kind, Value.typeOf, Value.asTime, timeType]

theorem deepEqual_time (t1 t2 : GoTime) :
    deepEqual (Value.time t1) (Value.time t2) = true ↔ t1 = t2 := by
  simp [deepEqual]

/-! ### Marking more paths as order-insensitive -/

section relax
variable {eq1 eq2 : Value → Value → String → Option GoError}

theorem equalMap_mono (e a : Value) (p : String)
    (H : ∀ x y q, x.depth < max e.depth a.depth → y.depth < max e.depth a.depth →
      eq1 x y q = some GoError.nil → eq2 x y q = some GoError.nil)
    (h : equalMap eq1 e a p = some GoError.nil) : equalMap eq2 e a p = some GoError.nil := by
  simp only [equalMap] at h ⊢
  by_cases hlen : e.MapKeys.length ≠ a.MapKeys.length
  · rw [if_pos hlen] at h; simp at h
  rw [if_neg hlen] at h ⊢
  rw [equalMap_loop_eq_nil_iff] at h ⊢
  intro k hk
  obtain ⟨x, y, hx, hy, hxy⟩ := h k hk
  exact ⟨x, y, hx, hy, H x y _ (lt_of_lt_of_le (e.depth_MapIndex_lt hx) (le_max_left _ _))
    (lt_of_lt_of_le (a.depth_MapIndex_lt hy) (le_max_right _ _)) hxy⟩

theorem equalSlice_mono (env : Env) (o1 o2 : EqOption) (e a : Value) (p : String)
    (hm : ∀ q, o1.arrayOrder q = true → o2.arrayOrder q = true)
    (ht1 : ∀ x y q, (eq1 x y q).isSome) (ht2 : ∀ x y q, (eq2 x y q).isSome)
    (H : ∀ x y q, x.depth < max e.depth a.depth → y.depth < max e.depth a.depth →
      eq1 x y q = some GoError.nil → eq2 x y q = some GoError.nil)
    (h : equalSlice env o1 eq1 e a p = some GoError.nil) :
    equalSlice env o2 eq2 e a p = some GoError.nil := by
  have hl : ∀ {x : Value}, x ∈ e.elems → x.depth < max e.depth a.depth :=
    fun hx => lt_of_lt_of_le (e.depth_elems_lt hx) (le_max_left _ _)
  have hr : ∀ {x : Value}, x ∈ a.elems → x.depth < max e.depth a.depth :=
    fun hx => lt_of_lt_of_le (a.depth_elems_lt hx) (le_max_right _ _)
  simp only [equalSlice] at h ⊢
  by_cases hlen : e.Len ≠ a.Len
  · rw [if_pos hlen] at h; simp at h
  have hlen' : e.elems.length = a.elems.length := not_not.1 hlen
  rw [if_neg hlen] at h ⊢
  simp only [GoError.andThen_eq_nil, equalSlice.compare] at h ⊢
  obtain ⟨h0, h1, h2⟩ := h
  rw [equalSlice.scan_eq_nil_iff env p a e.elems 0 (fun x _ y _ q => ht1 x y q)] at h1
  rw [equalSlice.scan_eq_nil_iff env p e a.elems 0 (fun x _ y _ q => ht1 x y q)] at h2
  rw [equalSlice.scan_eq_nil_iff env p a e.elems 0 (fun x _ y _ q => ht2 x y q),
    equalSlice.scan_eq_nil_iff env p e a.elems 0 (fun x _ y _ q => ht2 x y q)]
  refine ⟨?_, ?_, ?_⟩
  · by_cases hm2 : ¬ o2.arrayOrder p = true ∧ ¬ o2.arrayOrder "*" = true
    · have hm1 : ¬ o1.arrayOrder p = true ∧ ¬ o1.arrayOrder "*" = true :=
        ⟨fun h => hm2.1 (hm _ h), fun h => hm2.2 (hm _ h)⟩
      rw [if_pos hm1] at h0
      rw [if_pos hm2]
      rw [equalSlice_loop_eq_nil_iff p _ 0 _ hlen'] at h0 ⊢
      intro j x y hx hy
      exact H x y _ (hl (List.mem_iff_getElem?.2 ⟨j, hx⟩)) (hr (List.mem_iff_getElem?.2 ⟨j, hy⟩))
        (h0 j x y hx hy)
    · rw [if_neg hm2]
  · intro j x hx
    obtain ⟨y, hy, hxy⟩ := h1 j x hx
    exact ⟨y, hy, H x y _ (hl (List.mem_iff_getElem?.2 ⟨j, hx⟩)) (hr hy) hxy⟩
  · intro j x hx
    obtain ⟨y, hy, hxy⟩ := h2 j x hx
    exact ⟨y, hy, H x y _ (hr (List.mem_iff_getElem?.2 ⟨j, hx⟩)) (hl hy) hxy⟩

theorem equalStruct.ipath_tag_eq (o1 o2 : EqOption) (p : String) (f : StructField)
    (htag : o2.IgnoreByTagName = o1.IgnoreByTagName) :
    equalStruct.ipath o2 p f = equalStruct.ipath o1 p f := by
  simp only [equalStruct.ipath, htag]

theorem equalStruct_mono (o1 o2 : EqOption) (fs : List StructField) (e a : Value) (p : String)
    (htag : o2.IgnoreByTagName = o1.IgnoreByTagName)
    (H : ∀ x y q, x.depth < max e.depth a.depth → y.depth < max e.depth a.depth →
      eq1 x y q = some GoError.nil → eq2 x y q = some GoError.nil)
    (h : equalStruct o1 eq1 fs e a p = some GoError.nil) :
    equalStruct o2 eq2 fs e a p = some GoError.nil := by
  simp only [equalStruct, equalStruct_loop_eq_nil_iff] at h ⊢
  intro i f x y q hf hx hy hex hq
  rw [equalStruct.ipath_tag_eq o1 o2 p f htag] at hq
  exact H x y q
    (lt_of_lt_of_le (e.depth_fieldVals_lt (List.mem_iff_getElem?.2 ⟨i, hx⟩)) (le_max_left _ _))
    (lt_of_lt_of_le (a.depth_fieldVals_lt (List.mem_iff_getElem?.2 ⟨i, hy⟩)) (le_max_right _ _))
    (h i f x y q hf hx hy hex hq)

end relax

/-- A comparison that passes still passes when more paths are marked as
order-insensitive. -/
theorem equalAt_mono (env : Env) (o1 o2 : EqOption)
    (hig : o2.ignoredPath = o1.ignoredPath) (htag : o2.IgnoreByTagName = o1.IgnoreByTagName)
    (htime : o2.TimeEqual = o1.TimeEqual)
    (hm : ∀ q, o1.arrayOrder q = true → o2.arrayOrder q = true) :
    ∀ (n : Nat) (e a : Value) (p : String), e.depth < n → a.depth < n →
    equalAt env o1 e a p = some GoError.nil → equalAt env o2 e a p = some GoError.nil := by
  intro n
  induction n with
  | zero => intro e a p he; exact absurd he (Nat.not_lt_zero _)
  | succ n ih =>
    intro e a p he ha
    have H : ∀ x y q, x.depth < max e.depth a.depth → y.depth < max e.depth a.depth →
        equalAt env o1 x y q = some GoError.nil → equalAt env o2 x y q = some GoError.nil :=
      fun x y q hx hy =>
        ih x y q (lt_of_lt_of_le hx (max_le (by omega) (by omega)))
          (lt_of_lt_of_le hy (max_le (by omega) (by omega)))
    have hl : ∀ {x : Value}, x.depth < e.depth → x.depth < max e.depth a.depth :=
      fun hx => lt_of_lt_of_le hx (le_max_left _ _)
    have hr : ∀ {x : Value}, x.depth < a.depth → x.depth < max e.depth a.depth :=
      fun hx => lt_of_lt_of_le hx (le_max_right _ _)
    by_cases hp : p ∈ o1.ignoredPath
    · intro _; exact equalAt_ignored env o2 e a p (hig ▸ hp)
    have hp2 : p ∉ o2.ignoredPath := hig ▸ hp
    rw [equalAt_eq env o1 e a, equalAt_eq env o2 e a]
    simp only [equal.step, htime]
    rw [if_neg hp, if_neg hp2]
    by_cases h2 : e.typeOf ≠ a.typeOf
    · rw [if_pos h2, if_pos h2]; exact id
    rw [if_neg h2, if_neg h2]
    by_cases h3 : e.isNilInterface = true ∧ a.isNilInterface = true
    · rw [if_pos h3, if_pos h3]; exact id
    rw [if_neg h3, if_neg h3]
    by_cases h4 : (¬ e.isNilInterface = true ∧ a.isNilInterface = true)
        ∨ (e.isNilInterface = true ∧ ¬ a.isNilInterface = true)
    · rw [if_pos h4, if_pos h4]; exact id
    rw [if_neg h4, if_neg h4]
    by_cases h5 : (e.Kind = Kind.ptr ∨ e.Kind = Kind.slice ∨ e.Kind = Kind.map)
        ∧ e.IsNil = true ∧ a.IsNil = true
    · rw [if_pos h5, if_pos h5]; exact id
    rw [if_neg h5, if_neg h5]
    by_cases h6 : (e.Kind = Kind.ptr ∨ e.Kind = Kind.slice ∨ e.Kind = Kind.map)
        ∧ e.IsNil = true ∧ ¬ a.IsNil = true
    · rw [if_pos h6, if_pos h6]; exact id
    rw [if_neg h6, if_neg h6]
    by_cases h7 : (e.Kind = Kind.ptr ∨ e.Kind = Kind.slice ∨ e.Kind = Kind.map)
        ∧ ¬ e.IsNil = true ∧ a.IsNil = true
    · rw [if_pos h7, if_pos h7]; exact id
    rw [if_neg h7, if_neg h7]
    by_cases h8 : (e.Kind = Kind.ptr ∨ e.Kind = Kind.slice ∨ e.Kind = Kind.map)
        ∧ e.Pointer = a.Pointer
    · rw [if_pos h8, if_pos h8]; exact id
    rw [if_neg h8, if_neg h8]
    cases hI : e.typeOf.bind env.IEqual with
    | some f => exact id
    | none =>
      simp only []
      by_cases h9 : e.Kind = Kind.ptr ∨ a.Kind = Kind.ptr
      · rw [if_pos h9, if_pos h9]
        have hT : e.typeOf = a.typeOf := not_not.1 h2
        have hK : a.Kind = e.Kind := (Value.Kind_eq_of_typeOf_eq hT).symm
        have hke : e.Kind = Kind.ptr := by
          rcases h9 with h9 | h9
          · exact h9
          · rw [← hK]; exact h9
        have hne : e.IsNil = false := by
          cases hb : e.IsNil
          · rfl
          · cases ha : a.IsNil
            · exact absurd ⟨Or.inl hke, hb, by simp [ha]⟩ h6
            · exact absurd ⟨Or.inl hke, hb, ha⟩ h5
        have hna : a.IsNil = false := by
          cases ha : a.IsNil
          · rfl
          · exact absurd ⟨Or.inl hke, by simp [hne], ha⟩ h7
        exact H _ _ _ (hl (e.depth_Elem_lt hke hne)) (hr (a.depth_Elem_lt (hK.trans hke) hna))
      rw [if_neg h9, if_neg h9]
      by_cases h10 : e.Kind = Kind.map
      · rw [if_pos h10, if_pos h10]; exact equalMap_mono e a p H
      rw [if_neg h10, if_neg h10]
      by_cases h11 : e.Kind = Kind.slice ∨ e.Kind = Kind.array
      · rw [if_pos h11, if_pos h11]
        exact equalSlice_mono env o1 o2 e a p hm (fun x y q => equalAt_isSome env o1 x y q)
          (fun x y q => equalAt_isSome env o2 x y q) H
      rw [if_neg h11, if_neg h11]
      by_cases h12 : e.typeOf = some timeType
      · rw [if_pos h12, if_pos h12]; exact id
      rw [if_neg h12, if_neg h12]
      by_cases h13 : e.Kind = Kind.struct
      · rw [if_pos h13, if_pos h13]; exact equalStruct_mono o1 o2 _ e a p htag H
      rw [if_neg h13, if_neg h13]
      exact id

/-! ### Paths and prefixes -/

theorem String.foldl_append (l : List String) : ∀ acc : String,
    List.foldl (fun r s => r ++ s) acc l = acc ++ List.foldl (fun r s => r ++ s) "" l := by
  induction l with
  | nil => intro acc; simp
  | cons s l ih =>
    intro acc
    simp only [List.foldl_cons]
    rw [ih (acc ++ s), ih ("" ++ s)]
    simp [String.append_assoc]

theorem String.join_cons_eq (p : String) (rest : List String) :
    String.join (p :: rest) = p ++ String.join rest := by
  simp only [String.join, List.foldl_cons]
  rw [String.foldl_append rest ("" ++ p)]
  simp

theorem joinPath_prefix (p : String) (rest : List String) : ∃ s, joinPath (p :: rest) = p ++ s := by
  cases rest with
  | nil => exact ⟨"", by simp [joinPath, String.join_singleton]⟩
  | cons p1 rest =>
    simp only [joinPath]
    by_cases h : p = "" ∧ p1 = "."
    · rw [if_pos h]
      exact ⟨String.join rest, by simp [h.1]⟩
    · rw [if_neg h]
      exact ⟨_, String.join_cons_eq p _⟩

theorem joinPath_field (p n : String) (hp : p ≠ "") : joinPath [p, ".", n] = p ++ "." ++ n := by
  simp only [joinPath, hp, false_and, if_false]
  rw [String.join_cons_eq, String.join_cons_eq, String.join_singleton, String.append_assoc]


theorem StartsWithPath.nil (p : String) : StartsWithPath p (some GoError.nil) := by
  intro m h; cases h

theorem StartsWithPath.errorf (p s : String) :
    StartsWithPath p (some (GoError.errorf (p ++ s))) := by
  intro m h
  cases h
  exact ⟨s, rfl⟩

theorem StartsWithPath.andThen {p : String} {r k : Option GoError}
    (hr : StartsWithPath p r) (hk : StartsWithPath p k) : StartsWithPath p (GoError.andThen r k) := by
  cases r with
  | none => exact hr
  | some g =>
    cases g with
    | nil => exact hk
    | errorf m => exact hr

theorem StartsWithPath.of_joinPath {p : String} {rest : List String} {r : Option GoError}
    (h : StartsWithPath (joinPath (p :: rest)) r) : StartsWithPath p r := by
  intro m hm
  obtain ⟨s, hs⟩ := h m hm
  obtain ⟨s', hs'⟩ := joinPath_prefix p rest
  exact ⟨s' ++ s, by rw [hs, hs', String.append_assoc]⟩

section startsWith
variable {eq : Value → Value → String → Option GoError}

theorem equalMap_startsWith (e a : Value) (p : String)
    (H : ∀ x y q, StartsWithPath q (eq x y q)) : StartsWithPath p (equalMap eq e a p) := by
  simp only [equalMap]
  by_cases hlen : e.MapKeys.length ≠ a.MapKeys.length
  · rw [if_pos hlen]
    simp only [String.append_assoc]
    exact StartsWithPath.errorf _ _
  rw [if_neg hlen]
  generalize e.MapKeys = keys
  induction keys with
  | nil => exact StartsWithPath.nil p
  | cons k ks ih =>
    simp only [equalMap.loop]
    cases hx : e.MapIndex k with
    | none =>
      simp only [String.append_assoc]
      exact StartsWithPath.of_joinPath (StartsWithPath.errorf _ _)
    | some x =>
      cases hy : a.MapIndex k with
      | none =>
        simp only [String.append_assoc]
        exact StartsWithPath.of_joinPath (StartsWithPath.errorf _ _)
      | some y => exact StartsWithPath.andThen (StartsWithPath.of_joinPath (H x y _)) ih

theorem equalSlice_loop_startsWith (p : String) (H : ∀ x y q, StartsWithPath q (eq x y q))
    (xs : List Value) : ∀ (i : Nat) (ys : List Value),
    StartsWithPath p (equalSlice.loop eq p i xs ys) := by
  induction xs with
  | nil => intro i ys; exact StartsWithPath.nil p
  | cons x xs ih =>
    intro i ys
    cases ys with
    | nil => intro m h; simp [equalSlice.loop] at h
    | cons y ys =>
      simp only [equalSlice.loop]
      exact StartsWithPath.andThen (StartsWithPath.of_joinPath (H x y _)) (ih (i + 1) ys)

theorem equalSlice_scan_startsWith (env : Env) (p : String) (b : Value) (xs : List Value) :
    ∀ (i : Nat), StartsWithPath p (equalSlice.scan env eq p b i xs) := by
  induction xs with
  | nil => intro i; exact StartsWithPath.nil p
  | cons x xs ih =>
    intro i
    simp only [equalSlice.scan]
    cases equalSlice.find eq x (joinPath [p, "[", toString i, "]"]) b.elems with
    | none => intro m h; cases h
    | some t =>
      cases t with
      | true => exact ih (i + 1)
      | false =>
        simp only [String.append_assoc]
        exact StartsWithPath.errorf _ _

theorem equalSlice_startsWith (env : Env) (opt : EqOption) (e a : Value) (p : String)
    (H : ∀ x y q, StartsWithPath q (eq x y q)) :
    StartsWithPath p (equalSlice env opt eq e a p) := by
  simp only [equalSlice]
  by_cases hlen : e.Len ≠ a.Len
  · rw [if_pos hlen]
    simp only [String.append_assoc]
    exact StartsWithPath.errorf _ _
  rw [if_neg hlen]
  refine StartsWithPath.andThen ?_ (StartsWithPath.andThen
    (equalSlice_scan_startsWith env p a _ 0) (equalSlice_scan_startsWith env p e _ 0))
  by_cases hm : ¬ opt.arrayOrder p = true ∧ ¬ opt.arrayOrder "*" = true
  · rw [if_pos hm]; exact equalSlice_loop_startsWith p H _ 0 _
  · rw [if_neg hm]; exact StartsWithPath.nil p

theorem equalStruct.ipath_prefix (opt : EqOption) (p : String) (f : StructField) (q : String)
    (h : equalStruct.ipath opt p f = some q) : ∃ n, q = joinPath [p, ".", n] := by
  simp only [equalStruct.ipath] at h
  split at h
  · split at h
    · split at h
      · cases h
      · split at h
        · cases h; exact ⟨_, rfl⟩
        · cases h; exact ⟨_, rfl⟩
    · cases h; exact ⟨_, rfl⟩
  · cases h; exact ⟨_, rfl⟩

theorem equalStruct_loop_startsWith (opt : EqOption) (p : String)
    (H : ∀ x y q, StartsWithPath q (eq x y q)) (fs : List StructField) :
    ∀ (xs ys : List Value), StartsWithPath p (equalStruct.loop opt eq p fs xs ys) := by
  induction fs with
  | nil => intro xs ys; simp only [equalStruct.loop]; exact StartsWithPath.nil p
  | cons f fs ih =>
    intro xs ys
    cases xs with
    | nil => simp only [equalStruct.loop]; exact StartsWithPath.nil p
    | cons x xs =>
      cases ys with
      | nil => simp only [equalStruct.loop]; exact StartsWithPath.nil p
      | cons y ys =>
        simp only [equalStruct.loop]
        cases hq : equalStruct.ipath opt p f with
        | none => exact ih xs ys
        | some q =>
          obtain ⟨n, hn⟩ := equalStruct.ipath_prefix opt p f q hq
          cases f.exported with
          | false => exact ih xs ys
          | true =>
            simp only [if_true]
            refine StartsWithPath.andThen ?_ (ih xs ys)
            have := H x y q
            rw [hn] at this ⊢
            exact StartsWithPath.of_joinPath this

theorem equal.step_startsWith (env : Env) (opt : EqOption) (e a : Value) (p : String)
    (H : ∀ x y q, StartsWithPath q (eq x y q)) :
    StartsWithPath p (equal.step env opt eq e a p) := by
  simp only [equal.step]
  by_cases h1 : p ∈ opt.ignoredPath
  · rw [if_pos h1]; exact StartsWithPath.nil p
  rw [if_neg h1]
  by_cases h2 : e.typeOf ≠ a.typeOf
  · rw [if_pos h2]; simp only [String.append_assoc]; exact StartsWithPath.errorf _ _
  rw [if_neg h2]
  by_cases h3 : e.isNilInterface = true ∧ a.isNilInterface = true
  · rw [if_pos h3]; exact StartsWithPath.nil p
  rw [if_neg h3]
  by_cases h4 : (¬ e.isNilInterface = true ∧ a.isNilInterface = true)
      ∨ (e.isNilInterface = true ∧ ¬ a.isNilInterface = true)
  · rw [if_pos h4]; simp only [String.append_assoc]; exact StartsWithPath.errorf _ _
  rw [if_neg h4]
  by_cases h5 : (e.Kind = Kind.ptr ∨ e.Kind = Kind.slice ∨ e.Kind = Kind.map)
      ∧ e.IsNil = true ∧ a.IsNil = true
  · rw [if_pos h5]; exact StartsWithPath.nil p
  rw [if_neg h5]
  by_cases h6 : (e.Kind = Kind.ptr ∨ e.Kind = Kind.slice ∨ e.Kind = Kind.map)
      ∧ e.IsNil = true ∧ ¬ a.IsNil = true
  · rw [if_pos h6]; simp only [String.append_assoc]; exact StartsWithPath.errorf _ _
  rw [if_neg h6]
  by_cases h7 : (e.Kind = Kind.ptr ∨ e.Kind = Kind.slice ∨ e.Kind = Kind.map)
      ∧ ¬ e.IsNil = true ∧ a.IsNil = true
  · rw [if_pos h7]; simp only [String.append_assoc]; exact StartsWithPath.errorf _ _
  rw [if_neg h7]
  by_cases h8 : (e.Kind = Kind.ptr ∨ e.Kind = Kind.slice ∨ e.Kind = Kind.map)
      ∧ e.Pointer = a.Pointer
  · rw [if_pos h8]; exact StartsWithPath.nil p
  rw [if_neg h8]
  cases hI : e.typeOf.bind env.IEqual with
  | some f =>
    simp only []
    by_cases hf : f e a = true
    · rw [if_pos hf]; exact StartsWithPath.nil p
    · rw [if_neg hf]; exact StartsWithPath.errorf _ _
  | none =>
    simp only []
    by_cases h9 : e.Kind = Kind.ptr ∨ a.Kind = Kind.ptr
    · rw [if_pos h9]; exact H _ _ _
    rw [if_neg h9]
    by_cases h10 : e.Kind = Kind.map
    · rw [if_pos h10]; exact equalMap_startsWith e a p H
    rw [if_neg h10]
    by_cases h11 : e.Kind = Kind.slice ∨ e.Kind = Kind.array
    · rw [if_pos h11]; exact equalSlice_startsWith env opt e a p H
    rw [if_neg h11]
    by_cases h12 : e.typeOf = some timeType
    · rw [if_pos h12]
      simp only [equalTime]
      split
      · split
        · simp only [String.append_assoc]; exact StartsWithPath.errorf _ _
        · exact StartsWithPath.nil p
      · split
        · simp only [String.append_assoc]; exact StartsWithPath.errorf _ _
        · exact StartsWithPath.nil p
    rw [if_neg h12]
    by_cases h13 : e.Kind = Kind.struct
    · rw [if_pos h13]; exact equalStruct_loop_startsWith opt p H _ _ _
    rw [if_neg h13]
    by_cases h14 : ¬ deepEqual e a = true
    · rw [if_pos h14]; simp only [String.append_assoc]; exact StartsWithPath.errorf _ _
    rw [if_neg h14]
    exact StartsWithPath.nil p

end startsWith

theorem equal_startsWith (env : Env) (opt : EqOption) :
    ∀ (n : Nat) (e a : Value) (p : String), StartsWithPath p (equal env opt n e a p) := by
  intro n
  induction n with
  | zero => intro e a p m h; cases h
  | succ n ih => intro e a p; exact equal.step_startsWith env opt e a p ih

/-- Every diagnostic of a comparison starts with the path of the comparison. -/
theorem equalAt_startsWith (env : Env) (opt : EqOption) (e a : Value) (p : String) :
    StartsWithPath p (equalAt env opt e a p) :=
  equal_startsWith env opt _ e a p

section more
variable {eq : Value → Value → String → Option GoError}

/-! ### Where the loops of `equalMap` and `equalStruct` fail -/

theorem equalMap_loop_absent (e a : Value) (p : String) (keys : List String) :
    ∀ (i : Nat) (k : String) (x : Value), keys[i]? = some k →
    e.MapIndex k = some x → a.MapIndex k = none →
    (∀ (j : Nat) k', j < i → keys[j]? = some k' →
      ∃ x y, e.MapIndex k' = some x ∧ a.MapIndex k' = some y
        ∧ eq x y (joinPath [p, ".", k']) = some GoError.nil) →
    equalMap.loop eq e a p keys
      = some (GoError.errorf (joinPath [p, ".", k]
          ++ ": different map key isValid, true vs false")) := by
  induction keys with
  | nil => intro i k x hk; simp at hk
  | cons k0 ks ih =>
    intro i k x hk hx hy hprev
    cases i with
    | zero =>
      simp only [List.getElem?_cons_zero, Option.some.injEq] at hk
      subst hk
      simp only [equalMap.loop, hx, hy]
      simp only [String.append_assoc]
      rfl
    | succ i =>
      simp only [List.getElem?_cons_succ] at hk
      obtain ⟨x0, y0, hx0, hy0, h0⟩ := hprev 0 k0 (Nat.succ_pos _) (List.getElem?_cons_zero ..)
      simp only [equalMap.loop, hx0, hy0, h0, GoError.andThen_nil]
      exact ih i k x hk hx hy fun j k' hj hk' =>
        hprev (j + 1) k' (Nat.succ_lt_succ hj) (by simpa using hk')

theorem mem_keys_of_lookup {k : String} {x : Value} {es : List (String × Value)}
    (h : es.lookup k = some x) : k ∈ es.map Prod.fst :=
  List.mem_map.2 ⟨(k, x), mem_of_lookup h, rfl⟩

theorem Value.mem_MapKeys_of_MapIndex {v : Value} {k : String} {x : Value}
    (h : v.MapIndex k = some x) : k ∈ v.MapKeys :=
  mem_keys_of_lookup h

theorem Value.MapIndex_of_mem_MapKeys {v : Value} {k : String} (h : k ∈ v.MapKeys) :
    ∃ x, v.MapIndex k = some x :=
  lookup_isSome_of_mem_keys h

theorem keys_eq_of_subset {ks ls : List String} (hnd : ks.Nodup) (hlen : ks.length = ls.length)
    (hsub : ∀ k ∈ ks, k ∈ ls) : ∀ k, k ∈ ks ↔ k ∈ ls := by
  have hperm : ks.Perm ls := (List.subperm_of_subset hnd hsub).perm_of_length_le (le_of_eq hlen.symm)
  exact fun k => hperm.mem_iff

/-- When `equalMap` passes on maps with pairwise distinct keys. -/
theorem equalMap_eq_nil_iff (e a : Value) (p : String)
    (hnde : e.MapKeys.Nodup) (hnda : a.MapKeys.Nodup) :
    equalMap eq e a p = some GoError.nil ↔
      (∀ k, k ∈ e.MapKeys ↔ k ∈ a.MapKeys)
      ∧ ∀ k x y, e.MapIndex k = some x → a.MapIndex k = some y →
          eq x y (joinPath [p, ".", k]) = some GoError.nil := by
  simp only [equalMap]
  constructor
  · intro h
    by_cases hlen : e.MapKeys.length ≠ a.MapKeys.length
    · rw [if_pos hlen] at h; simp at h
    rw [if_neg hlen, equalMap_loop_eq_nil_iff] at h
    refine ⟨keys_eq_of_subset hnde (not_not.1 hlen) fun k hk => ?_, fun k x y hx hy => ?_⟩
    · obtain ⟨x, y, _, hy, _⟩ := h k hk
      exact Value.mem_MapKeys_of_MapIndex hy
    · obtain ⟨x', y', hx', hy', hxy⟩ := h k (Value.mem_MapKeys_of_MapIndex hx)
      rw [hx] at hx'; rw [hy] at hy'
      cases hx'; cases hy'
      exact hxy
  · rintro ⟨hkeys, hvals⟩
    have hlen : e.MapKeys.length = a.MapKeys.length :=
      ((List.perm_ext_iff_of_nodup hnde hnda).2 hkeys).length_eq
    rw [if_neg (not_not.2 hlen), equalMap_loop_eq_nil_iff]
    intro k hk
    obtain ⟨x, hx⟩ := Value.MapIndex_of_mem_MapKeys hk
    obtain ⟨y, hy⟩ := Value.MapIndex_of_mem_MapKeys ((hkeys k).1 hk)
    exact ⟨x, y, hx, hy, hvals k x y hx hy⟩

theorem equalStruct_loop_error (opt : EqOption) (p : String) (fs : List StructField) :
    ∀ (xs ys : List Value) (i : Nat) (f : StructField) (x y : Value) (q m : String),
    fs[i]? = some f → xs[i]? = some x → ys[i]? = some y → f.exported = true →
    equalStruct.ipath opt p f = some q → eq x y q = some (GoError.errorf m) →
    (∀ (j : Nat) g u v r, j < i → fs[j]? = some g → xs[j]? = some u → ys[j]? = some v →
      g.exported = true → equalStruct.ipath opt p g = some r → eq u v r = some GoError.nil) →
    equalStruct.loop opt eq p fs xs ys = some (GoError.errorf m) := by
  induction fs with
  | nil => intro xs ys i f x y q m hf; simp at hf
  | cons f0 fs ih =>
    intro xs ys i f x y q m hf hx hy hex hq hm hprev
    cases xs with
    | nil => simp at hx
    | cons x0 xs =>
      cases ys with
      | nil => simp at hy
      | cons y0 ys =>
        cases i with
        | zero =>
          simp only [List.getElem?_cons_zero, Option.some.injEq] at hf hx hy
          subst hf; subst hx; subst hy
          simp only [equalStruct.loop, hq, hex, if_true, hm, GoError.andThen_errorf]
        | succ i =>
          simp only [List.getElem?_cons_succ] at hf hx hy
          have hrest := ih xs ys i f x y q m hf hx hy hex hq hm fun j g u v r hj hg hu hv =>
            hprev (j + 1) g u v r (Nat.succ_lt_succ hj) (by simpa using hg) (by simpa using hu)
              (by simpa using hv)
          simp only [equalStruct.loop]
          cases hq0 : equalStruct.ipath opt p f0 with
          | none => exact hrest
          | some q0 =>
            cases he0 : f0.exported with
            | false => simpa using hrest
            | true =>
              have h0 := hprev 0 f0 x0 y0 q0 (Nat.succ_pos _) (List.getElem?_cons_zero ..)
                (List.getElem?_cons_zero ..) (List.getElem?_cons_zero ..) he0 hq0
              simp only [if_true, h0, GoError.andThen_nil]
              exact hrest

/-- The loop of `equalStruct` does not look at the values of a field that is
skipped by its tag. -/
theorem equalStruct_loop_set (opt : EqOption) (p : String) (fs : List StructField) :
    ∀ (xs ys : List Value) (i : Nat) (x' y' : Value),
    (∀ f, fs[i]? = some f → equalStruct.ipath opt p f = none) →
    equalStruct.loop opt eq p fs (xs.set i x') (ys.set i y')
      = equalStruct.loop opt eq p fs xs ys := by
  induction fs with
  | nil => intro xs ys i x' y' _; simp [equalStruct.loop]
  | cons f0 fs ih =>
    intro xs ys i x' y' hskip
    cases xs with
    | nil => simp [equalStruct.loop]
    | cons x0 xs =>
      cases ys with
      | nil =>
        cases i <;> simp [equalStruct.loop]
      | cons y0 ys =>
        cases i with
        | zero =>
          have h0 := hskip f0 (List.getElem?_cons_zero ..)
          simp only [List.set_cons_zero, equalStruct.loop, h0]
        | succ i =>
          have hrest := ih xs ys i x' y' fun f hf => hskip f (by simpa using hf)
          simp only [List.set_cons_succ, equalStruct.loop, hrest]

end more

theorem equalStruct.ipath_tagged (opt : EqOption) (p : String) (f : StructField) (tag : String)
    (hn : opt.IgnoreByTagName ≠ "") (ht : f.Tag.lookup opt.IgnoreByTagName = some tag) :
    equalStruct.ipath opt p f =
      if firstToken tag = "-" then none
      else if firstToken tag = "" then some (joinPath [p, ".", f.Name])
      else some (joinPath [p, ".", firstToken tag]) := by
  unfold equalStruct.ipath
  rw [if_pos hn]
  simp only [ht]
  rfl

theorem equalStruct.ipath_skip (opt : EqOption) (p : String) (f : StructField) (tag : String)
    (hn : opt.IgnoreByTagName ≠ "") (ht : f.Tag.lookup opt.IgnoreByTagName = some tag)
    (hd : firstToken tag = "-") : equalStruct.ipath opt p f = none := by
  rw [equalStruct.ipath_tagged opt p f tag hn ht, if_pos hd]

theorem equalStruct.ipath_rename (opt : EqOption) (p : String) (f : StructField) (tag : String)
    (hn : opt.IgnoreByTagName ≠ "") (ht : f.Tag.lookup opt.IgnoreByTagName = some tag)
    (h1 : firstToken tag ≠ "") (h2 : firstToken tag ≠ "-") :
    equalStruct.ipath opt p f = some (joinPath [p, ".", firstToken tag]) := by
  rw [equalStruct.ipath_tagged opt p f tag hn ht, if_neg h2, if_neg h1]

theorem equalStruct.ipath_keep (opt : EqOption) (p : String) (f : StructField)
    (h : opt.IgnoreByTagName = "" ∨ f.Tag.lookup opt.IgnoreByTagName = none
      ∨ ∃ tag, f.Tag.lookup opt.IgnoreByTagName = some tag ∧ firstToken tag = "") :
    equalStruct.ipath opt p f = some (joinPath [p, ".", f.Name]) := by
  rcases h with h | h | ⟨tag, ht, h0⟩
  · simp [equalStruct.ipath, h]
  · simp [equalStruct.ipath, h]
  · by_cases hn : opt.IgnoreByTagName = ""
    · simp [equalStruct.ipath, hn]
    · rw [equalStruct.ipath_tagged opt p f tag hn ht, if_neg (by rw [h0]; decide), if_pos h0]

/-- The comparison of two structs of one type that is not `IEqual`. -/
theorem equalAt_struct_cases (env : Env) (opt : EqOption) (t : String) (fs : List StructField)
    (xs ys : List Value) (p : String) (hI : env.IEqual ⟨Kind.struct, t, fs⟩ = none) :
    equalAt env opt (Value.struct t fs xs) (Value.struct t fs ys) p
      = if p ∈ opt.ignoredPath then some GoError.nil
        else if (⟨Kind.struct, t, fs⟩ : GoType) = timeType then
          some (equalTime env ⟨0, 0, none⟩ ⟨0, 0, none⟩ p opt.TimeEqual)
        else equalStruct.loop opt (equalAt env opt) p fs xs ys := by
  by_cases hp : p ∈ opt.ignoredPath
  · rw [if_pos hp]; exact equalAt_ignored env opt _ _ p hp
  rw [if_neg hp]
  by_cases ht : (⟨Kind.struct, t, fs⟩ : GoType) = timeType
  · rw [if_pos ht, equalAt_structural env _ (Value.struct t fs xs) (Value.struct t fs ys) p
      hp rfl (by simp [Value.Kind, Value.typeOf]) rfl rfl (by simp [Value.Kind, Value.typeOf])
      (by simpa [Value.typeOf] using hI)]
    simp [Value.Kind, Value.typeOf, ht, Value.asTime, timeType]
  rw [if_neg ht]
  exact equalAt_struct env opt t fs xs ys p hp hI ht

/-! ### Exchanging the two sides -/

theorem Value.allParts_self {P : Value → Prop} {v : Value} (h : v.allParts P) : P v := by
  cases v <;> simp only [Value.allParts] at h <;> first | exact h | exact h.1

theorem allPartsList_of_mem {P : Value → Prop} {xs : List Value} (h : allPartsList P xs)
    {x : Value} (hx : x ∈ xs) : x.allParts P := by
  induction xs with
  | nil => cases hx
  | cons y ys ih =>
    simp only [allPartsList] at h
    rcases List.mem_cons.1 hx with rfl | hx
    · exact h.1
    · exact ih h.2 hx

theorem allPartsEntries_of_mem {P : Value → Prop} {es : List (String × Value)}
    (h : allPartsEntries P es) {k : String} {x : Value} (hx : (k, x) ∈ es) : x.allParts P := by
  induction es with
  | nil => cases hx
  | cons y ys ih =>
    obtain ⟨k', v⟩ := y
    simp only [allPartsEntries] at h
    rcases List.mem_cons.1 hx with hxy | hx
    · cases hxy; exact h.1
    · exact ih h.2 hx

theorem Value.allParts_Elem {P : Value → Prop} {v : Value} (h : v.allParts P)
    (hk : v.Kind = Kind.ptr) (hn : v.IsNil = false) : v.Elem.allParts P := by
  cases v <;> simp [Value.Kind, Value.typeOf, Value.IsNil, timeType] at hk hn
  simp only [Value.allParts] at h
  exact h.2

theorem Value.allParts_elems {P : Value → Prop} {v : Value} (h : v.allParts P)
    {x : Value} (hx : x ∈ v.elems) : x.allParts P := by
  cases v <;> simp only [Value.elems, List.not_mem_nil] at hx
  all_goals
    simp only [Value.allParts] at h
    exact allPartsList_of_mem h.2 hx

theorem Value.allParts_fieldVals {P : Value → Prop} {v : Value} (h : v.allParts P)
    {x : Value} (hx : x ∈ v.fieldVals) : x.allParts P := by
  cases v <;> simp only [Value.fieldVals, List.not_mem_nil] at hx
  simp only [Value.allParts] at h
  exact allPartsList_of_mem h.2 hx

theorem Value.allParts_MapIndex {P : Value → Prop} {v : Value} (h : v.allParts P)
    {k : String} {x : Value} (hx : v.MapIndex k = some x) : x.allParts P := by
  cases v <;> simp only [Value.MapIndex, Value.entries, List.lookup] at hx <;> try cases hx
  simp only [Value.allParts] at h
  exact allPartsEntries_of_mem h.2 (mem_of_lookup hx)

theorem deepEqual_comm (e a : Value) : deepEqual e a = deepEqual a e := by
  cases e <;> cases a <;> simp [deepEqual, eq_comm]

theorem equalTime_comm (env : Env) (t1 t2 : GoTime) (p mode : String) :
    equalTime env t1 t2 p mode = GoError.nil ↔ equalTime env t2 t1 p mode = GoError.nil := by
  simp only [equalTime, deepEqual_comm (Value.time t1) (Value.time t2)]
  by_cases hm : mode = "unixNano"
  · rw [if_pos hm, if_pos hm]
    by_cases h : t1.UnixNano = t2.UnixNano
    · simp [h]
    · have h' : ¬ t2.UnixNano = t1.UnixNano := fun h' => h h'.symm
      simp [h, h']
  · rw [if_neg hm, if_neg hm]
    by_cases h : deepEqual (Value.time t2) (Value.time t1) = true
    · simp [h]
    · simp [h]

/-- A comparison that passes at a path that is not ignored is one of values
of one type, both nil or both not. -/
theorem equalAt_eq_nil_inv (env : Env) (opt : EqOption) (e a : Value) (p : String)
    (hp : p ∉ opt.ignoredPath) (h : equalAt env opt e a p = some GoError.nil) :
    e.typeOf = a.typeOf ∧ e.IsNil = a.IsNil := by
  rw [equalAt_eq] at h
  simp only [equal.step, if_neg hp] at h
  by_cases h2 : e.typeOf ≠ a.typeOf
  · rw [if_pos h2] at h; cases h
  have hT : e.typeOf = a.typeOf := not_not.1 h2
  refine ⟨hT, ?_⟩
  rw [if_neg h2] at h
  have hK : a.Kind = e.Kind := (Value.Kind_eq_of_typeOf_eq hT).symm
  cases hne : e.IsNil with
  | true =>
    cases hna : a.IsNil with
    | true => rfl
    | false =>
      have hk : e.Kind = Kind.ptr ∨ e.Kind = Kind.slice ∨ e.Kind = Kind.map := by
        by_contra hk
        rw [Value.IsNil_eq_false_of_Kind hk] at hne
        cases hne
      have hkk : e.Kind ≠ Kind.invalid := by rcases hk with h | h | h <;> simp [h]
      have hie : e.isNilInterface = false := Value.isNilInterface_of_Kind hkk
      have hia : a.isNilInterface = false := Value.isNilInterface_of_Kind (hK ▸ hkk)
      rw [if_neg (by simp [hie]), if_neg (by simp [hie, hia]), if_neg (by simp [hna]),
        if_pos ⟨hk, hne, by simp [hna]⟩] at h
      cases h
  | false =>
    cases hna : a.IsNil with
    | false => rfl
    | true =>
      have hk : e.Kind = Kind.ptr ∨ e.Kind = Kind.slice ∨ e.Kind = Kind.map := by
        rw [← hK]
        by_contra hk
        rw [Value.IsNil_eq_false_of_Kind hk] at hna
        cases hna
      have hkk : e.Kind ≠ Kind.invalid := by rcases hk with h | h | h <;> simp [h]
      have hie : e.isNilInterface = false := Value.isNilInterface_of_Kind hkk
      have hia : a.isNilInterface = false := Value.isNilInterface_of_Kind (hK ▸ hkk)
      rw [if_neg (by simp [hie]), if_neg (by simp [hie, hia]), if_neg (by simp [hne]),
        if_neg (by simp [hne]), if_pos ⟨hk, by simp [hne], hna⟩] at h
      cases h

section swap
variable {eq : Value → Value → String → Option GoError}

theorem equalMap_swap (e a : Value) (p : String)
    (hnde : e.MapKeys.Nodup) (hnda : a.MapKeys.Nodup)
    (H : ∀ k x y, e.MapIndex k = some x → a.MapIndex k = some y → ∀ q,
      eq x y q = some GoError.nil → eq y x q = some GoError.nil)
    (h : equalMap eq e a p = some GoError.nil) : equalMap eq a e p = some GoError.nil := by
  rw [equalMap_eq_nil_iff e a p hnde hnda] at h
  rw [equalMap_eq_nil_iff a e p hnda hnde]
  exact ⟨fun k => (h.1 k).symm, fun k y x hy hx => H k x y hx hy _ (h.2 k x y hx hy)⟩

theorem equalSlice_swap (env : Env) (opt : EqOption) (e a : Value) (p : String)
    (H : ∀ x ∈ e.elems, ∀ y ∈ a.elems, ∀ q,
      eq x y q = some GoError.nil → eq y x q = some GoError.nil)
    (h : equalSlice env opt eq e a p = some GoError.nil) :
    equalSlice env opt eq a e p = some GoError.nil := by
  simp only [equalSlice] at h ⊢
  by_cases hlen : e.Len ≠ a.Len
  · rw [if_pos hlen] at h; simp at h
  have hlen' : e.elems.length = a.elems.length := not_not.1 hlen
  have hlen2 : ¬ a.Len ≠ e.Len := fun h' => hlen fun h'' => h' h''.symm
  rw [if_neg hlen] at h
  rw [if_neg hlen2]
  simp only [GoError.andThen_eq_nil] at h ⊢
  obtain ⟨h0, h1, h2⟩ := h
  refine ⟨?_, h2, h1⟩
  by_cases hm : ¬ opt.arrayOrder p = true ∧ ¬ opt.arrayOrder "*" = true
  · rw [if_pos hm] at h0 ⊢
    rw [equalSlice_loop_eq_nil_iff p _ 0 _ hlen'] at h0
    rw [equalSlice_loop_eq_nil_iff p _ 0 _ hlen'.symm]
    intro j y x hy hx
    exact H x (List.mem_iff_getElem?.2 ⟨j, hx⟩) y (List.mem_iff_getElem?.2 ⟨j, hy⟩) _
      (h0 j x y hx hy)
  · rw [if_neg hm]

theorem equalStruct_swap (opt : EqOption) (fs : List StructField) (e a : Value) (p : String)
    (H : ∀ x ∈ e.fieldVals, ∀ y ∈ a.fieldVals, ∀ q,
      eq x y q = some GoError.nil → eq y x q = some GoError.nil)
    (h : equalStruct opt eq fs e a p = some GoError.nil) :
    equalStruct opt eq fs a e p = some GoError.nil := by
  simp only [equalStruct, equalStruct_loop_eq_nil_iff] at h ⊢
  intro i f y x q hf hy hx hex hq
  exact H x (List.mem_iff_getElem?.2 ⟨i, hx⟩) y (List.mem_iff_getElem?.2 ⟨i, hy⟩) q
    (h i f x y q hf hx hy hex hq)

end swap

/-- When no part of the two values has a type that implements `IEqual`, a
comparison that passes also passes with the two sides exchanged. -/
theorem equalAt_swap (env : Env) (opt : EqOption) :
    ∀ (n : Nat) (e a : Value) (p : String), e.depth < n → a.depth < n →
    e.NoIEqual env → a.NoIEqual env → e.KeysDistinct → a.KeysDistinct →
    equalAt env opt e a p = some GoError.nil → equalAt env opt a e p = some GoError.nil := by
  intro n
  induction n with
  | zero => intro e a p he; exact absurd he (Nat.not_lt_zero _)
  | succ n ih =>
    intro e a p he ha hIe hIa hDe hDa h
    by_cases hp : p ∈ opt.ignoredPath
    · exact equalAt_ignored env opt a e p hp
    obtain ⟨hT, hnil⟩ := equalAt_eq_nil_inv env opt e a p hp h
    have hK : a.Kind = e.Kind := (Value.Kind_eq_of_typeOf_eq hT).symm
    by_cases hk : e.Kind = Kind.invalid
    · have hee : e = Value.nil := by
        cases e <;> simp [Value.Kind, Value.typeOf, timeType] at hk ⊢
      have haa : a = Value.nil := by
        rw [hk] at hK
        cases a <;> simp [Value.Kind, Value.typeOf, timeType] at hK ⊢
      rw [hee, haa] at h ⊢
      exact h
    cases hne : e.IsNil with
    | true => exact equalAt_both_nil env opt a e p hT.symm (hnil ▸ hne) hne
    | false =>
      have hna : a.IsNil = false := hnil ▸ hne
      by_cases hptr : (e.Kind = Kind.ptr ∨ e.Kind = Kind.slice ∨ e.Kind = Kind.map)
          ∧ e.Pointer = a.Pointer
      · exact equalAt_same_pointer env opt a e p hT.symm (hK ▸ hptr.1) hna hne hptr.2.symm
      have hIe0 : e.typeOf.bind env.IEqual = none := Value.allParts_self hIe
      have hIa0 : a.typeOf.bind env.IEqual = none := Value.allParts_self hIa
      rw [equalAt_structural env opt e a p hp hT hk hne hna (fun hr hpp => hptr ⟨hr, hpp⟩) hIe0]
        at h
      rw [equalAt_structural env opt a e p hp hT.symm (hK ▸ hk) hna hne
        (fun hr hpp => hptr ⟨hK ▸ hr, hpp.symm⟩) hIa0]
      rw [hK, ← hT]
      have IH : ∀ x y q, x.depth < e.depth → y.depth < a.depth → x.NoIEqual env →
          y.NoIEqual env → x.KeysDistinct → y.KeysDistinct →
          equalAt env opt x y q = some GoError.nil → equalAt env opt y x q = some GoError.nil :=
        fun x y q hx hy => ih x y q (by omega) (by omega)
      by_cases h9 : e.Kind = Kind.ptr
      · rw [if_pos h9] at h ⊢
        exact IH _ _ _ (e.depth_Elem_lt h9 hne) (a.depth_Elem_lt (hK.trans h9) hna)
          (Value.allParts_Elem hIe h9 hne) (Value.allParts_Elem hIa (hK.trans h9) hna)
          (Value.allParts_Elem hDe h9 hne) (Value.allParts_Elem hDa (hK.trans h9) hna) h
      rw [if_neg h9] at h ⊢
      by_cases h10 : e.Kind = Kind.map
      · rw [if_pos h10] at h ⊢
        exact equalMap_swap e a p (Value.allParts_self hDe) (Value.allParts_self hDa)
          (fun k x y hx hy q => IH x y q (e.depth_MapIndex_lt hx) (a.depth_MapIndex_lt hy)
            (Value.allParts_MapIndex hIe hx) (Value.allParts_MapIndex hIa hy)
            (Value.allParts_MapIndex hDe hx) (Value.allParts_MapIndex hDa hy)) h
      rw [if_neg h10] at h ⊢
      by_cases h11 : e.Kind = Kind.slice ∨ e.Kind = Kind.array
      · rw [if_pos h11] at h ⊢
        exact equalSlice_swap env opt e a p
          (fun x hx y hy q => IH x y q (e.depth_elems_lt hx) (a.depth_elems_lt hy)
            (Value.allParts_elems hIe hx) (Value.allParts_elems hIa hy)
            (Value.allParts_elems hDe hx) (Value.allParts_elems hDa hy)) h
      rw [if_neg h11] at h ⊢
      by_cases h12 : e.typeOf = some timeType
      · rw [if_pos h12] at h ⊢
        rw [Option.some.injEq] at h ⊢
        exact (equalTime_comm env _ _ p _).1 h
      rw [if_neg h12] at h ⊢
      by_cases h13 : e.Kind = Kind.struct
      · rw [if_pos h13] at h ⊢
        exact equalStruct_swap opt _ e a p
          (fun x hx y hy q => IH x y q (e.depth_fieldVals_lt hx) (a.depth_fieldVals_lt hy)
            (Value.allParts_fieldVals hIe hx) (Value.allParts_fieldVals hIa hy)
            (Value.allParts_fieldVals hDe hx) (Value.allParts_fieldVals hDa hy)) h
      rw [if_neg h13] at h ⊢
      rw [deepEqual_comm a e]
      by_cases h14 : ¬ deepEqual e a = true
      · rw [if_pos h14] at h; cases h
      · rw [if_neg h14]

/-! ### A field of a struct and its path -/

theorem timeType_ne_of_exported (t : String) (fs : List StructField) (i : Nat) (f : StructField)
    (hf : fs[i]? = some f) (hex : f.exported = true) :
    (⟨Kind.struct, t, fs⟩ : GoType) ≠ timeType := by
  intro h
  have hfs : fs = timeType.fields := congrArg GoType.fields h
  have hmem : f ∈ fs := List.mem_iff_getElem?.2 ⟨i, hf⟩
  rw [hfs] at hmem
  simp only [timeType, List.mem_cons, List.not_mem_nil, or_false] at hmem
  rcases hmem with rfl | rfl | rfl <;> simp at hex

/-- An exported field `f` of a struct type that is not `IEqual`, met by
`equalStruct` with path `q`: the comparison of two structs passes only if
the values of `f` compare equal at `q`; it returns the diagnostic of the
values of `f` at `q`, which starts with `q`, when all fields before pass;
and it passes when `q` is ignored and the other fields hold one value on
both sides. -/
theorem equalAt_struct_field (env : Env) (opt : EqOption) (t : String) (fs : List StructField)
    (xs ys : List Value) (p : String) (i : Nat) (f : StructField) (x y : Value) (q : String)
    (hf : fs[i]? = some f) (hex : f.exported = true)
    (hx : xs[i]? = some x) (hy : ys[i]? = some y)
    (hI : env.IEqual ⟨Kind.struct, t, fs⟩ = none) (hp : p ∉ opt.ignoredPath)
    (hq : equalStruct.ipath opt p f = some q) :
    (equalAt env opt (Value.struct t fs xs) (Value.struct t fs ys) p = some GoError.nil →
      equalAt env opt x y q = some GoError.nil)
    ∧ (∀ m, equalAt env opt x y q = some (GoError.errorf m) →
        (∀ (j : Nat) g u v r, j < i → fs[j]? = some g → xs[j]? = some u → ys[j]? = some v →
          g.exported = true → equalStruct.ipath opt p g = some r →
          equalAt env opt u v r = some GoError.nil) →
        equalAt env opt (Value.struct t fs xs) (Value.struct t fs ys) p
          = some (GoError.errorf m) ∧ ∃ s, m = q ++ s)
    ∧ (q ∈ opt.ignoredPath →
        (∀ (v : Value) (g : Value → Value → Bool),
          ¬ (v.Kind = Kind.ptr ∨ v.Kind = Kind.slice ∨ v.Kind = Kind.map) →
          v.typeOf.bind env.IEqual = some g → g v v = true) →
        (∀ (j : Nat), j ≠ i → xs[j]? = ys[j]?) →
        equalAt env opt (Value.struct t fs xs) (Value.struct t fs ys) p = some GoError.nil) := by
  have hs := equalAt_struct env opt t fs xs ys p hp hI (timeType_ne_of_exported t fs i f hf hex)
  rw [hs]
  refine ⟨fun h => ?_, fun m hm hprev => ?_, fun hqi hrefl hdiff => ?_⟩
  · exact (equalStruct_loop_eq_nil_iff opt p fs xs ys).1 h i f x y q hf hx hy hex hq
  · exact ⟨equalStruct_loop_error opt p fs xs ys i f x y q m hf hx hy hex hq hm hprev,
      equalAt_startsWith env opt x y q m hm⟩
  · refine (equalStruct_loop_eq_nil_iff opt p fs xs ys).2 fun j g u v r hg hu hv _ hr => ?_
    by_cases hj : j = i
    · subst hj
      rw [hf] at hg
      cases hg
      rw [hq] at hr
      cases hr
      exact equalAt_ignored env opt u v _ hqi
    · have huv : u = v := by
        have := hdiff j hj
        rw [hu, hv] at this
        exact Option.some.inj this
      subst huv
      exact equalAt_self env opt hrefl _ u (Nat.lt_succ_self _) _

/-! ## The claims -/

theorem Equal_none_opts (env : Env) (e a : Value) :
    Equal env e a [none] = equalAt env {} e a "" := rfl

theorem Env.plain_IEqual (v : Value) : v.typeOf.bind Env.plain.IEqual = none := by
  cases v.typeOf <;> rfl

/-! ### C1 -/

/-- C1 (amended). Reflexivity: for every value `x` of the model (acyclic,
without floating-point or function parts) and the default configuration,
given as no option, a nil option or the zero option, `Equal(x, x)` returns no
error, provided every `IEqual` implementation of a type that is not a
pointer, slice or map type holds of a value and itself. -/
theorem Equal_self_of_reflexive_IEqual (env : Env) (x : Value)
    (hrefl : ∀ (v : Value) (f : Value → Value → Bool),
      ¬ (v.Kind = Kind.ptr ∨ v.Kind = Kind.slice ∨ v.Kind = Kind.map) →
      v.typeOf.bind env.IEqual = some f → f v v = true) :
    Equal env x x [] = some GoError.nil ∧ Equal env x x [none] = some GoError.nil
      ∧ Equal env x x [some {}] = some GoError.nil :=
  ⟨(Equal_nil_opts env x x).trans (equalAt_self env _ hrefl _ x (Nat.lt_succ_self _) ""),
    (Equal_none_opts env x x).trans (equalAt_self env _ hrefl _ x (Nat.lt_succ_self _) ""),
    (Equal_some_opts env x x {}).trans (equalAt_self env _ hrefl _ x (Nat.lt_succ_self _) "")⟩

/-- C1, witness: a `Foo` holding a slice and a slice of interfaces is `Equal`
to itself. -/
theorem Equal_self_of_reflexive_IEqual_witness :
    Equal Env.plain (vFoo "foo" (vInts 0xc000010000 [1, 3, 2]) (vStrs 0xc000010020 ["1", "2"]))
      (vFoo "foo" (vInts 0xc000010000 [1, 3, 2]) (vStrs 0xc000010020 ["1", "2"])) []
      = some GoError.nil :=
  (Equal_self_of_reflexive_IEqual Env.plain _ fun v f _ h => by
    rw [Env.plain_IEqual] at h; cases h).1

/-- C1, counterexample: a value of type `Never`, whose `Equal` method returns
`false`, is not `Equal` to itself under the default configuration. -/
theorem Equal_self_Never :
    Equal Env.custom (Value.int "xdeep.Never" 0) (Value.int "xdeep.Never" 0) []
      = some (GoError.errorf ": not equal, compared via implement IEqual interface") := by
  decide

/-! ### C2 -/

/-- C2 (amended). Sequence length check: for every two non-nil sequences of
the same type, a type that does not implement `IEqual`, which (if slices) do
not start at the same address and whose lengths `n` and `m` differ, compared
at a path that is not ignored, the comparison fails with
`<path>: different array/slice length, n vs m`, whatever the
order-insensitive setting. -/
theorem equal_seq_length_mismatch (env : Env) (opt : EqOption) (e a : Value) (p : String)
    (hT : e.typeOf = a.typeOf) (hk : e.Kind = Kind.slice ∨ e.Kind = Kind.array)
    (hne : e.IsNil = false) (hna : a.IsNil = false)
    (hI : e.typeOf.bind env.IEqual = none)
    (hptr : e.Kind = Kind.slice → e.Pointer ≠ a.Pointer)
    (hlen : e.Len ≠ a.Len) (hp : p ∉ opt.ignoredPath) :
    equalAt env opt e a p = some (GoError.errorf (p ++ ": different array/slice length, "
      ++ toString e.Len ++ " vs " ++ toString a.Len)) := by
  rw [equalAt_seq env opt e a p hp hT hk hne hna hptr hI]
  simp only [equalSlice, if_pos hlen]

/-- C2, witness: `[]string{"1"}` against `[]string{"1", "2"}`. -/
theorem equal_seq_length_mismatch_witness :
    equalAt Env.plain {} (vStrs 0xc000010000 ["1"]) (vStrs 0xc000010020 ["1", "2"]) ""
      = some (GoError.errorf ": different array/slice length, 1 vs 2") :=
  equal_seq_length_mismatch Env.plain {} (vStrs 0xc000010000 ["1"])
    (vStrs 0xc000010020 ["1", "2"]) "" rfl (Or.inl rfl) rfl rfl rfl (fun _ => by decide)
    (by decide) (by decide)

/-- C2, counterexample: two non-nil slices of type `Tags`, of lengths 1 and 2,
compared at the root: the `Equal` method of `Tags` decides, and no length
mismatch is reported. -/
theorem Equal_Tags_lengths :
    (Value.slice "xdeep.Tags" 0xc000010000 [vStr "a"]).Len = 1
    ∧ (Value.slice "xdeep.Tags" 0xc000010020 [vStr "a", vStr "b"]).Len = 2
    ∧ Equal Env.custom (Value.slice "xdeep.Tags" 0xc000010000 [vStr "a"])
        (Value.slice "xdeep.Tags" 0xc000010020 [vStr "a", vStr "b"]) [] = some GoError.nil := by
  decide

/-- The identity check of `equal` compares the addresses of the first
elements and comes before the length check: `s[:1]` against
`s = []string{"1", "2"}` returns no error. -/
theorem Equal_shared_storage :
    Equal Env.plain (vStrs 0xc000010000 ["1"]) (vStrs 0xc000010000 ["1", "2"]) []
      = some GoError.nil := by
  decide

/-! ### C3 -/

/-- C3 (amended). Order-sensitive mode: for every two non-nil sequences of
the same type, a type that does not implement `IEqual`, which (if slices) do
not start at the same address, compared at a path `p` that is not ignored and
not marked order-insensitive (and with no wildcard `*`): if the comparison
succeeds, the lengths are equal and for every index `i` comparing
`expect[i]` with `actual[i]` at path `p[i]` succeeds; if the lengths are
equal and for every `i` both `expect[i]` with `actual[i]` and `actual[i]`
with `expect[i]` compare equal at `p[i]`, the comparison succeeds; and when
the lengths are equal and some pair fails, the returned error is the one of
the smallest failing index. -/
theorem equal_seq_ordered (env : Env) (opt : EqOption) (e a : Value) (p : String)
    (hT : e.typeOf = a.typeOf) (hk : e.Kind = Kind.slice ∨ e.Kind = Kind.array)
    (hne : e.IsNil = false) (hna : a.IsNil = false)
    (hI : e.typeOf.bind env.IEqual = none)
    (hptr : e.Kind = Kind.slice → e.Pointer ≠ a.Pointer)
    (hp : p ∉ opt.ignoredPath)
    (ho : opt.arrayOrder p = false) (hw : opt.arrayOrder "*" = false) :
    (equalAt env opt e a p = some GoError.nil →
      e.Len = a.Len ∧ ∀ (i : Nat) x y, e.elems[i]? = some x → a.elems[i]? = some y →
        equalAt env opt x y (joinPath [p, "[", toString i, "]"]) = some GoError.nil)
    ∧ (e.Len = a.Len →
      (∀ (i : Nat) x y, e.elems[i]? = some x → a.elems[i]? = some y →
        equalAt env opt x y (joinPath [p, "[", toString i, "]"]) = some GoError.nil
        ∧ equalAt env opt y x (joinPath [p, "[", toString i, "]"]) = some GoError.nil) →
      equalAt env opt e a p = some GoError.nil)
    ∧ (e.Len = a.Len → ∀ (i : Nat) x y m, e.elems[i]? = some x → a.elems[i]? = some y →
      equalAt env opt x y (joinPath [p, "[", toString i, "]"]) = some (GoError.errorf m) →
      (∀ (j : Nat), j < i → ∀ x' y', e.elems[j]? = some x' → a.elems[j]? = some y' →
        equalAt env opt x' y' (joinPath [p, "[", toString j, "]"]) = some GoError.nil) →
      equalAt env opt e a p = some (GoError.errorf m)) := by
  rw [equalAt_seq env opt e a p hp hT hk hne hna hptr hI]
  have hmode : (¬ opt.arrayOrder p = true ∧ ¬ opt.arrayOrder "*" = true) := by simp [ho, hw]
  refine ⟨fun h => ?_, fun hlen h => ?_, fun hlen i x y m hx hy hm hlt => ?_⟩
  · by_cases hlen : e.Len = a.Len
    · refine ⟨hlen, ?_⟩
      simp only [equalSlice, ne_eq, hlen, not_true_eq_false, if_false, if_pos hmode,
        GoError.andThen_eq_nil] at h
      have := (equalSlice_loop_eq_nil_iff p e.elems 0 a.elems hlen).1 h.1
      simpa using this
    · simp [equalSlice, hlen] at h
  · simp only [equalSlice, ne_eq, hlen, not_true_eq_false, if_false, if_pos hmode,
      GoError.andThen_eq_nil, equalSlice.compare]
    refine ⟨?_, ?_, ?_⟩
    · refine (equalSlice_loop_eq_nil_iff p e.elems 0 a.elems hlen).2 fun j x y hx hy => ?_
      simpa using (h j x y hx hy).1
    · refine (equalSlice.scan_eq_nil_iff env p a e.elems 0
        (fun x _ y _ q => equalAt_isSome env opt x y q)).2 fun j x hx => ?_
      obtain ⟨y, hy⟩ := getElem?_of_length_eq hlen hx
      exact ⟨y, List.mem_iff_getElem?.2 ⟨_, hy⟩, by simpa using (h j x y hx hy).1⟩
    · refine (equalSlice.scan_eq_nil_iff env p e a.elems 0
        (fun x _ y _ q => equalAt_isSome env opt x y q)).2 fun j y hy => ?_
      obtain ⟨x, hx⟩ := getElem?_of_length_eq hlen.symm hy
      exact ⟨x, List.mem_iff_getElem?.2 ⟨_, hx⟩, by simpa using (h j x y hx hy).2⟩
  · simp only [equalSlice, ne_eq, hlen, not_true_eq_false, if_false, if_pos hmode]
    rw [equalSlice_loop_error p e.elems 0 a.elems i x y m hx hy (by simpa using hm)
      (fun k hk x' y' hx' hy' => by simpa using hlt k hk x' y' hx' hy')]
    rfl

/-- C3, witness: `[]string{"2", "1"}` against `[]string{"1", "2"}` fails with
the error of index 0. -/
theorem equal_seq_ordered_witness :
    equalAt Env.plain {} (vStrs 0xc000010000 ["2", "1"]) (vStrs 0xc000010020 ["1", "2"]) ""
      = some (GoError.errorf "[0]: different value, 2 vs 1") :=
  (equal_seq_ordered Env.plain {} (vStrs 0xc000010000 ["2", "1"])
    (vStrs 0xc000010020 ["1", "2"]) "" rfl (Or.inl rfl) rfl rfl rfl (fun _ => by decide)
    (by decide) (by decide) (by decide)).2.2 (by decide) 0 (vStr "2") (vStr "1")
    "[0]: different value, 2 vs 1" rfl rfl (by decide)
    (fun j hj => absurd hj (Nat.not_lt_zero j))

/-- C3, counterexample: a nil `[]int` against an empty non-nil `[]int`, with
the default configuration: the lengths are equal and there is no index, yet
`Equal` fails. -/
theorem Equal_nilSlice_empty :
    (Value.nilSlice "[]int").Len = (vInts 0xc000010000 []).Len
    ∧ Equal Env.plain (Value.nilSlice "[]int") (vInts 0xc000010000 []) []
        = some (GoError.errorf ": different IsNil, true vs false") := by
  decide

/-- The order-sensitive loop of `equalSlice` does not return when it has
passed, so the two containment scans run as well: `[]AtMost{1}` against
`[]AtMost{2}` passes at index 0 and fails in the second scan. -/
theorem Equal_AtMost_ordered :
    equalAt Env.custom {} (Value.int "xdeep.AtMost" 1) (Value.int "xdeep.AtMost" 2) "[0]"
      = some GoError.nil
    ∧ Equal Env.custom (Value.slice "[]xdeep.AtMost" 0xc000010000 [Value.int "xdeep.AtMost" 1])
        (Value.slice "[]xdeep.AtMost" 0xc000010020 [Value.int "xdeep.AtMost" 2]) []
        = some (GoError.errorf "[0]: 2 not found in [1]") := by
  decide

/-! ### C4 -/

/-- C4 (amended). Map keys and ignored paths: for every two string-keyed maps
of the same type, a type that does not implement `IEqual`, both nil or both
non-nil, with the same number of keys, the comparison at path `p` succeeds
whenever every key of `expect` is present in `actual` and, for every key `k`
whose path `p.k` is not ignored, the two values compare equal at `p.k`. -/
theorem equal_map_present (env : Env) (opt : EqOption) (e a : Value) (p : String)
    (hT : e.typeOf = a.typeOf) (hk : e.Kind = Kind.map) (hnil : e.IsNil = a.IsNil)
    (hI : e.typeOf.bind env.IEqual = none)
    (hlen : e.MapKeys.length = a.MapKeys.length)
    (hpres : ∀ k ∈ e.MapKeys, (a.MapIndex k).isSome)
    (heq : ∀ k x y, e.MapIndex k = some x → a.MapIndex k = some y →
      joinPath [p, ".", k] ∉ opt.ignoredPath →
      equalAt env opt x y (joinPath [p, ".", k]) = some GoError.nil) :
    equalAt env opt e a p = some GoError.nil := by
  by_cases hp : p ∈ opt.ignoredPath
  · exact equalAt_ignored env opt e a p hp
  cases hne : e.IsNil with
  | true => exact equalAt_both_nil env opt e a p hT hne (hnil ▸ hne)
  | false =>
    have hna : a.IsNil = false := hnil ▸ hne
    by_cases hptr : e.Pointer = a.Pointer
    · exact equalAt_same_pointer env opt e a p hT (Or.inr (Or.inr hk)) hne hna hptr
    rw [equalAt_map env opt e a p hp hT hk hne hna hptr hI]
    simp only [equalMap, ne_eq, hlen, not_true_eq_false, if_false]
    refine (equalMap_loop_eq_nil_iff e a p _).2 fun k hkm => ?_
    obtain ⟨x, hx⟩ := lookup_isSome_of_mem_keys hkm
    obtain ⟨y, hy⟩ := Option.isSome_iff_exists.1 (hpres k hkm)
    refine ⟨x, y, hx, hy, ?_⟩
    by_cases hq : joinPath [p, ".", k] ∈ opt.ignoredPath
    · exact equalAt_ignored env opt x y _ hq
    · exact heq k x y hx hy hq

/-- C4, witness: the maps of the test, which differ at the ignored key
`string` only. -/
theorem equal_map_present_witness :
    equalAt Env.plain (EqOption.resolve { IgnoreFields := ["string"] })
      (Value.map "map[string]interface {}" 0xc000010000 [("int", vInt 1), ("string", vStr "2")])
      (Value.map "map[string]interface {}" 0xc000010020 [("int", vInt 1), ("string", vStr "!2")])
      "" = some GoError.nil :=
  equal_map_present Env.plain _ _ _ "" rfl rfl rfl rfl (by decide) (by decide)
    (fun k x y hx hy hq => by
      have hm := mem_of_lookup hx
      simp only [Value.entries, List.mem_cons, Prod.mk.injEq, List.mem_singleton,
        List.not_mem_nil, or_false] at hm
      rcases hm with ⟨rfl, rfl⟩ | ⟨rfl, rfl⟩
      · have hy' : y = vInt 1 := by
          have : (Value.map "map[string]interface {}" 0xc000010020
            [("int", vInt 1), ("string", vStr "!2")]).MapIndex "int" = some (vInt 1) := rfl
          rw [this] at hy
          exact (Option.some.inj hy).symm
        subst hy'
        decide
      · exact absurd (by decide) hq)

/-- C4, counterexample: `{a: 1, b: 2}` against `{a: 1, c: 3}` with
`IgnoreFields = ["b"]`: both maps have two keys and the only key of `expect`
that is not ignored, `a`, is present in `actual` with an equal value, yet
`Equal` fails at the ignored key `b`. -/
theorem Equal_map_ignored_key_absent :
    equalAt Env.plain (EqOption.resolve { IgnoreFields := ["b"] }) (vInt 1) (vInt 1) "a"
      = some GoError.nil
    ∧ Equal Env.plain (vIntMap 0xc000010000 [("a", 1), ("b", 2)])
        (vIntMap 0xc000010020 [("a", 1), ("c", 3)]) [some { IgnoreFields := ["b"] }]
        = some (GoError.errorf "b: different map key isValid, true vs false") := by
  decide

/-! ### C5 -/

/-- C5 (amended). Determinism up to the key that is reported: `Equal` is a
function of `expect`, `actual`, the configuration and the order in which the
keys of the maps are iterated; for every input and every two such orders,
the `IEqual` implementations not depending on the order, `Equal` returns no
error in both runs or an error in both runs. -/
theorem Equal_reorder (env : Env) (e e1 a a1 : Value) (opts : List (Option EqOption))
    (henv : ∀ (x x1 y y1 : Value) (f : Value → Value → Bool),
      x.typeOf.bind env.IEqual = some f → Reorder x x1 → Reorder y y1 → f x y = f x1 y1)
    (hE : Reorder e e1) (hA : Reorder a a1) :
    (Equal env e a opts = some GoError.nil ↔ Equal env e1 a1 opts = some GoError.nil)
    ∧ ((∃ m, Equal env e a opts = some (GoError.errorf m)) ↔
        ∃ m, Equal env e1 a1 opts = some (GoError.errorf m)) := by
  simp only [Equal]
  by_cases hl : opts.length > 1
  · simp [hl]
  simp only [if_neg hl]
  have key := fun opt => equalAt_reorder env opt henv (max e.depth a.depth + 1) e e1 a a1 ""
    (by omega) (by omega) hE hA
  refine ⟨key _, ?_⟩
  constructor
  · rintro ⟨m, hm⟩
    rcases equalAt_cases env (match opts with | [some o] => o | _ => {}).resolve e1 a1 ""
      with h | h
    · rw [(key _).2 h] at hm
      cases hm
    · exact h
  · rintro ⟨m, hm⟩
    rcases equalAt_cases env (match opts with | [some o] => o | _ => {}).resolve e a ""
      with h | h
    · rw [(key _).1 h] at hm
      cases hm
    · exact h

/-- C5, witness: a map with equal values, its keys iterated in two orders. -/
theorem Equal_reorder_witness :
    Equal Env.plain (vIntMap 0xc000010000 [("a", 1), ("b", 2)])
        (vIntMap 0xc000010020 [("a", 1), ("b", 2)]) [] = some GoError.nil
    ↔ Equal Env.plain (vIntMap 0xc000010000 [("b", 2), ("a", 1)])
        (vIntMap 0xc000010020 [("a", 1), ("b", 2)]) [] = some GoError.nil :=
  (Equal_reorder Env.plain _ _ _ _ []
    (fun x _ _ _ f h => by rw [Env.plain_IEqual] at h; cases h)
    (Reorder.map "map[string]int" 0xc000010000 (by decide)
      (ReorderEntries.cons "a" (Reorder.int "int" 1)
        (ReorderEntries.cons "b" (Reorder.int "int" 2) ReorderEntries.nil))
      (List.Perm.swap _ _ _))
    (Reorder.map "map[string]int" 0xc000010020 (by decide)
      (ReorderEntries.cons "a" (Reorder.int "int" 1)
        (ReorderEntries.cons "b" (Reorder.int "int" 2) ReorderEntries.nil))
      (List.Perm.refl _))).1

/-- C5, counterexample: the map `{a: 1, b: 2}` against `{a: 3, b: 4}`: with
the keys iterated as `a, b` the diagnostic names `a`, with the keys iterated
as `b, a` it names `b`. -/
theorem Equal_map_order_diagnostic :
    Reorder (vIntMap 0xc000010000 [("a", 1), ("b", 2)])
      (vIntMap 0xc000010000 [("b", 2), ("a", 1)])
    ∧ Equal Env.plain (vIntMap 0xc000010000 [("a", 1), ("b", 2)])
        (vIntMap 0xc000010020 [("a", 3), ("b", 4)]) []
        = some (GoError.errorf "a: different value, 1 vs 3")
    ∧ Equal Env.plain (vIntMap 0xc000010000 [("b", 2), ("a", 1)])
        (vIntMap 0xc000010020 [("a", 3), ("b", 4)]) []
        = some (GoError.errorf "b: different value, 2 vs 4") :=
  ⟨Reorder.map "map[string]int" 0xc000010000 (by decide)
      (ReorderEntries.cons "a" (Reorder.int "int" 1)
        (ReorderEntries.cons "b" (Reorder.int "int" 2) ReorderEntries.nil))
      (List.Perm.swap _ _ _),
    by decide, by decide⟩

/-! ### C6 -/

/-- C6 (amended). Ignore-by-path elision comes first: for every path `p`
listed in `IgnoreFields` and every two values, the comparison at `p` succeeds
without looking at the values, even when their types or nilness differ; in
particular two structs of the same type that differ only in field `Name`
compare equal under `IgnoreFields = ["Name"]`, provided the struct type does
not implement `IEqual` and every `IEqual` implementation of a type that is not
a pointer, slice or map type holds of a value and itself (the values of the
model have no floating-point or function parts); and
`Equal(e, a, IgnoreFields = [""])` succeeds for all `e` and `a`. -/
theorem equal_ignored_path (env : Env) :
    (∀ (o : EqOption) (e a : Value) (p : String), p ∈ o.IgnoreFields →
      equalAt env o.resolve e a p = some GoError.nil)
    ∧ (∀ (t : String) (fs : List StructField) (xs ys : List Value),
      env.IEqual ⟨Kind.struct, t, fs⟩ = none →
      (∀ (v : Value) (f : Value → Value → Bool),
        ¬ (v.Kind = Kind.ptr ∨ v.Kind = Kind.slice ∨ v.Kind = Kind.map) →
        v.typeOf.bind env.IEqual = some f → f v v = true) →
      (∀ (i : Nat) f, fs[i]? = some f → f.Name ≠ "Name" → xs[i]? = ys[i]?) →
      Equal env (Value.struct t fs xs) (Value.struct t fs ys) [some { IgnoreFields := ["Name"] }]
        = some GoError.nil)
    ∧ (∀ (e a : Value), Equal env e a [some { IgnoreFields := [""] }] = some GoError.nil) :=
  ⟨fun _ e a p hp => equalAt_ignored env _ e a p hp,
    fun t fs xs ys hI hrefl hdiff => equal_struct_ignore_Name env t fs xs ys hI hrefl hdiff,
    fun e a => Equal_ignore_root env e a _ (List.mem_singleton.2 rfl)⟩

/-- C6, witness: `Foo{}` against `Foo{Name: "foo"}` with
`IgnoreFields = ["Name"]`. -/
theorem equal_ignored_path_witness :
    Equal Env.plain (vFoo "" (Value.nilSlice "[]int") (Value.nilSlice "[]interface {}"))
      (vFoo "foo" (Value.nilSlice "[]int") (Value.nilSlice "[]interface {}"))
      [some { IgnoreFields := ["Name"] }] = some GoError.nil :=
  (equal_ignored_path Env.plain).2.1 "xdeep.Foo" fooFields _ _ rfl
    (fun v f _ h => by rw [Env.plain_IEqual] at h; cases h)
    (fun i f hf hn => by
      match i with
      | 0 =>
        simp only [fooFields, List.getElem?_cons_zero, Option.some.injEq] at hf
        subst hf
        exact absurd rfl hn
      | 1 => rfl
      | 2 => rfl
      | k + 3 => rfl)

/-- C6, counterexample: two values of the struct type `Named`, whose `Equal`
method compares the names, differ only in field `Name` and are not equal
under `IgnoreFields = ["Name"]`. -/
theorem Equal_Named_ignore_Name :
    Equal Env.custom (Value.struct "xdeep.Named" [⟨"Name", [], true⟩] [vStr "a"])
      (Value.struct "xdeep.Named" [⟨"Name", [], true⟩] [vStr "b"])
      [some { IgnoreFields := ["Name"] }]
      = some (GoError.errorf ": not equal, compared via implement IEqual interface") := by
  decide

/-! ### C7 -/

/-- C7. Type sensitivity: for every two values whose runtime types differ
(the untyped nil has the type `<nil>`), compared at a path `p` that is not
ignored, the comparison fails with
`<p>: different Type, <expect type> vs <actual type>`, naming both types in
that order. -/
theorem equal_type_mismatch (env : Env) (opt : EqOption) (e a : Value) (p : String)
    (hT : e.typeOf ≠ a.typeOf) (hp : p ∉ opt.ignoredPath) :
    equalAt env opt e a p = some (GoError.errorf (p ++ ": different Type, " ++ fmtType e.typeOf
      ++ " vs " ++ fmtType a.typeOf)) := by
  rw [equalAt_eq]
  simp only [equal.step, if_neg hp]
  rw [if_pos hT]

/-- C7, witness: the values `1` and `"1"` under key `foo` give
`foo: different Type, int vs string`. -/
theorem equal_type_mismatch_witness :
    equalAt Env.plain {} (vInt 1) (vStr "1") "foo"
      = some (GoError.errorf "foo: different Type, int vs string") :=
  equal_type_mismatch Env.plain {} (vInt 1) (vStr "1") "foo" (by decide) (by decide)

/-! ### C8 -/

/-- C8. Nilness asymmetry: for every two values of the same pointer, slice or
map type at a path `p` that is not ignored, if both are nil the comparison
succeeds, and if exactly one is nil it fails with
`<p>: different IsNil, false vs true` when only `actual` is nil and
`<p>: different IsNil, true vs false` when only `expect` is nil; so a nil
slice or map is never equal to a non-nil one, empty or not. -/
theorem equal_nilness (env : Env) (opt : EqOption) (e a : Value) (p : String)
    (hT : e.typeOf = a.typeOf)
    (hk : e.Kind = Kind.ptr ∨ e.Kind = Kind.slice ∨ e.Kind = Kind.map)
    (hp : p ∉ opt.ignoredPath) :
    (e.IsNil = true → a.IsNil = true → equalAt env opt e a p = some GoError.nil)
    ∧ (e.IsNil = false → a.IsNil = true → equalAt env opt e a p
        = some (GoError.errorf (p ++ ": different IsNil, false vs true")))
    ∧ (e.IsNil = true → a.IsNil = false → equalAt env opt e a p
        = some (GoError.errorf (p ++ ": different IsNil, true vs false")))
    ∧ (e.IsNil ≠ a.IsNil → equalAt env opt e a p ≠ some GoError.nil) := by
  have hK : a.Kind = e.Kind := (Value.Kind_eq_of_typeOf_eq hT).symm
  have hkk : e.Kind ≠ Kind.invalid := by rcases hk with h | h | h <;> simp [h]
  have hie : e.isNilInterface = false := Value.isNilInterface_of_Kind hkk
  have hia : a.isNilInterface = false := Value.isNilInterface_of_Kind (hK ▸ hkk)
  have key : equalAt env opt e a p =
      if e.IsNil = true ∧ a.IsNil = true then some GoError.nil
      else if e.IsNil = true ∧ ¬ a.IsNil = true then
        some (GoError.errorf (p ++ ": different IsNil, " ++ toString e.IsNil ++ " vs "
          ++ toString a.IsNil))
      else if ¬ e.IsNil = true ∧ a.IsNil = true then
        some (GoError.errorf (p ++ ": different IsNil, " ++ toString e.IsNil ++ " vs "
          ++ toString a.IsNil))
      else equalAt env opt e a p := by
    by_cases h5 : e.IsNil = true ∧ a.IsNil = true
    · rw [if_pos h5, equalAt_eq]
      simp only [equal.step, if_neg hp]
      rw [if_neg (not_not.2 hT), if_neg (by simp [hie]), if_neg (by simp [hie, hia]),
        if_pos ⟨hk, h5⟩]
    rw [if_neg h5]
    by_cases h6 : e.IsNil = true ∧ ¬ a.IsNil = true
    · rw [if_pos h6, equalAt_eq]
      simp only [equal.step, if_neg hp]
      rw [if_neg (not_not.2 hT), if_neg (by simp [hie]), if_neg (by simp [hie, hia]),
        if_neg (fun h => h5 h.2), if_pos ⟨hk, h6⟩]
    rw [if_neg h6]
    by_cases h7 : ¬ e.IsNil = true ∧ a.IsNil = true
    · rw [if_pos h7, equalAt_eq]
      simp only [equal.step, if_neg hp]
      rw [if_neg (not_not.2 hT), if_neg (by simp [hie]), if_neg (by simp [hie, hia]),
        if_neg (fun h => h5 h.2), if_neg (fun h => h6 h.2), if_pos ⟨hk, h7⟩]
    rw [if_neg h7]
  refine ⟨fun h1 h2 => ?_, fun h1 h2 => ?_, fun h1 h2 => ?_, fun h => ?_⟩
  · rw [key, if_pos ⟨h1, h2⟩]
  · rw [key]; simp only [h1, h2]; simp only [String.append_assoc]; rfl
  · rw [key]; simp only [h1, h2]; simp only [String.append_assoc]; rfl
  · cases h1 : e.IsNil <;> cases h2 : a.IsNil
    · simp [h1, h2] at h
    · rw [key]; simp [h1, h2]
    · rw [key]; simp [h1, h2]
    · simp [h1, h2] at h

/-- C8, witness: `&Foo{}` against the nil `*Foo`. -/
theorem equal_nilness_witness :
    equalAt Env.plain {}
      (Value.ptr "*xdeep.Foo" 0xc000010000
        (vFoo "" (Value.nilSlice "[]int") (Value.nilSlice "[]interface {}")))
      (Value.nilPtr "*xdeep.Foo") "" = some (GoError.errorf ": different IsNil, false vs true") :=
  (equal_nilness Env.plain {}
    (Value.ptr "*xdeep.Foo" 0xc000010000
      (vFoo "" (Value.nilSlice "[]int") (Value.nilSlice "[]interface {}")))
    (Value.nilPtr "*xdeep.Foo") "" rfl (Or.inl rfl) (by decide)).2.1 rfl rfl

/-! ### C9 -/

/-- C9 (amended). Order-insensitivity: for every sequence `s` of integers or
strings and every permutation `s'` of `s` (of the same type and nilness),
where neither the sequence type nor the type of an element implements
`IEqual`, the comparison of `s` with `s'` at path `p` (`""` at the root)
succeeds when `p` is marked true in `IgnoreArrayOrder` or the wildcard `*` is
marked true; without either mark, `[1, 2]` against `[2, 1]` fails with a value
mismatch at index 0. -/
theorem equal_seq_perm (env : Env) (opt : EqOption) (e a : Value) (p : String)
    (hT : e.typeOf = a.typeOf) (hk : e.Kind = Kind.slice ∨ e.Kind = Kind.array)
    (hnil : e.IsNil = a.IsNil)
    (hI : e.typeOf.bind env.IEqual = none)
    (hs : ∀ x ∈ e.elems, (x.Kind = Kind.int ∨ x.Kind = Kind.string)
      ∧ x.typeOf.bind env.IEqual = none)
    (hperm : e.elems.Perm a.elems)
    (hmark : opt.arrayOrder p = true ∨ opt.arrayOrder "*" = true) :
    equalAt env opt e a p = some GoError.nil
    ∧ Equal Env.plain (vInts 0xc000010000 [1, 2]) (vInts 0xc000010020 [2, 1]) []
        = some (GoError.errorf "[0]: different value, 1 vs 2") :=
  ⟨equalAt_seq_perm env opt e a p hT hk hnil hI hs hperm hmark, by decide⟩

/-- C9, witness: `[1, 2]` against `[2, 1]` with the root path marked. -/
theorem equal_seq_perm_witness :
    equalAt Env.plain { IgnoreArrayOrder := [("", true)] } (vInts 0xc000010000 [1, 2])
      (vInts 0xc000010020 [2, 1]) "" = some GoError.nil :=
  (equal_seq_perm Env.plain { IgnoreArrayOrder := [("", true)] } (vInts 0xc000010000 [1, 2])
    (vInts 0xc000010020 [2, 1]) "" rfl (Or.inl rfl) rfl rfl
    (fun x hx => by
      simp only [vInts, Value.elems, List.map_cons, List.map_nil, List.mem_cons,
        List.not_mem_nil, or_false] at hx
      rcases hx with rfl | rfl <;> exact ⟨Or.inl rfl, rfl⟩)
    (List.Perm.swap _ _ _) (Or.inl (by decide))).1

/-- C9, counterexample: two slices of type `Ordered`, whose `Equal` method
compares element by element, are permutations of each other and are not
equal although the root path is marked order-insensitive. -/
theorem Equal_Ordered_perm :
    Equal Env.custom (Value.slice "xdeep.Ordered" 0xc000010000 [vInt 1, vInt 2])
      (Value.slice "xdeep.Ordered" 0xc000010020 [vInt 2, vInt 1])
      [some { IgnoreArrayOrder := [("", true)] }]
      = some (GoError.errorf ": not equal, compared via implement IEqual interface") := by
  decide

/-! ### C10 -/

/-- C10 (amended). Containment-not-found: in order-insensitive mode, for
every two non-nil sequences of equal length and of the same type, a type that
does not implement `IEqual`, which (if slices) do not start at the same
address, at a path `p` that is not ignored: if `i` is the smallest index of
`expect` whose element has no element of `actual` that compares equal to it
at `p[i]`, the comparison fails with
`<p>[i]: <expect[i]> not found in <actual>`; if every element of `expect` is
matched and `i` is the smallest index of `actual` whose element has no
element of `expect` that compares equal to it at `p[i]`, it fails with
`<p>[i]: <actual[i]> not found in <expect>`. The element and the sequence are
printed as `%v` prints them (`fmtV`), with the `Format`, `Error` or `String`
method of a type that has one. -/
theorem equal_seq_not_found (env : Env) (opt : EqOption) (e a : Value) (p : String)
    (hT : e.typeOf = a.typeOf) (hk : e.Kind = Kind.slice ∨ e.Kind = Kind.array)
    (hne : e.IsNil = false) (hna : a.IsNil = false)
    (hI : e.typeOf.bind env.IEqual = none)
    (hptr : e.Kind = Kind.slice → e.Pointer ≠ a.Pointer)
    (hp : p ∉ opt.ignoredPath) (hlen : e.Len = a.Len)
    (hmark : opt.arrayOrder p = true ∨ opt.arrayOrder "*" = true) :
    (∀ (i : Nat) x, e.elems[i]? = some x →
      (∀ y ∈ a.elems, equalAt env opt x y (joinPath [p, "[", toString i, "]"]) ≠ some GoError.nil) →
      (∀ (j : Nat), j < i → ∀ x', e.elems[j]? = some x' →
        ∃ y ∈ a.elems, equalAt env opt x' y (joinPath [p, "[", toString j, "]"])
          = some GoError.nil) →
      equalAt env opt e a p = some (GoError.errorf (p ++ "[" ++ toString i ++ "]: "
        ++ fmtV env x ++ " not found in " ++ fmtV env a)))
    ∧ ((∀ (j : Nat) x', e.elems[j]? = some x' →
        ∃ y ∈ a.elems, equalAt env opt x' y (joinPath [p, "[", toString j, "]"])
          = some GoError.nil) →
      ∀ (i : Nat) y, a.elems[i]? = some y →
      (∀ x ∈ e.elems, equalAt env opt y x (joinPath [p, "[", toString i, "]"]) ≠ some GoError.nil) →
      (∀ (j : Nat), j < i → ∀ y', a.elems[j]? = some y' →
        ∃ x ∈ e.elems, equalAt env opt y' x (joinPath [p, "[", toString j, "]"])
          = some GoError.nil) →
      equalAt env opt e a p = some (GoError.errorf (p ++ "[" ++ toString i ++ "]: "
        ++ fmtV env y ++ " not found in " ++ fmtV env e))) := by
  rw [equalAt_seq env opt e a p hp hT hk hne hna hptr hI]
  have hmode : ¬ (¬ opt.arrayOrder p = true ∧ ¬ opt.arrayOrder "*" = true) := by
    rcases hmark with h | h <;> simp [h]
  simp only [equalSlice, ne_eq, hlen, not_true_eq_false, if_false, if_neg hmode,
    GoError.andThen_nil, equalSlice.compare]
  refine ⟨fun i x hx hn hlt => ?_, fun hall i y hy hn hlt => ?_⟩
  · have := @equalSlice.scan_error (equalAt env opt) env p a e.elems 0 i x
      (fun x _ y _ q => equalAt_isSome env opt x y q) hx (by simpa using hn)
      (fun k hk x' hx' => by simpa using hlt k hk x' hx')
    rw [this, GoError.andThen_errorf]
    simp
  · rw [(equalSlice.scan_eq_nil_iff env p a e.elems 0
      (fun x _ y _ q => equalAt_isSome env opt x y q)).2
      (fun j x hx => by simpa using hall j x hx), GoError.andThen_nil]
    have := @equalSlice.scan_error (equalAt env opt) env p e a.elems 0 i y
      (fun x _ y _ q => equalAt_isSome env opt x y q) hy (by simpa using hn)
      (fun k hk x' hx' => by simpa using hlt k hk x' hx')
    rw [this]
    simp

/-- C10, witness: `["1", "2"]` against `["1", "1"]` and `["1", "1"]` against
`["1", "2"]`, with the root path marked, both give
`[1]: 2 not found in [1 1]`; `[]time.Duration{1}` against
`[]time.Duration{2}` gives `[0]: 1ns not found in [2ns]`. -/
theorem equal_seq_not_found_witness :
    equalAt Env.plain { IgnoreArrayOrder := [("", true)] } (vStrs 0xc000010000 ["1", "2"])
      (vStrs 0xc000010020 ["1", "1"]) "" = some (GoError.errorf "[1]: 2 not found in [1 1]")
    ∧ equalAt Env.plain { IgnoreArrayOrder := [("", true)] } (vStrs 0xc000010000 ["1", "1"])
      (vStrs 0xc000010020 ["1", "2"]) "" = some (GoError.errorf "[1]: 2 not found in [1 1]")
    ∧ equalAt Env.plain { IgnoreArrayOrder := [("", true)] }
      (Value.slice "[]time.Duration" 0xc000010000 [Value.int "time.Duration" 1])
      (Value.slice "[]time.Duration" 0xc000010008 [Value.int "time.Duration" 2]) ""
      = some (GoError.errorf "[0]: 1ns not found in [2ns]") :=
  ⟨(equal_seq_not_found Env.plain { IgnoreArrayOrder := [("", true)] }
    (vStrs 0xc000010000 ["1", "2"]) (vStrs 0xc000010020 ["1", "1"]) "" rfl (Or.inl rfl) rfl rfl
    rfl (fun _ => by decide) (by decide) (by decide) (Or.inl (by decide))).1 1 (vStr "2")
    rfl (by decide)
    (fun j hj x' hx' => by
      have hj0 : j = 0 := by omega
      subst hj0
      exact ⟨vStr "1", List.mem_cons_self _ _, by
        simp only [vStrs, Value.elems, List.map_cons, List.getElem?_cons_zero,
          Option.some.injEq] at hx'
        subst hx'
        decide⟩),
  (equal_seq_not_found Env.plain { IgnoreArrayOrder := [("", true)] }
    (vStrs 0xc000010000 ["1", "1"]) (vStrs 0xc000010020 ["1", "2"]) "" rfl (Or.inl rfl) rfl rfl
    rfl (fun _ => by decide) (by decide) (by decide) (Or.inl (by decide))).2
    (fun j x' hx' => by
      refine ⟨vStr "1", List.mem_cons_self _ _, ?_⟩
      match j with
      | 0 =>
        simp only [vStrs, Value.elems, List.map_cons, List.getElem?_cons_zero,
          Option.some.injEq] at hx'
        subst hx'
        decide
      | 1 =>
        simp only [vStrs, Value.elems, List.map_cons, List.getElem?_cons_succ,
          List.getElem?_cons_zero, Option.some.injEq] at hx'
        subst hx'
        decide
      | k + 2 => simp [vStrs, Value.elems] at hx')
    1 (vStr "2") rfl (by decide)
    (fun j hj y' hy' => by
      have hj0 : j = 0 := by omega
      subst hj0
      exact ⟨vStr "1", List.mem_cons_self _ _, by
        simp only [vStrs, Value.elems, List.map_cons, List.getElem?_cons_zero,
          Option.some.injEq] at hy'
        subst hy'
        decide⟩),
  (equal_seq_not_found Env.plain { IgnoreArrayOrder := [("", true)] }
    (Value.slice "[]time.Duration" 0xc000010000 [Value.int "time.Duration" 1])
    (Value.slice "[]time.Duration" 0xc000010008 [Value.int "time.Duration" 2]) "" rfl (Or.inl rfl)
    rfl rfl rfl (fun _ => by decide) (by decide) (by decide) (Or.inl (by decide))).1 0
    (Value.int "time.Duration" 1) rfl (by decide)
    (fun j hj => absurd hj (Nat.not_lt_zero _))⟩

/-- The diagnostics print values as `%v` does, through the `String` method of
a type that has one: without the order-insensitive mode `[]time.Duration{1}`
against `[]time.Duration{2}` gives `[0]: different value, 1ns vs 2ns`, and in
that mode the elements of two `[]*time.Time` are printed with
`time.Time.String`. -/
theorem Equal_Duration_different :
    Equal Env.plain (Value.slice "[]time.Duration" 0xc000010000 [Value.int "time.Duration" 1])
      (Value.slice "[]time.Duration" 0xc000010008 [Value.int "time.Duration" 2]) []
      = some (GoError.errorf "[0]: different value, 1ns vs 2ns")
    ∧ Equal Env.plain
      (Value.slice "[]*time.Time" 0xc000010000 [Value.ptr "*time.Time" 0xc000010010 (vUnix 0 5)])
      (Value.slice "[]*time.Time" 0xc000010008 [Value.ptr "*time.Time" 0xc000010040 (vUnix 0 7)])
      [some { IgnoreArrayOrder := [("", true)] }]
      = some (GoError.errorf ("[0]: " ++ Env.plain.timeString (vUnix 0 5).asTime
          ++ " not found in [" ++ Env.plain.timeString (vUnix 0 7).asTime ++ "]")) := by
  decide

/-- C10, counterexample: `["1", "1"]` against `["1", "2"]` in
order-insensitive mode with the root path ignored: the element `"2"` has no
equal element in the other sequence, and `Equal` returns no error. -/
theorem Equal_not_found_ignored :
    (∀ x ∈ (vStrs 0xc000010000 ["1", "1"]).elems,
      equalAt Env.plain (EqOption.resolve { IgnoreFields := [""], IgnoreArrayOrder := [("", true)] })
        (vStr "2") x "[1]" ≠ some GoError.nil)
    ∧ Equal Env.plain (vStrs 0xc000010000 ["1", "1"]) (vStrs 0xc000010020 ["1", "2"])
        [some { IgnoreFields := [""], IgnoreArrayOrder := [("", true)] }]
        = some GoError.nil := by
  decide

/-! ### C11 -/

/-- C11 (amended). Mapping comparison: for every two non-nil string-keyed maps
of one type, a type that does not implement `IEqual`, which are not the same
map, compared at a path `p` that is not ignored: the comparison succeeds if
and only if both maps have the same key set and, for every key `k`, the two
values compare equal at path `<p>.k`; a difference in key count `n` against
`m` is reported as `<p>: different map key length, n vs m`; with equal
counts, a key `k` of `expect` that is absent from `actual` and is the first
failing key in iteration order is reported as
`<p>.k: different map key isValid, true vs false`; and a key present only in
`actual` makes the comparison fail. -/
theorem equal_map_iff (env : Env) (opt : EqOption) (e a : Value) (p : String)
    (hT : e.typeOf = a.typeOf) (hk : e.Kind = Kind.map)
    (hne : e.IsNil = false) (hna : a.IsNil = false) (hptr : e.Pointer ≠ a.Pointer)
    (hI : e.typeOf.bind env.IEqual = none) (hp : p ∉ opt.ignoredPath)
    (hde : e.MapKeys.Nodup) (hda : a.MapKeys.Nodup) :
    (equalAt env opt e a p = some GoError.nil ↔
      (∀ k, k ∈ e.MapKeys ↔ k ∈ a.MapKeys)
      ∧ ∀ k x y, e.MapIndex k = some x → a.MapIndex k = some y →
          equalAt env opt x y (joinPath [p, ".", k]) = some GoError.nil)
    ∧ (e.MapKeys.length ≠ a.MapKeys.length →
        equalAt env opt e a p = some (GoError.errorf (p ++ ": different map key length, "
          ++ toString e.MapKeys.length ++ " vs " ++ toString a.MapKeys.length)))
    ∧ (e.MapKeys.length = a.MapKeys.length →
        ∀ (i : Nat) (k : String), e.MapKeys[i]? = some k → a.MapIndex k = none →
        (∀ (j : Nat) k', j < i → e.MapKeys[j]? = some k' →
          ∃ x y, e.MapIndex k' = some x ∧ a.MapIndex k' = some y
            ∧ equalAt env opt x y (joinPath [p, ".", k']) = some GoError.nil) →
        equalAt env opt e a p = some (GoError.errorf (joinPath [p, ".", k]
          ++ ": different map key isValid, true vs false")))
    ∧ (∀ k, k ∈ a.MapKeys → k ∉ e.MapKeys → equalAt env opt e a p ≠ some GoError.nil) := by
  have hmap := equalAt_map env opt e a p hp hT hk hne hna hptr hI
  have hiff := @equalMap_eq_nil_iff (equalAt env opt) e a p hde hda
  refine ⟨hmap ▸ hiff, fun hlen => ?_, fun hlen i k hi hk' hprev => ?_, fun k hka hke h => ?_⟩
  · rw [hmap]
    simp only [equalMap, if_pos hlen]
  · rw [hmap]
    simp only [equalMap, ne_eq, hlen, not_true_eq_false, if_false]
    obtain ⟨x, hx⟩ := Value.MapIndex_of_mem_MapKeys (List.mem_iff_getElem?.2 ⟨i, hi⟩)
    exact equalMap_loop_absent e a p _ i k x hi hx hk' hprev
  · rw [hmap] at h
    exact hke ((hiff.1 h).1 k |>.2 hka)

/-- C11, witness: the empty map against a map of one entry gives
`: different map key length, 0 vs 1`. -/
theorem equal_map_iff_witness :
    equalAt Env.plain {} (vIntMap 0xc000010000 []) (vIntMap 0xc000010030 [("a", 1)]) ""
      = some (GoError.errorf ": different map key length, 0 vs 1") :=
  (equal_map_iff Env.plain {} (vIntMap 0xc000010000 []) (vIntMap 0xc000010030 [("a", 1)]) ""
    rfl rfl rfl rfl (by decide) rfl (by decide) (by decide) (by decide)).2.1 (by decide)

/-- C11, counterexample: two non-nil maps of type `Sized`, whose `Equal`
method compares the numbers of keys, have different key sets and are equal. -/
theorem Equal_Sized_keys :
    Equal Env.samples (Value.map "xdeep.Sized" 0xc000010000 [("a", vStr "1")])
      (Value.map "xdeep.Sized" 0xc000010030 [("b", vStr "2")]) [] = some GoError.nil
    ∧ "a" ∈ (Value.map "xdeep.Sized" 0xc000010000 [("a", vStr "1")]).MapKeys
    ∧ "a" ∉ (Value.map "xdeep.Sized" 0xc000010030 [("b", vStr "2")]).MapKeys := by
  decide

/-! ### C12 -/

/-- C12. Custom equality precedence: for every two values of one type that
implements `IEqual`, with method `f`, at a path `p` that is not ignored, and,
when the type is a pointer, slice or map type, both non-nil and not identical
(`reflect.Value.Pointer` differs): the comparison returns no error exactly
when `expect.Equal(actual)` is true, and otherwise returns
`<p>: not equal, compared via implement IEqual interface`; the result does not
depend on the recursive calls of `equal`, so the structural comparison of the
parts is never consulted. -/
theorem equal_IEqual (env : Env) (opt : EqOption) (e a : Value) (p : String)
    (f : Value → Value → Bool) (hp : p ∉ opt.ignoredPath) (hT : e.typeOf = a.typeOf)
    (hI : e.typeOf.bind env.IEqual = some f)
    (hr : (e.Kind = Kind.ptr ∨ e.Kind = Kind.slice ∨ e.Kind = Kind.map) →
      e.IsNil = false ∧ a.IsNil = false ∧ e.Pointer ≠ a.Pointer) :
    (equalAt env opt e a p = some GoError.nil ↔ f e a = true)
    ∧ (f e a = false → equalAt env opt e a p
        = some (GoError.errorf (p ++ ": not equal, compared via implement IEqual interface")))
    ∧ (∀ eq : Value → Value → String → Option GoError,
        equal.step env opt eq e a p = equalAt env opt e a p) := by
  have hstep := fun eq => equal.step_IEqual env opt eq e a p f hp hT hI hr
  have hat := (equalAt_eq env opt e a p).trans (hstep _)
  refine ⟨?_, fun hf => ?_, fun eq => (hstep eq).trans hat.symm⟩
  · rw [hat]
    cases hf : f e a <;> simp
  · rw [hat, hf]
    simp

/-- C12, witness: the `*EqualBar` values of the tests, `bar1` against
`equal bar1`, are equal although their names differ. -/
theorem equal_IEqual_witness :
    equalAt Env.samples {} (vEqualBar 0xc000010000 "bar1") (vEqualBar 0xc000010010 "equal bar1") ""
      = some GoError.nil :=
  (equal_IEqual Env.samples {} (vEqualBar 0xc000010000 "bar1")
    (vEqualBar 0xc000010010 "equal bar1") "" _ (by decide) rfl rfl
    (fun _ => ⟨rfl, rfl, by decide⟩)).1.2 (by decide)

/-! ### C13 -/

/-- C13 (amended). Tag-based skip: when `IgnoreByTagName` is a non-empty tag
name, for every struct type that does not implement `IEqual` and has a field
whose tag of that name has `-` as its first comma-delimited token, the result
of comparing two values of that type, at any path and by `Equal`, does not
depend on the values of that field on either side. -/
theorem equal_tag_skip (env : Env) (o : EqOption) (t : String) (fs : List StructField)
    (xs ys : List Value) (i : Nat) (f : StructField) (tag : String) (x' y' : Value)
    (hn : o.IgnoreByTagName ≠ "") (hf : fs[i]? = some f)
    (ht : f.Tag.lookup o.IgnoreByTagName = some tag) (hd : firstToken tag = "-")
    (hI : env.IEqual ⟨Kind.struct, t, fs⟩ = none) :
    (∀ p, equalAt env o.resolve (Value.struct t fs (xs.set i x')) (Value.struct t fs (ys.set i y')) p
      = equalAt env o.resolve (Value.struct t fs xs) (Value.struct t fs ys) p)
    ∧ Equal env (Value.struct t fs (xs.set i x')) (Value.struct t fs (ys.set i y')) [some o]
      = Equal env (Value.struct t fs xs) (Value.struct t fs ys) [some o] := by
  have h : ∀ p, equalAt env o.resolve (Value.struct t fs (xs.set i x'))
      (Value.struct t fs (ys.set i y')) p
      = equalAt env o.resolve (Value.struct t fs xs) (Value.struct t fs ys) p := by
    intro p
    rw [equalAt_struct_cases env _ t fs _ _ p hI, equalAt_struct_cases env _ t fs xs ys p hI,
      equalStruct_loop_set o.resolve p fs xs ys i x' y' fun g hg => by
        rw [hf] at hg
        cases hg
        exact equalStruct.ipath_skip o.resolve p f tag hn ht hd]
  exact ⟨h, h ""⟩

/-- C13, witness: two values of type `Foo` whose field `Arr`, tagged
`json:"-"`, holds `[1]` and `[2]` compare under `IgnoreByTagName = "json"` as
the values with a nil `Arr` on both sides do. -/
theorem equal_tag_skip_witness :
    Equal Env.plain (vFoo "f" (vInts 0xc000010000 [1]) (Value.nilSlice "[]interface {}"))
      (vFoo "f" (vInts 0xc000010020 [2]) (Value.nilSlice "[]interface {}"))
      [some { IgnoreByTagName := "json" }]
    = Equal Env.plain (vFoo "f" (Value.nilSlice "[]int") (Value.nilSlice "[]interface {}"))
      (vFoo "f" (Value.nilSlice "[]int") (Value.nilSlice "[]interface {}"))
      [some { IgnoreByTagName := "json" }] :=
  (equal_tag_skip Env.plain { IgnoreByTagName := "json" } "xdeep.Foo" fooFields
    [vStr "f", Value.nilSlice "[]int", Value.nilSlice "[]interface {}"]
    [vStr "f", Value.nilSlice "[]int", Value.nilSlice "[]interface {}"] 1
    ⟨"Arr", [("json", "-")], true⟩ "-" (vInts 0xc000010000 [1]) (vInts 0xc000010020 [2])
    (by decide) rfl rfl (by decide) rfl).2

/-- C13, counterexample: two values of the struct type `Account`, whose
`Equal` method compares all fields, differ only in field `Token`, tagged
`json:"-"`; under `IgnoreByTagName = "json"` they are not equal, while each is
equal to itself: the result depends on the values of the skipped field. -/
theorem Equal_Account_skip :
    Equal Env.samples (vAccount "a" "x") (vAccount "a" "x") [some { IgnoreByTagName := "json" }]
      = some GoError.nil
    ∧ Equal Env.samples (vAccount "a" "x") (vAccount "a" "y") [some { IgnoreByTagName := "json" }]
      = some (GoError.errorf ": not equal, compared via implement IEqual interface") := by
  decide

/-! ### C14 -/

/-- C14 (amended). Tag-based rename: let `IgnoreByTagName` be a non-empty tag
name and `F` an exported field of a struct type that does not implement
`IEqual`, compared at a parent path that is not ignored. When `F` carries the
tag with a first comma-delimited token `n` that is non-empty and not `-`, the
field is compared at path `<parent>.n`: the comparison of two structs passes
only if the values of `F` compare equal at `<parent>.n`; when the fields
before `F` pass and the values of `F` differ, the diagnostic returned is the
one of the values of `F` at `<parent>.n` and starts with `<parent>.n`; and two
structs that differ only in `F` compare equal when `<parent>.n` is listed in
`IgnoreFields`, provided every `IEqual` implementation of a type that is not a
pointer, slice or map type holds of a value and itself (the values of the
model have no floating-point or function parts). A field with an empty token
or without the tag is compared at path `<parent>.F` in the same way. -/
theorem equal_tag_rename (env : Env) (o : EqOption) (t : String) (fs : List StructField)
    (xs ys : List Value) (p : String) (i : Nat) (f : StructField) (x y : Value)
    (hf : fs[i]? = some f) (hex : f.exported = true)
    (hx : xs[i]? = some x) (hy : ys[i]? = some y)
    (hI : env.IEqual ⟨Kind.struct, t, fs⟩ = none) (hp : p ∉ o.IgnoreFields) :
    (∀ q, (q = joinPath [p, ".", f.Name] ∧
          (o.IgnoreByTagName = "" ∨ f.Tag.lookup o.IgnoreByTagName = none
            ∨ ∃ tag, f.Tag.lookup o.IgnoreByTagName = some tag ∧ firstToken tag = ""))
        ∨ (∃ tag, q = joinPath [p, ".", firstToken tag] ∧ o.IgnoreByTagName ≠ ""
            ∧ f.Tag.lookup o.IgnoreByTagName = some tag
            ∧ firstToken tag ≠ "" ∧ firstToken tag ≠ "-") →
      (equalAt env o.resolve (Value.struct t fs xs) (Value.struct t fs ys) p = some GoError.nil →
        equalAt env o.resolve x y q = some GoError.nil)
      ∧ (∀ m, equalAt env o.resolve x y q = some (GoError.errorf m) →
          (∀ (j : Nat) g u v r, j < i → fs[j]? = some g → xs[j]? = some u → ys[j]? = some v →
            g.exported = true → equalStruct.ipath o.resolve p g = some r →
            equalAt env o.resolve u v r = some GoError.nil) →
          equalAt env o.resolve (Value.struct t fs xs) (Value.struct t fs ys) p
            = some (GoError.errorf m) ∧ ∃ s, m = q ++ s)
      ∧ (q ∈ o.IgnoreFields →
          (∀ (v : Value) (g : Value → Value → Bool),
            ¬ (v.Kind = Kind.ptr ∨ v.Kind = Kind.slice ∨ v.Kind = Kind.map) →
            v.typeOf.bind env.IEqual = some g → g v v = true) →
          (∀ (j : Nat), j ≠ i → xs[j]? = ys[j]?) →
          equalAt env o.resolve (Value.struct t fs xs) (Value.struct t fs ys) p
            = some GoError.nil)) := by
  intro q hq
  refine equalAt_struct_field env o.resolve t fs xs ys p i f x y q hf hex hx hy hI hp ?_
  rcases hq with ⟨rfl, hk⟩ | ⟨tag, rfl, hn, ht, h1, h2⟩
  · exact equalStruct.ipath_keep o.resolve p f hk
  · exact equalStruct.ipath_rename o.resolve p f tag hn ht h1 h2

/-- C14, witness: two values of type `Foo` that differ in field `Name`, tagged
`json:"name"`, are equal under `IgnoreByTagName = "json"` and
`IgnoreFields = ["name"]`. -/
theorem equal_tag_rename_witness :
    equalAt Env.plain (EqOption.resolve { IgnoreByTagName := "json", IgnoreFields := ["name"] })
      (vFoo "f1" (Value.nilSlice "[]int") (Value.nilSlice "[]interface {}"))
      (vFoo "f2" (Value.nilSlice "[]int") (Value.nilSlice "[]interface {}")) ""
      = some GoError.nil :=
  ((equal_tag_rename Env.plain { IgnoreByTagName := "json", IgnoreFields := ["name"] } "xdeep.Foo"
    fooFields [vStr "f1", Value.nilSlice "[]int", Value.nilSlice "[]interface {}"]
    [vStr "f2", Value.nilSlice "[]int", Value.nilSlice "[]interface {}"] "" 0
    ⟨"Name", [("json", "name")], true⟩ (vStr "f1") (vStr "f2") rfl rfl rfl rfl rfl (by decide))
    "name" (Or.inr ⟨"name", by decide, by decide, rfl, by decide, by decide⟩)).2.2
    (by decide) (fun v g _ h => by rw [Env.plain_IEqual] at h; cases h)
    (fun j hj => by
      match j with
      | 0 => exact absurd rfl hj
      | 1 => rfl
      | 2 => rfl
      | k + 3 => rfl)

/-- C14, counterexample: two values of the struct type `Account`, whose
`Equal` method compares all fields, differ only in field `ID`, tagged
`json:"id"`, and are not equal under `IgnoreByTagName = "json"` and
`IgnoreFields = ["id"]`. -/
theorem Equal_Account_rename :
    Equal Env.samples (vAccount "a" "x") (vAccount "b" "x")
      [some { IgnoreByTagName := "json", IgnoreFields := ["id"] }]
      = some (GoError.errorf ": not equal, compared via implement IEqual interface") := by
  decide

/-! ### C15 -/

/-- C15 (amended). Temporal modes: for every two timestamps at a path `p` that
is not ignored (`time.Time` does not implement `IEqual`: its `Equal` method
takes a `Time`). With `TimeEqual = "unixNano"` the comparison succeeds if and
only if the two values of `UnixNano()` are equal, whatever the zones, and
fails otherwise with `<p>: different unixNano time, t1 vs t2`; when the
nanosecond counts since the epoch of both timestamps fit in 64 bits, it
succeeds if and only if these counts are equal. With another mode, two
timestamps with different zone representations fail with
`<p>: different value, t1 vs t2`. -/
theorem equal_time_modes (env : Env) (opt : EqOption) (t1 t2 : GoTime) (p : String)
    (hp : p ∉ opt.ignoredPath) (hI : env.IEqual timeType = none) :
    (opt.TimeEqual = "unixNano" →
      (equalAt env opt (Value.time t1) (Value.time t2) p = some GoError.nil
        ↔ t1.UnixNano = t2.UnixNano)
      ∧ (t1.UnixNano ≠ t2.UnixNano →
          equalAt env opt (Value.time t1) (Value.time t2) p
            = some (GoError.errorf (p ++ ": different unixNano time, " ++ toString t1.UnixNano
                ++ " vs " ++ toString t2.UnixNano)))
      ∧ (-9223372036854775808 ≤ t1.nanosSinceEpoch → t1.nanosSinceEpoch < 9223372036854775808 →
          -9223372036854775808 ≤ t2.nanosSinceEpoch → t2.nanosSinceEpoch < 9223372036854775808 →
          (equalAt env opt (Value.time t1) (Value.time t2) p = some GoError.nil
            ↔ t1.nanosSinceEpoch = t2.nanosSinceEpoch)))
    ∧ (opt.TimeEqual ≠ "unixNano" → t1.loc ≠ t2.loc →
        equalAt env opt (Value.time t1) (Value.time t2) p
          = some (GoError.errorf (p ++ ": different value, " ++ env.timeString t1 ++ " vs "
              ++ env.timeString t2))) := by
  rw [equalAt_time env opt t1 t2 p hp hI]
  refine ⟨fun hm => ?_, fun hm hloc => ?_⟩
  · have hiff : some (equalTime env t1 t2 p opt.TimeEqual) = some GoError.nil
        ↔ t1.UnixNano = t2.UnixNano := by
      simp only [equalTime, hm, if_true]
      by_cases h : t1.UnixNano = t2.UnixNano
      · simp [h]
      · simp [h]
    refine ⟨hiff, fun h => ?_, fun a1 a2 b1 b2 => ?_⟩
    · simp only [equalTime, hm, if_true, if_pos h]
    · rw [hiff, GoTime.UnixNano_eq_wrap64, GoTime.UnixNano_eq_wrap64, wrap64_of_int64 a1 a2,
        wrap64_of_int64 b1 b2]
  · have hne : ¬ deepEqual (Value.time t1) (Value.time t2) = true := by
      rw [deepEqual_time]
      intro h
      exact hloc (congrArg GoTime.loc h)
    simp only [equalTime, if_neg hm, if_pos hne]

/-- C15, witness: the Unix epoch in UTC and the same instant in another zone
are equal with `TimeEqual = "unixNano"`. -/
theorem equal_time_modes_witness :
    equalAt Env.plain { TimeEqual := "unixNano" } (Value.time ⟨0, unixToInternal, none⟩)
      (Value.time ⟨0, unixToInternal, some "Asia/Shanghai"⟩) "" = some GoError.nil :=
  ((equal_time_modes Env.plain { TimeEqual := "unixNano" } ⟨0, unixToInternal, none⟩
    ⟨0, unixToInternal, some "Asia/Shanghai"⟩ "" (by decide) rfl).1 rfl).1.2 rfl

/-- C15, counterexample: `time.Unix(0, 0)` and
`time.Unix(18446744073, 709551616)`, both in UTC, are `2 ^ 64` nanoseconds
apart and are equal with `TimeEqual = "unixNano"`: `UnixNano()` is an `int64`
and is `0` for both. -/
theorem Equal_unixNano_wraps :
    Equal Env.plain (vUnix 0 0) (vUnix 18446744073 709551616) [some { TimeEqual := "unixNano" }]
      = some GoError.nil
    ∧ (vUnix 0 0).asTime.nanosSinceEpoch = 0
    ∧ (vUnix 18446744073 709551616).asTime.nanosSinceEpoch = 18446744073709551616 := by
  decide

/-! ### C16 -/

/-- C16. Pointer transparency: for every two non-nil pointers of one pointer
type that does not implement `IEqual`, to different addresses, and every path
and configuration, comparing the pointers gives the same outcome, no error or
the same diagnostic, as comparing the values pointed to at the same path. -/
theorem equal_pointer (env : Env) (opt : EqOption) (t : String) (a1 a2 : Nat) (v w : Value)
    (p : String) (hI : env.IEqual ⟨Kind.ptr, t, []⟩ = none) (hd : a1 ≠ a2) :
    equalAt env opt (Value.ptr t a1 v) (Value.ptr t a2 w) p = equalAt env opt v w p :=
  equalAt_ptr env opt t a1 a2 v w p hI hd

/-- C16, witness: pointers to the strings `a` and `b` under key `foo` give the
diagnostic of the strings, `foo: different value, a vs b`. -/
theorem equal_pointer_witness :
    equalAt Env.plain {} (Value.ptr "*string" 0xc000010000 (vStr "a"))
      (Value.ptr "*string" 0xc000010010 (vStr "b")) "foo"
      = some (GoError.errorf "foo: different value, a vs b") :=
  (equal_pointer Env.plain {} "*string" 0xc000010000 0xc000010010 (vStr "a") (vStr "b") "foo"
    rfl (by decide)).trans (by decide)

/-! ### C17 -/

/-- C17. Untyped nil: `Equal(nil, 1)` and `Equal(1, nil)` fail with the
diagnostic of the type check, `different Type`, and not with `different
IsNil`: the types of the untyped nil and of any other value differ, so the
type check returns before the nilness check of the untyped nil is reached. -/
theorem Equal_untyped_nil :
    Equal Env.plain Value.nil (vInt 1) []
      = some (GoError.errorf ": different Type, <nil> vs int")
    ∧ Equal Env.plain (vInt 1) Value.nil []
      = some (GoError.errorf ": different Type, int vs <nil>") := by
  decide

/-! ### C18 -/

/-- C18 (amended). Order-insensitive mode is set containment, not multiset
matching: for every two sequences of one type, a type that does not implement
`IEqual`, both nil or both non-nil, of equal length, of booleans, integers or
strings whose types do not implement `IEqual`, at a path marked as
order-insensitive (or with the wildcard `*` marked), the comparison succeeds
whenever every element of each sequence occurs in the other; so `[1, 1, 2]`
and `[1, 2, 2]` compare equal although neither is a permutation of the
other. -/
theorem equal_seq_contained (env : Env) (opt : EqOption) (e a : Value) (p : String)
    (hT : e.typeOf = a.typeOf) (hk : e.Kind = Kind.slice ∨ e.Kind = Kind.array)
    (hnil : e.IsNil = a.IsNil)
    (hI : e.typeOf.bind env.IEqual = none)
    (hs : ∀ x ∈ e.elems, (x.Kind = Kind.bool ∨ x.Kind = Kind.int ∨ x.Kind = Kind.string)
      ∧ x.typeOf.bind env.IEqual = none)
    (hlen : e.Len = a.Len)
    (hea : ∀ x ∈ e.elems, x ∈ a.elems) (hae : ∀ y ∈ a.elems, y ∈ e.elems)
    (hmark : opt.arrayOrder p = true ∨ opt.arrayOrder "*" = true) :
    equalAt env opt e a p = some GoError.nil
    ∧ Equal Env.plain (vInts 0xc000010000 [1, 1, 2]) (vInts 0xc000010020 [1, 2, 2])
        [some { IgnoreArrayOrder := [("", true)] }] = some GoError.nil
    ∧ ¬ (vInts 0xc000010000 [1, 1, 2]).elems.Perm (vInts 0xc000010020 [1, 2, 2]).elems :=
  ⟨equalAt_seq_contained env opt e a p hT hk hnil hI hs hlen hea hae hmark, by decide,
    fun h => absurd (h.map Value.intVal) (by decide)⟩

/-- C18, witness: `[1, 1, 2]` against `[1, 2, 2]` with the wildcard marked. -/
theorem equal_seq_contained_witness :
    equalAt Env.plain { IgnoreArrayOrder := [("*", true)] } (vInts 0xc000010000 [1, 1, 2])
      (vInts 0xc000010020 [1, 2, 2]) "" = some GoError.nil :=
  (equal_seq_contained Env.plain { IgnoreArrayOrder := [("*", true)] }
    (vInts 0xc000010000 [1, 1, 2]) (vInts 0xc000010020 [1, 2, 2]) "" rfl (Or.inl rfl) rfl rfl
    (fun x hx => by
      simp only [vInts, Value.elems, List.map_cons, List.map_nil, List.mem_cons,
        List.not_mem_nil, or_false] at hx
      rcases hx with rfl | rfl | rfl <;> exact ⟨Or.inr (Or.inl rfl), rfl⟩)
    rfl
    (fun x hx => by
      simp only [vInts, Value.elems, List.map_cons, List.map_nil, List.mem_cons,
        List.not_mem_nil, or_false] at hx ⊢
      rcases hx with rfl | rfl | rfl <;> simp)
    (fun x hx => by
      simp only [vInts, Value.elems, List.map_cons, List.map_nil, List.mem_cons,
        List.not_mem_nil, or_false] at hx ⊢
      rcases hx with rfl | rfl | rfl <;> simp)
    (Or.inr (by decide))).1

/-- C18, counterexample: a nil `[]int` and an empty non-nil `[]int` have equal
lengths and no element, and are not equal although the root path is marked
order-insensitive. -/
theorem Equal_nilSlice_empty_unordered :
    Equal Env.plain (Value.nilSlice "[]int") (vInts 0xc000010000 [])
      [some { IgnoreArrayOrder := [("", true)] }]
      = some (GoError.errorf ": different IsNil, true vs false")
    ∧ (Value.nilSlice "[]int").Len = (vInts 0xc000010000 []).Len
    ∧ (Value.nilSlice "[]int").elems = [] ∧ (vInts 0xc000010000 []).elems = [] := by
  refine ⟨by decide, rfl, rfl, rfl⟩

/-! ### C19 -/

/-- C19. Symmetry of success: for every configuration and every two values of
the model (acyclic) no part of which has a type that implements `IEqual`, the
keys of every map being pairwise distinct, `Equal(expect, actual)` returns no
error if and only if `Equal(actual, expect)` returns no error. -/
theorem Equal_symm (env : Env) (e a : Value) (opts : List (Option EqOption))
    (hIe : e.NoIEqual env) (hIa : a.NoIEqual env)
    (hDe : e.KeysDistinct) (hDa : a.KeysDistinct) :
    Equal env e a opts = some GoError.nil ↔ Equal env a e opts = some GoError.nil := by
  simp only [Equal]
  by_cases hl : opts.length > 1
  · rw [if_pos hl, if_pos hl]
  rw [if_neg hl, if_neg hl]
  exact ⟨equalAt_swap env _ _ e a "" (Nat.lt_succ_of_le (le_max_left _ _))
      (Nat.lt_succ_of_le (le_max_right _ _)) hIe hIa hDe hDa,
    equalAt_swap env _ _ a e "" (Nat.lt_succ_of_le (le_max_left _ _))
      (Nat.lt_succ_of_le (le_max_right _ _)) hIa hIe hDa hDe⟩

/-- C19, witness: the maps `{a: 1, b: 2}` and `{b: 2, a: 1}`, in this order
and in the other. -/
theorem Equal_symm_witness :
    Equal Env.plain (vIntMap 0xc000010000 [("a", 1), ("b", 2)])
        (vIntMap 0xc000010030 [("b", 2), ("a", 1)]) [] = some GoError.nil
    ↔ Equal Env.plain (vIntMap 0xc000010030 [("b", 2), ("a", 1)])
        (vIntMap 0xc000010000 [("a", 1), ("b", 2)]) [] = some GoError.nil :=
  Equal_symm Env.plain (vIntMap 0xc000010000 [("a", 1), ("b", 2)])
    (vIntMap 0xc000010030 [("b", 2), ("a", 1)]) []
    ⟨rfl, rfl, rfl, trivial⟩ ⟨rfl, rfl, rfl, trivial⟩
    ⟨by decide, List.nodup_nil, List.nodup_nil, trivial⟩
    ⟨by decide, List.nodup_nil, List.nodup_nil, trivial⟩

/-! ### C20 -/

/-- C20. Relaxing order never breaks equality: for every two values and every
two configurations with the same `IgnoreFields`, `IgnoreByTagName` and
`TimeEqual`, every path (or the wildcard `*`) marked true in
`IgnoreArrayOrder` of the first being marked true in the second, if `Equal`
returns no error under the first it returns no error under the second. The
call without an option is the call with the zero option. -/
theorem Equal_relax_order (env : Env) (e a : Value) (o1 o2 : EqOption)
    (hf : o2.IgnoreFields = o1.IgnoreFields) (htag : o2.IgnoreByTagName = o1.IgnoreByTagName)
    (htime : o2.TimeEqual = o1.TimeEqual)
    (hm : ∀ q, o1.arrayOrder q = true → o2.arrayOrder q = true)
    (h : Equal env e a [some o1] = some GoError.nil) :
    Equal env e a [some o2] = some GoError.nil
    ∧ Equal env e a [] = Equal env e a [some {}] := by
  refine ⟨?_, rfl⟩
  rw [Equal_some_opts] at h ⊢
  exact equalAt_mono env o1.resolve o2.resolve hf htag htime hm _ e a ""
    (Nat.lt_succ_of_le (le_max_left _ _)) (Nat.lt_succ_of_le (le_max_right _ _)) h

/-- C20, witness: `[1, 2]` against `[1, 2]` is equal with no path marked and
with the root path marked as order-insensitive. -/
theorem Equal_relax_order_witness :
    Equal Env.plain (vInts 0xc000010000 [1, 2]) (vInts 0xc000010020 [1, 2])
      [some { IgnoreArrayOrder := [("", true)] }] = some GoError.nil :=
  (Equal_relax_order Env.plain (vInts 0xc000010000 [1, 2]) (vInts 0xc000010020 [1, 2]) {}
    { IgnoreArrayOrder := [("", true)] } rfl rfl rfl
    (fun q h => by simp [EqOption.arrayOrder] at h) (by decide)).1

end XDeep
